import Mathlib

/-! # clienthellod: capture and parsing of a TLS ClientHello

A shallow embedding of `clienthello.go`.  Go slices are lists (a nil slice and an empty
slice are both the empty list), `uint8` is `Fin 256`, `uint16` values are natural numbers
below `65536` (every one that is stored is read from two bytes, or reduced explicitly), and
a method that mutates its receiver `ch` returns the record it leaves behind together with
the error it returns.  A result of `none` stands for a call that does not return normally:
a run-time panic, a fatal error thrown by the runtime, or the iteration budget of a loop of
the model running out.
-/

namespace Clienthellod

/-- One octet (`byte`, `uint8`). -/
abbrev Byte := Fin 256

/-- Go `error` values, kept by their message; `Option Error` is `none` for a nil error. -/
abbrev Error := String

/-- Conversion `uint8(n)`: the low eight bits. -/
def uint8 (n : Nat) : Byte := ⟨n % 256, Nat.mod_lt n (by decide)⟩

/-- Conversion `uint16(n)` and arithmetic in `uint16`: the low sixteen bits. -/
def uint16 (n : Nat) : Nat := n % 65536

/-- Function `binary.BigEndian.Uint16(b)`: `uint16(b[1]) | uint16(b[0])<<8`. -/
def BigEndianUint16 (b : List Byte) : Nat := (b.getD 0 0).val * 256 + (b.getD 1 0).val

/-! ## `cryptobyte.String`

The library `golang.org/x/crypto/cryptobyte` is used through `Skip`, `ReadUint16`,
`ReadUint8LengthPrefixed`, `ReadUint16LengthPrefixed` and `Empty`.  A read returns the
value read and the advanced string, or `none` where the Go method returns `false`.
(In Go a read of zero bytes from a nil string also reports `false`; every string read
here is a sub-slice of a non-nil buffer, on which a zero-length read succeeds.) -/

namespace cryptobyte

/-- The unexported `read(n)`: the first `n` bytes and the rest, or failure when fewer remain. -/
def read (s : List Byte) (n : Nat) : Option (List Byte × List Byte) :=
  if s.length < n then none else some (s.take n, s.drop n)

/-- Method `Skip(n)`. -/
def Skip (s : List Byte) (n : Nat) : Option (List Byte) :=
  match read s n with
  | none => none
  | some (_, rest) => some rest

/-- Method `ReadUint16`: a big-endian 16-bit value. -/
def ReadUint16 (s : List Byte) : Option (Nat × List Byte) :=
  match read s 2 with
  | none => none
  | some (v, rest) => some ((v.getD 0 0).val * 256 + (v.getD 1 0).val, rest)

/-- The unexported `readLengthPrefixed(lenLen, outChild)`: a big-endian length of `lenLen`
bytes, then that many bytes as the child string. -/
def readLengthPrefixed (lenLen : Nat) (s : List Byte) : Option (List Byte × List Byte) :=
  match read s lenLen with
  | none => none
  | some (lenBytes, s) =>
    let length := lenBytes.foldl (fun acc b => acc * 256 + b.val) 0
    match read s length with
    | none => none
    | some (v, s) => some (v, s)

/-- Method `ReadUint8LengthPrefixed`. -/
def ReadUint8LengthPrefixed (s : List Byte) : Option (List Byte × List Byte) :=
  readLengthPrefixed 1 s

/-- Method `ReadUint16LengthPrefixed`. -/
def ReadUint16LengthPrefixed (s : List Byte) : Option (List Byte × List Byte) :=
  readLengthPrefixed 2 s

end cryptobyte

open cryptobyte

/-! ## `io.ReadFull` over a `bytes.Reader` -/

/-- A `bytes.Reader`: the bytes not yet consumed. -/
abbrev Reader := List Byte

/-- Function `io.ReadFull(r, buf)` with `len(buf) = n`: the buffer afterwards (bytes read, the
rest of the buffer still zero), the reader afterwards, and the error: none when `n` bytes
were read, `EOF` when none were, `unexpected EOF` in between. -/
def ReadFull (r : Reader) (n : Nat) : List Byte × Reader × Option Error :=
  (r.take n ++ List.replicate (n - r.length) 0,
   r.drop n,
   if n ≤ r.length then none
   else if r.length = 0 then some "EOF" else some "unexpected EOF")

/-! ## GREASE -/

/-- Modelled from the spec: `utils.IsGREASEUint16` (package `internal/utils`), the predicate
of the 16 GREASE codepoints `0x?a?a`: both bytes equal and low nibble `0xa`. -/
def IsGREASEUint16 (v : Nat) : Bool := v / 256 == v % 256 && v % 16 == 10

/-- Modelled from the spec: `tls.GREASE_PLACEHOLDER`, the canonical placeholder `0x0a0a`. -/
def GREASE_PLACEHOLDER : Nat := 0x0a0a

/-! ## The record -/

/-- Modelled from the spec: `QUICTransportParameters`, an ordered list of (id, value) pairs. -/
abbrev QUICTransportParameters := List (Nat × List Byte)

/-- The struct `ClientHello`; every field defaults to its Go zero value.  The last
component, `finalizerSet`, is what the runtime knows of the object besides its fields. -/
structure ClientHello where
  raw : List Byte := []
  TLSRecordVersion : Nat := 0
  TLSHandshakeVersion : Nat := 0
  CipherSuites : List Nat := []
  CompressionMethods : List Byte := []
  Extensions : List Nat := []
  ExtensionsNormalized : List Nat := []
  ServerName : String := ""
  NamedGroupList : List Nat := []
  ECPointFormatList : List Byte := []
  SignatureSchemeList : List Nat := []
  ALPN : List String := []
  CertCompressAlgo : List Nat := []
  RecordSizeLimit : List Byte := []
  SupportedVersions : List Nat := []
  PSKKeyExchangeModes : List Byte := []
  KeyShare : List Nat := []
  ApplicationSettings : List String := []
  UserAgent : String := ""
  NumID : Int := 0
  NormNumID : Int := 0
  HexID : String := ""
  NormHexID : String := ""
  lengthPrefixedSupportedGroups : List Nat := []
  lengthPrefixedEcPointFormats : List Byte := []
  lengthPrefixedSignatureAlgos : List Nat := []
  alpnWithLengths : List Byte := []
  lengthPrefixedCertCompressAlgos : List Byte := []
  keyshareGroupsWithLengths : List Nat := []
  qtp : Option QUICTransportParameters := none
  -- Not a field of the Go struct: the state the runtime keeps for the object, whether
  -- `runtime.SetFinalizer` has registered a finalizer for it.
  finalizerSet : Bool := false
  deriving DecidableEq, Repr

/-- Method `Raw`. -/
def ClientHello.Raw (ch : ClientHello) : List Byte := ch.raw

/-! ## Reading a record from a reader -/

/-- Function `ReadClientHello`: the record (the pointer returned is never nil), the error,
and the reader afterwards. -/
def ReadClientHello (r : Reader) : ClientHello × Option Error × Reader :=
  let ch : ClientHello := {}
  -- Read exactly 5 bytes from the reader
  let (buf, r, err) := ReadFull r 5
  let ch := { ch with raw := buf }
  if err ≠ none then (ch, err, r)
  -- Check if the first byte is 0x16 (TLS Handshake)
  else if ch.raw.getD 0 0 ≠ 0x16 then (ch, some "not a TLS handshake record", r)
  else
    -- Read exactly length bytes from the reader
    let (body, r, err) := ReadFull r (BigEndianUint16 ((ch.raw.drop 3).take 2))
    ({ ch with raw := ch.raw ++ body }, err, r)

/-! ## What uTLS hands back

The parser of `github.com/refraction-networking/utls` is outside this repository; its
result types are kept as far as `parseExtensions` and `ParseClientHello` look at them. -/

/-- The uTLS extension values that `parseExtensions` distinguishes by type; `Other` is any
other extension type. -/
inductive TLSExtension where
  | SupportedCurves (Curves : List Nat)
  | SupportedPoints (SupportedPoints : List Byte)
  | SignatureAlgorithms (SupportedSignatureAlgorithms : List Nat)
  | ALPN (AlpnProtocols : List String)
  | UtlsCompressCert (Algorithms : List Nat)
  | FakeRecordSizeLimit (Limit : Nat)
  | SupportedVersions (Versions : List Nat)
  | PSKKeyExchangeModes (Modes : List Byte)
  | KeyShare (KeyShares : List (Nat × List Byte))
  | ApplicationSettings (SupportedProtocols : List String)
  | Generic (Id : Nat) (Data : List Byte)
  | Other
  deriving DecidableEq, Repr

/-- The struct `tls.ClientHelloSpec`, by the fields read here. -/
structure ClientHelloSpec where
  CipherSuites : List Nat := []
  CompressionMethods : List Byte := []
  Extensions : List TLSExtension := []
  deriving DecidableEq, Repr

/-- The struct `tls.ClientHelloMsg`, by the field read here. -/
structure ClientHelloMsg where
  ServerName : String := ""
  deriving DecidableEq, Repr

/-- The functions called by this file whose code lies outside it: two of uTLS, and two of
this package that live in other files. -/
structure Env where
  /-- Method `(*tls.Fingerprinter).RawClientHello`. -/
  RawClientHello : List Byte → Except Error ClientHelloSpec
  /-- Function `tls.UnmarshalClientHello`; `none` is a nil message. -/
  tlsUnmarshalClientHello : List Byte → Option ClientHelloMsg
  /-- Function `ParseQUICTransportParameters`; `none` is a nil pointer. -/
  ParseQUICTransportParameters : List Byte → Option QUICTransportParameters
  /-- Method `calcNumericID`, the hasher: the pair `(orig, norm)` of `int64`. -/
  calcNumericID : ClientHello → Int × Int

/-- Modelled from the spec: `utils.Uint16ToUint8` (package `internal/utils`), each 16-bit
value as its two bytes, in order. -/
def Uint16ToUint8 (a : List Nat) : List Byte :=
  a.flatMap (fun v => [uint8 (v / 256), uint8 v])

/-- Constant `dicttls.ExtType_quic_transport_parameters`. -/
def ExtType_quic_transport_parameters : Nat := 57

/-- Modelled from the spec: `FingerprintID.AsHex` (another file of this package), the
lowercase 16-character hex rendering of the identifier taken as a `uint64`. -/
def AsHex (id : Int) : String :=
  let u := (id % 2 ^ 64).toNat
  String.mk ((List.range 16).map
    (fun i => "0123456789abcdef".toList.getD (u / 16 ^ (15 - i) % 16) '0'))

/-- Function `sort.Slice(x, less)` with `less` the order `<` of `uint16`: the slice in
ascending order.  (The Go sort is not stable; on plain integers the ascending arrangement
is unique.) -/
def sortSlice (x : List Nat) : List Nat := x.insertionSort (· ≤ ·)

/-! ## Extensions as uTLS decoded them -/

/-- One iteration of the loop of `parseExtensions`: the type switch on one extension. -/
def parseExtensionsStep (env : Env) (ch : ClientHello) (ext : TLSExtension) : ClientHello :=
  match ext with
  | .SupportedCurves Curves =>
    let ch := { ch with NamedGroupList := ch.NamedGroupList ++ Curves.map uint16 }
    let ch := { ch with lengthPrefixedSupportedGroups :=
      ch.lengthPrefixedSupportedGroups ++ [uint16 (2 * uint16 ch.NamedGroupList.length)] }
    { ch with lengthPrefixedSupportedGroups :=
      ch.lengthPrefixedSupportedGroups ++ ch.NamedGroupList }
  | .SupportedPoints SupportedPoints =>
    let ch := { ch with ECPointFormatList := SupportedPoints }
    let ch := { ch with lengthPrefixedEcPointFormats :=
      ch.lengthPrefixedEcPointFormats ++ [uint8 SupportedPoints.length] }
    { ch with lengthPrefixedEcPointFormats :=
      ch.lengthPrefixedEcPointFormats ++ SupportedPoints }
  | .SignatureAlgorithms SupportedSignatureAlgorithms =>
    let ch := { ch with SignatureSchemeList :=
      ch.SignatureSchemeList ++ SupportedSignatureAlgorithms.map uint16 }
    let ch := { ch with lengthPrefixedSignatureAlgos :=
      ch.lengthPrefixedSignatureAlgos ++ [uint16 (2 * uint16 ch.SignatureSchemeList.length)] }
    { ch with lengthPrefixedSignatureAlgos :=
      ch.lengthPrefixedSignatureAlgos ++ ch.SignatureSchemeList }
  | .ALPN AlpnProtocols =>
    { ch with ALPN := AlpnProtocols }
  | .UtlsCompressCert Algorithms =>
    let ch := { ch with CertCompressAlgo := ch.CertCompressAlgo ++ Algorithms.map uint16 }
    let ch := { ch with lengthPrefixedCertCompressAlgos :=
      ch.lengthPrefixedCertCompressAlgos ++ [uint8 (2 * (uint8 ch.CertCompressAlgo.length).val)] }
    { ch with lengthPrefixedCertCompressAlgos :=
      ch.lengthPrefixedCertCompressAlgos ++ Uint16ToUint8 ch.CertCompressAlgo }
  | .FakeRecordSizeLimit Limit =>
    { ch with RecordSizeLimit := ch.RecordSizeLimit ++ [uint8 (Limit / 256), uint8 Limit] }
  | .SupportedVersions Versions =>
    { ch with SupportedVersions := ch.SupportedVersions ++ Versions.map uint16 }
  | .PSKKeyExchangeModes Modes =>
    { ch with PSKKeyExchangeModes := Modes }
  | .KeyShare KeyShares =>
    { ch with KeyShare := ch.KeyShare ++ KeyShares.map (fun ks => uint16 ks.1) }
  | .ApplicationSettings SupportedProtocols =>
    { ch with ApplicationSettings := SupportedProtocols }
  | .Generic Id Data =>
    if Id = ExtType_quic_transport_parameters then
      { ch with qtp := env.ParseQUICTransportParameters Data }
    else ch
  | .Other => ch

/-- Method `parseExtensions`: the loop over `chs.Extensions`. -/
def parseExtensions (env : Env) (ch : ClientHello) (chs : ClientHelloSpec) : ClientHello :=
  chs.Extensions.foldl (parseExtensionsStep env) ch

/-! ## Extensions as they stand in the raw bytes -/

/-- The loop `for !extensionData.Empty()` of the key_share case of `parseExtensionExtra`,
with an iteration budget. -/
def keyshareLoop : Nat → ClientHello → List Byte → Option (ClientHello × Option Error)
  | 0, _, _ => none
  | fuel + 1, ch, extensionData =>
    if extensionData.isEmpty then some (ch, none)
    else
      match ReadUint16 extensionData with
      | none => some (ch, some "unable to read keyshare group")
      | some (group, extensionData) =>
      match ReadUint16 extensionData with
      | none => some (ch, some "unable to read keyshare group")
      | some (length, extensionData) =>
      let group := if IsGREASEUint16 group then GREASE_PLACEHOLDER else group
      let ch := { ch with keyshareGroupsWithLengths :=
        ch.keyshareGroupsWithLengths ++ [group, length] }
      match Skip extensionData length with
      | none => some (ch, some "unable to skip keyshare data")
      | some extensionData => keyshareLoop fuel ch extensionData

/-- Method `parseExtensionExtra`: the record afterwards, the extension id returned, the
error returned. -/
def parseExtensionExtra (ch : ClientHello) (extensionID : Nat) (extensionData : List Byte) :
    Option (ClientHello × Nat × Option Error) :=
  if extensionID = 16 then -- ALPN
    some ({ ch with alpnWithLengths := extensionData }, extensionID, none)
  else if extensionID = 51 then -- keyshare
    match Skip extensionData 2 with
    | none => some (ch, 0, some "unable to skip keyshare total length")
    | some extensionData =>
      match keyshareLoop (extensionData.length + 1) ch extensionData with
      | none => none
      | some (ch, some err) => some (ch, 0, some err)
      | some (ch, none) => some (ch, extensionID, none)
  else if IsGREASEUint16 extensionID then
    some (ch, GREASE_PLACEHOLDER, none)
  else
    some (ch, extensionID, none)

/-- The loop `for !extensions.Empty()` of `parseExtensionsExtra`, with an iteration budget;
leaving the loop, `ch.Extensions` is assigned. -/
def parseExtensionsExtraLoop :
    Nat → ClientHello → List Byte → List Nat → Option (ClientHello × Option Error)
  | 0, _, _, _ => none
  | fuel + 1, ch, extensions, extensionIDs =>
    if extensions.isEmpty then some ({ ch with Extensions := extensionIDs }, none)
    else
      match ReadUint16 extensions with
      | none => some (ch, some "unable to read extension ID")
      | some (extensionID, extensions) =>
      match ReadUint16LengthPrefixed extensions with
      | none => some (ch, some "unable to read extension data")
      | some (extensionData, extensions) =>
      match parseExtensionExtra ch extensionID extensionData with
      | none => none
      | some (ch, _, some err) =>
        some (ch, some ("failed to parse extension, parseExtensionExtra(): " ++ err))
      | some (ch, extensionID, none) =>
        parseExtensionsExtraLoop fuel ch extensions (extensionIDs ++ [extensionID])

/-- Method `parseExtensionsExtra`. -/
def parseExtensionsExtra (ch : ClientHello) (extensions : List Byte) :
    Option (ClientHello × Option Error) :=
  parseExtensionsExtraLoop (extensions.length + 1) ch extensions []

/-- The condition of the first `if` of `parseExtra`, skipping the TLS record header:
`s.Skip(1) && s.ReadUint16(&recordVersion) && s.Skip(2)`. -/
def readRecordHeader (s : List Byte) : Option (Nat × List Byte) :=
  match Skip s 1 with
  | none => none
  | some s =>
  match ReadUint16 s with
  | none => none
  | some (recordVersion, s) =>
  match Skip s 2 with
  | none => none
  | some s => some (recordVersion, s)

/-- The condition of the second `if` of `parseExtra`: `s.Skip(1)` (handshake type),
`s.Skip(3)` (handshake length), `s.ReadUint16(&handshakeVersion)`, `s.Skip(32)` (random). -/
def readHandshakeHeader (s : List Byte) : Option (Nat × List Byte) :=
  match Skip s 1 with
  | none => none
  | some s =>
  match Skip s 3 with
  | none => none
  | some s =>
  match ReadUint16 s with
  | none => none
  | some (handshakeVersion, s) =>
  match Skip s 32 with
  | none => none
  | some s => some (handshakeVersion, s)

/-- Method `parseExtra`. -/
def parseExtra (env : Env) (ch : ClientHello) : Option (ClientHello × Option Error) :=
  let s := ch.raw
  match readRecordHeader s with
  | none => some (ch, some "failed to parse TLS header, cryptobyte.String().Skip(): false")
  | some (recordVersion, s) =>
  let ch := { ch with TLSRecordVersion := recordVersion }
  match readHandshakeHeader s with
  | none => some (ch, some "failed to parse ClientHello, cryptobyte.String().Skip(): false")
  | some (handshakeVersion, s) =>
  let ch := { ch with TLSHandshakeVersion := handshakeVersion }
  match ReadUint8LengthPrefixed s with
  | none => some (ch, some "unable to read session id")
  | some (_, s) =>
  match ReadUint16LengthPrefixed s with
  | none => some (ch, some "unable to read ciphersuites")
  | some (_, s) =>
  match ReadUint8LengthPrefixed s with
  | none => some (ch, some "unable to read compression methods")
  | some (_, s) =>
  if s.isEmpty then some (ch, none) -- no extensions
  else
  match ReadUint16LengthPrefixed s with
  | none => some (ch, some "unable to read extensions data")
  | some (extensions, _) =>
  match parseExtensionsExtra ch extensions with
  | none => none
  | some (ch, some err) =>
    some (ch, some ("failed to parse extensions, parseExtensionsExtra(): " ++ err))
  | some (ch, none) =>
  -- sort ch.Extensions and put result to ch.ExtensionsNormalized
  let ch := { ch with ExtensionsNormalized := sortSlice ch.Extensions }
  -- calculate fingerprint
  let ids := env.calcNumericID ch
  let ch := { ch with NumID := ids.1, NormNumID := ids.2 }
  let ch := { ch with HexID := AsHex ch.NumID }
  let ch := { ch with NormHexID := AsHex ch.NormNumID }
  some (ch, none)

/-! ## Parsing a captured record -/

/-- Method `ParseClientHello`.  The slice expression `ch.raw[5:]` panics on a buffer shorter
than five bytes.  `runtime.SetFinalizer(ch, ...)` registers a finalizer for the record; on a
record that has one already the runtime throws `finalizer already set` and the program ends.
(The finalizer itself clears `qtp` when the record is collected and has no effect on a record
that is in use.) -/
def ParseClientHello (env : Env) (ch : ClientHello) : Option (ClientHello × Option Error) :=
  -- Call uTLS to parse the raw bytes into ClientHelloSpec
  match env.RawClientHello ch.raw with
  | .error err =>
    some (ch, some ("failed to parse ClientHello, (*tls.Fingerprinter).RawClientHello(): " ++ err))
  | .ok chs =>
  let ch := { ch with CipherSuites := chs.CipherSuites }
  let ch := { ch with CompressionMethods := chs.CompressionMethods }
  -- parse extensions
  let ch := parseExtensions env ch chs
  -- Call uTLS to parse the raw bytes into ClientHelloMsg
  if ch.raw.length < 5 then none
  else
  match env.tlsUnmarshalClientHello (ch.raw.drop 5) with
  | none =>
    some (ch, some "failed to parse ClientHello, (*tls.ClientHelloInfo).Unmarshal(): nil")
  | some chm =>
  let ch := { ch with ServerName := chm.ServerName }
  -- runtime.SetFinalizer(ch, ...)
  if ch.finalizerSet then none
  else
  let ch := { ch with finalizerSet := true }
  -- In the end parse extra information from raw
  parseExtra env ch

/-- Function `UnmarshalClientHello`: the pointer returned (`none` for nil) and the error. -/
def UnmarshalClientHello (env : Env) (p : List Byte) :
    Option (Option ClientHello × Option Error) :=
  let (ch, err, _) := ReadClientHello p
  if err ≠ none then some (some ch, err)
  else
    match ParseClientHello env ch with
    | none => none
    | some (ch, err) => some (some ch, err)

/-! ## QUIC frames

The frame reader and the CRYPTO reassembly live in files of this package that are not at
hand; only their tests are.  They are modelled from the specification (sections 3, 4.1 and
4.3), with the names the tests use.  Offsets and lengths are QUIC varints, below `2 ^ 62`, so
their sums stay inside 64 bits and are taken in the natural numbers. -/

instance exceptDecidableEq {ε α : Type} [DecidableEq ε] [DecidableEq α] :
    DecidableEq (Except ε α)
  | .ok a, .ok b =>
    if h : a = b then isTrue (congrArg Except.ok h)
    else isFalse (fun e => h (Except.ok.inj e))
  | .error a, .error b =>
    if h : a = b then isTrue (congrArg Except.error h)
    else isFalse (fun e => h (Except.error.inj e))
  | .ok _, .error _ => isFalse (fun e => Except.noConfusion e)
  | .error _, .ok _ => isFalse (fun e => Except.noConfusion e)

/-- Modelled from the spec: the error kinds of section 7 that the QUIC path raises
(`ShortRead`, `UnknownQUICFrame`, `CRYPTOGap`, `CRYPTOConflict`, `BadVarint`). -/
inductive QUICError where
  | ShortRead (wanted have_ : Nat)
  | UnknownQUICFrame (type : Nat)
  | CRYPTOGap (cursor next : Nat)
  | CRYPTOConflict (offset : Nat)
  | BadVarint
  deriving DecidableEq, Repr

/-- Modelled from the spec: `take_varint` of the BinaryReader (section 4.1), a QUIC
variable-length integer: the top two bits of the first byte give the length (1, 2, 4 or 8
bytes), the remaining bits are the high bits of the value, big-endian.  An empty buffer or a
varint that overruns the buffer is `BadVarint`, and nothing is consumed. -/
def take_varint (r : List Byte) : Except QUICError (Nat × List Byte) :=
  match r with
  | [] => .error .BadVarint
  | b :: rest =>
    let n := 2 ^ (b.val / 64)
    if rest.length < n - 1 then .error .BadVarint
    else .ok ((rest.take (n - 1)).foldl (fun acc x => acc * 256 + x.val) (b.val % 64),
      rest.drop (n - 1))

/-- Modelled from the spec: `take(n)` of the BinaryReader (section 4.1): the next `n` bytes,
or `ShortRead` with nothing consumed. -/
def take (r : List Byte) (n : Nat) : Except QUICError (List Byte × List Byte) :=
  if r.length < n then .error (.ShortRead n r.length) else .ok (r.take n, r.drop n)

/-- Modelled from the spec: the tagged variant `QUICFrame` of section 3.  `PADDING` carries
its length, the first type byte included; `CRYPTO` its offset, its length and its data; ACK
and CONNECTION_CLOSE are parsed for their size only. -/
inductive QUICFrame where
  | PADDING (Length : Nat)
  | PING
  | ACK
  | CRYPTO (Offset Length : Nat) (data : List Byte)
  | CONNECTION_CLOSE
  deriving DecidableEq, Repr

/-- Modelled from the spec: `FrameType()`; the constants `QUICFrame_PADDING = 0`,
`QUICFrame_PING = 1`, `QUICFrame_CRYPTO = 6` are those of the tests, ACK and
CONNECTION_CLOSE answer with the first of their two types. -/
def QUICFrame.FrameType : QUICFrame → Nat
  | .PADDING _ => 0x00
  | .PING => 0x01
  | .ACK => 0x02
  | .CRYPTO _ _ _ => 0x06
  | .CONNECTION_CLOSE => 0x1c

/-- Modelled from the spec: `PADDING.ReadReader` (section 4.3), called once the type byte
has been read: the successive `0x00` bytes are coalesced into the frame, whose length counts
the type byte too; the run ends at the first other byte, which stays in the reader, or where
the buffer is exhausted.  The result is the length and the reader afterwards. -/
def PADDING.ReadReader : List Byte → Nat × List Byte
  | [] => (1, [])
  | b :: rest =>
    if b = 0x00 then ((PADDING.ReadReader rest).1 + 1, (PADDING.ReadReader rest).2)
    else (1, b :: rest)

/-- Modelled from the spec: `CRYPTO.ReadReader` (section 4.3), called once the type byte has
been read: varint offset, varint length, then `length` bytes of stream data.  The result is
the offset, the length, the data and the reader afterwards. -/
def CRYPTO.ReadReader (r : List Byte) :
    Except QUICError (Nat × Nat × List Byte × List Byte) :=
  match take_varint r with
  | .error e => .error e
  | .ok (offset, r) =>
  match take_varint r with
  | .error e => .error e
  | .ok (length, r) =>
  match take r length with
  | .error e => .error e
  | .ok (data, r) => .ok (offset, length, data, r)

/-- Modelled from the spec: `n` varints read and dropped. -/
def skip_varints : Nat → List Byte → Except QUICError (List Byte)
  | 0, r => .ok r
  | n + 1, r =>
    match take_varint r with
    | .error e => .error e
    | .ok (_, r) => skip_varints n r

/-- Modelled from the spec: the body of an ACK frame (section 4.3): varint largest, varint
delay, varint range_count, varint first_range, then `range_count` pairs (gap, length); type
`0x03` appends three ECN varints.  The result is the reader afterwards. -/
def ACK.ReadReader (ecn : Bool) (r : List Byte) : Except QUICError (List Byte) :=
  match take_varint r with
  | .error e => .error e
  | .ok (_, r) =>
  match take_varint r with
  | .error e => .error e
  | .ok (_, r) =>
  match take_varint r with
  | .error e => .error e
  | .ok (range_count, r) =>
  match take_varint r with
  | .error e => .error e
  | .ok (_, r) =>
  match skip_varints (2 * range_count) r with
  | .error e => .error e
  | .ok r => if ecn then skip_varints 3 r else .ok r

/-- Modelled from the spec: the body of a CONNECTION_CLOSE frame (section 4.3): varint error,
varint frame_type for type `0x1c` only, varint reason_length, the reason bytes.  The result
is the reader afterwards. -/
def CONNECTION_CLOSE.ReadReader (transport : Bool) (r : List Byte) :
    Except QUICError (List Byte) :=
  match take_varint r with
  | .error e => .error e
  | .ok (_, r) =>
  match (if transport then skip_varints 1 r else .ok r) with
  | .error e => .error e
  | .ok r =>
  match take_varint r with
  | .error e => .error e
  | .ok (reason_length, r) =>
  match take r reason_length with
  | .error e => .error e
  | .ok (_, r) => .ok r

/-- Modelled from the spec: one frame (section 4.3): the first byte is its type, the body
follows by type; any other type is `UnknownQUICFrame`. -/
def ReadFrame (r : List Byte) : Except QUICError (QUICFrame × List Byte) :=
  match r with
  | [] => .error (.ShortRead 1 0)
  | t :: r =>
    if t = 0x00 then .ok (.PADDING (PADDING.ReadReader r).1, (PADDING.ReadReader r).2)
    else if t = 0x01 then .ok (.PING, r)
    else if t = 0x02 ∨ t = 0x03 then
      match ACK.ReadReader (t = 0x03) r with
      | .error e => .error e
      | .ok r => .ok (.ACK, r)
    else if t = 0x06 then
      match CRYPTO.ReadReader r with
      | .error e => .error e
      | .ok (offset, length, data, r) => .ok (.CRYPTO offset length data, r)
    else if t = 0x1c ∨ t = 0x1d then
      match CONNECTION_CLOSE.ReadReader (t = 0x1c) r with
      | .error e => .error e
      | .ok r => .ok (.CONNECTION_CLOSE, r)
    else .error (.UnknownQUICFrame t.val)

/-- Modelled from the spec: the loop of `ReadAllFrames` (section 4.3), frames read until the
buffer is exhausted, with an iteration budget. -/
def ReadAllFramesLoop : Nat → List Byte → Option (Except QUICError (List QUICFrame))
  | 0, _ => none
  | fuel + 1, r =>
    if r.isEmpty then some (.ok [])
    else
      match ReadFrame r with
      | .error e => some (.error e)
      | .ok (frame, r) =>
        match ReadAllFramesLoop fuel r with
        | none => none
        | some (.error e) => some (.error e)
        | some (.ok frames) => some (.ok (frame :: frames))

/-- Modelled from the spec: `ReadAllFrames` (section 4.3, `ReadQUICFrames` of section 6). -/
def ReadAllFrames (r : List Byte) : Option (Except QUICError (List QUICFrame)) :=
  ReadAllFramesLoop (r.length + 1) r

/-- Modelled from the spec: the CRYPTO frames collected from a list (section 4.3), each as
(offset, length, data); a frame of another type yields nothing. -/
def cryptoOf : QUICFrame → Option (Nat × Nat × List Byte)
  | .CRYPTO Offset Length data => some (Offset, Length, data)
  | _ => none

/-- Modelled from the spec: the order of step 1 of the reassembly (section 4.3): by offset,
ascending. -/
def offsetLE (a b : Nat × Nat × List Byte) : Prop := a.1 ≤ b.1

instance offsetLEDecidable : DecidableRel offsetLE := fun a b => Nat.decLe a.1 b.1

instance offsetLETotal : IsTotal (Nat × Nat × List Byte) offsetLE :=
  ⟨fun a b => Nat.le_total a.1 b.1⟩

instance offsetLETrans : IsTrans (Nat × Nat × List Byte) offsetLE :=
  ⟨fun _ _ _ h1 h2 => Nat.le_trans h1 h2⟩

/-- Modelled from the spec: steps 2 and 3 of the CRYPTO reassembly (section 4.3) over the
frames sorted by offset, with the write cursor and the output so far.  A frame that starts
beyond the cursor is a gap; one that ends at or before it is skipped; otherwise the bytes
already written that it covers must be equal to its own (else a conflict), its bytes from
the cursor on are copied, and the cursor advances to its end. -/
def reassembleFrom (cursor : Nat) (out : List Byte) :
    List (Nat × Nat × List Byte) → Except QUICError (List Byte)
  | [] => .ok out
  | (offset, length, data) :: frames =>
    if offset > cursor then .error (.CRYPTOGap cursor offset)
    else if offset + length ≤ cursor then reassembleFrom cursor out frames
    else if (out.drop offset).take (cursor - offset) ≠ data.take (cursor - offset) then
      .error (.CRYPTOConflict offset)
    else reassembleFrom (offset + length) (out ++ (data.take length).drop (cursor - offset)) frames

/-- Modelled from the spec: `ReassembleCRYPTOFrames` (section 4.3, `ReassembleCRYPTO` of
section 6): the CRYPTO frames of the list, sorted by offset ascending, written from cursor 0
into one contiguous buffer.  Frames of other types are left out. -/
def ReassembleCRYPTOFrames (frames : List QUICFrame) : Except QUICError (List Byte) :=
  reassembleFrom 0 [] ((frames.filterMap cryptoOf).insertionSort offsetLE)

/-! ## Definitions used to state the properties

Encoders of the wire format, names for intermediate states of `parseExtra`, and a sample
record; they are not part of the program. -/

open cryptobyte

/-- The record header `ReadClientHello` looks at: the length field `L` of a buffer. -/
def declaredLength (p : List Byte) : Nat := (p.getD 3 0).val * 256 + (p.getD 4 0).val

/-- A 16-bit value as two bytes, big-endian. -/
def putUint16 (v : Nat) : List Byte := [uint8 (v / 256), uint8 v]

/-- One extension on the wire: the id, then the data behind its 16-bit length. -/
def wireExtension (id : Nat) (data : List Byte) : List Byte :=
  putUint16 id ++ putUint16 data.length ++ data

/-- The id stored for an extension: the placeholder for a GREASE id, else the id itself. -/
def normalizeGREASE (id : Nat) : Nat := if IsGREASEUint16 id then GREASE_PLACEHOLDER else id

/-- The assignments `parseExtra` makes once the extensions are read: the sorted copy, the
two identifiers and their hex renderings. -/
def fingerprinted (env : Env) (ch : ClientHello) : ClientHello :=
  let ch := { ch with ExtensionsNormalized := sortSlice ch.Extensions }
  let ids := env.calcNumericID ch
  let ch := { ch with NumID := ids.1, NormNumID := ids.2 }
  let ch := { ch with HexID := AsHex ch.NumID }
  { ch with NormHexID := AsHex ch.NormNumID }

/-- The record once `parseExtra` has stored the two versions. -/
def withVersions (ch : ClientHello) (recordVersion handshakeVersion : Nat) : ClientHello :=
  { { ch with TLSRecordVersion := recordVersion } with TLSHandshakeVersion := handshakeVersion }

/-- A byte string behind its 8-bit length. -/
def wireUint8Prefixed (x : List Byte) : List Byte := uint8 x.length :: x

/-- A byte string behind its 16-bit length. -/
def wireUint16Prefixed (x : List Byte) : List Byte := putUint16 x.length ++ x

/-- A result with the buffer of its record replaced. -/
def setRaw (r : List Byte) (x : ClientHello × Option Error) : ClientHello × Option Error :=
  ({ x.1 with raw := r }, x.2)

/-- The part of `parseExtra` behind the session id: cipher suites, compression methods,
extensions, fingerprint. -/
def parseExtraTail (env : Env) (ch : ClientHello) (s : List Byte) :
    Option (ClientHello × Option Error) :=
  match ReadUint16LengthPrefixed s with
  | none => some (ch, some "unable to read ciphersuites")
  | some (_, s) =>
  match ReadUint8LengthPrefixed s with
  | none => some (ch, some "unable to read compression methods")
  | some (_, s) =>
  if s.isEmpty then some (ch, none)
  else
  match ReadUint16LengthPrefixed s with
  | none => some (ch, some "unable to read extensions data")
  | some (extensions, _) =>
  match parseExtensionsExtra ch extensions with
  | none => none
  | some (ch, some err) =>
    some (ch, some ("failed to parse extensions, parseExtensionsExtra(): " ++ err))
  | some (ch, none) => some (fingerprinted env ch, none)

/-- The groups of a supported_groups extension as uTLS decoded it. -/
def curvesOf : TLSExtension → Option (List Nat)
  | .SupportedCurves Curves => some Curves
  | _ => none

/-- The schemes of a signature_algorithms extension as uTLS decoded it. -/
def signatureAlgorithmsOf : TLSExtension → Option (List Nat)
  | .SignatureAlgorithms SupportedSignatureAlgorithms => some SupportedSignatureAlgorithms
  | _ => none

/-- The formats of an ec_point_formats extension as uTLS decoded it. -/
def pointsOf : TLSExtension → Option (List Byte)
  | .SupportedPoints SupportedPoints => some SupportedPoints
  | _ => none

/-- The algorithm ids of a compress_certificate extension as uTLS decoded it. -/
def compressCertOf : TLSExtension → Option (List Nat)
  | .UtlsCompressCert Algorithms => some Algorithms
  | _ => none

/-- The versions of a supported_versions extension as uTLS decoded it. -/
def versionsOf : TLSExtension → Option (List Nat)
  | .SupportedVersions Versions => some Versions
  | _ => none

/-- The groups of the shares of a key_share extension as uTLS decoded it. -/
def keyShareGroupsOf : TLSExtension → Option (List Nat)
  | .KeyShare KeyShares => some (KeyShares.map (fun ks => ks.1))
  | _ => none

/-- The record with the fields that `parseExtra` may assign blanked: what is left are the
fields the raw-bytes pass never writes. -/
def outsideExtra (ch : ClientHello) : ClientHello :=
  { ch with TLSRecordVersion := 0, TLSHandshakeVersion := 0, Extensions := [],
            ExtensionsNormalized := [], NumID := 0, NormNumID := 0, HexID := "",
            NormHexID := "", alpnWithLengths := [], keyshareGroupsWithLengths := [] }

/-- One key_share entry on the wire: the group, then the key exchange behind its 16-bit
length. -/
def wireKeyShareEntry (group : Nat) (keyExchange : List Byte) : List Byte :=
  putUint16 group ++ putUint16 keyExchange.length ++ keyExchange

/-- The data of the last ALPN extension (id 16) among the records, or `init` when there is
none. -/
def lastALPN (recs : List (Nat × List Byte)) (init : List Byte) : List Byte :=
  recs.foldl (fun a r => if r.1 = 16 then r.2 else a) init

/-- The bytes `ReadClientHello` took from a reader that held `p`: `p` without what the
reader still holds afterwards. -/
def consumedBy (p : List Byte) : List Byte :=
  p.take (p.length - (ReadClientHello p).2.2.length)

/-- The low `k` bytes of a value, big-endian. -/
def putBE : Nat → Nat → List Byte
  | 0, _ => []
  | k + 1, v => uint8 (v / 256 ^ k) :: putBE k v

/-- A QUIC varint of `2 ^ w` bytes (`w` is 0, 1, 2 or 3) for a value below
`64 * 256 ^ (2 ^ w - 1)`: the two top bits of the first byte hold `w`. -/
def putVarint (w v : Nat) : List Byte :=
  uint8 (w * 64 + v / 256 ^ (2 ^ w - 1)) :: putBE (2 ^ w - 1) v

/-- A key_share body that is cut short: it has fewer than two bytes; or, behind the two bytes
of the list length and a number of whole entries, it goes on with one to three bytes; or it
goes on with an entry whose declared key exchange length exceeds the bytes that are left. -/
def keyShareTruncated (data : List Byte) : Prop :=
  data.length < 2 ∨
  ∃ (a b : Byte) (es : List (Nat × List Byte)) (tail : List Byte),
    data = a :: b :: (es.flatMap (fun e => wireKeyShareEntry e.1 e.2) ++ tail) ∧
    (∀ e ∈ es, e.1 < 65536 ∧ e.2.length < 65536) ∧
    ((1 ≤ tail.length ∧ tail.length ≤ 3) ∨
     (4 ≤ tail.length ∧ tail.length - 4 < BigEndianUint16 (tail.drop 2)))

/-! ## A sample record -/

/-- A stand-in hasher for the examples: a rolling sum over the handshake version and the
extension ids, read from the parsed fields only. -/
def sampleHasher (ch : ClientHello) : Int × Int :=
  (Int.ofNat (ch.Extensions.foldl (fun h x => (h * 31 + x) % 1000003) ch.TLSHandshakeVersion),
   - Int.ofNat (ch.ExtensionsNormalized.foldl (fun h x => (h * 31 + x) % 1000003)
      ch.TLSHandshakeVersion))

/-- An environment for the examples. -/
def sampleEnv : Env where
  RawClientHello := fun _ => .ok {}
  tlsUnmarshalClientHello := fun _ => some {}
  ParseQUICTransportParameters := fun _ => none
  calcNumericID := sampleHasher

/-- The part of the sample record up to and including `compression_methods`: record header,
handshake header, version `0x0303`, random, a two-byte session id, two cipher suites, one
compression method. -/
def sampleHead (recordLength : Byte) (handshakeLength : Byte) : List Byte :=
  [0x16, 0x03, 0x01, 0x00, recordLength] ++ [0x01, 0x00, 0x00, handshakeLength] ++
  [0x03, 0x03] ++ List.replicate 32 0x5a ++ [0x02, 0xaa, 0xbb] ++
  [0x00, 0x04, 0x13, 0x01, 0x13, 0x02] ++ [0x01, 0x00]

/-- The extensions of the sample record: a GREASE extension, key_share with a GREASE group and
x25519, ALPN, status_request. -/
def sampleExtensions : List Byte :=
  [0x1a, 0x1a, 0x00, 0x00] ++
  [0x00, 0x33, 0x00, 0x0d, 0x00, 0x0b, 0x2a, 0x2a, 0x00, 0x01, 0x00,
    0x00, 0x1d, 0x00, 0x02, 0x01, 0x02] ++
  [0x00, 0x10, 0x00, 0x05, 0x00, 0x03, 0x02, 0x68, 0x32] ++
  [0x00, 0x05, 0x00, 0x00]

/-- A ClientHello record with four extensions. -/
def sampleRaw : List Byte := sampleHead 85 81 ++ [0x00, 0x22] ++ sampleExtensions

/-- A ClientHello record that ends after `compression_methods`. -/
def sampleRawBare : List Byte := sampleHead 49 45

/-- What `parseExtensionsExtra` leaves of a fresh record on the sample extensions. -/
def sampleBlockParsed : ClientHello :=
  { Extensions := [0x0a0a, 51, 16, 5],
    alpnWithLengths := [0x00, 0x03, 0x02, 0x68, 0x32],
    keyshareGroupsWithLengths := [0x0a0a, 1, 0x1d, 2] }

/-- What `parseExtra` leaves of the fresh record holding the sample bytes. -/
def sampleParsed : ClientHello :=
  { raw := sampleRaw,
    TLSRecordVersion := 0x0301,
    TLSHandshakeVersion := 0x0303,
    Extensions := [0x0a0a, 51, 16, 5],
    ExtensionsNormalized := [5, 16, 51, 0x0a0a],
    NumID := 644709,
    NormNumID := -201037,
    HexID := "000000000009d665",
    NormHexID := "fffffffffffceeb3",
    alpnWithLengths := [0x00, 0x03, 0x02, 0x68, 0x32],
    keyshareGroupsWithLengths := [0x0a0a, 1, 0x1d, 2] }

/-- What `parseExtra` leaves of the fresh record holding the sample bytes without extensions. -/
def sampleBareParsed : ClientHello :=
  { raw := sampleRawBare,
    TLSRecordVersion := 0x0301,
    TLSHandshakeVersion := 0x0303 }

/-- The sample record with another random and other session id bytes. -/
def sampleRawVariant : List Byte :=
  [0x16, 0x03, 0x01, 0x00, 85] ++ [0x01, 0x00, 0x00, 81] ++
  [0x03, 0x03] ++ List.replicate 32 0x11 ++ [0x02, 0xcc, 0xdd] ++
  [0x00, 0x04, 0x13, 0x01, 0x13, 0x02] ++ [0x01, 0x00] ++ [0x00, 0x22] ++ sampleExtensions

/-- A `ClientHelloSpec` for the examples, GREASE values already replaced by the placeholder. -/
def sampleSpec : ClientHelloSpec :=
  { CipherSuites := [0x1301, 0x1302],
    CompressionMethods := [0],
    Extensions :=
      [.Other, .KeyShare [(0x0a0a, [0]), (0x1d, [])], .ALPN ["h2"],
       .SupportedCurves [0x0a0a, 0x1d, 0x17], .SupportedPoints [0],
       .SignatureAlgorithms [0x0403, 0x0804], .UtlsCompressCert [2, 1],
       .SupportedVersions [0x0a0a, 0x0304, 0x0303], .Other] }

/-- The sample extensions as records (id, data). -/
def sampleRecords : List (Nat × List Byte) :=
  [(0x1a1a, []),
   (51, [0x00, 0x0b, 0x2a, 0x2a, 0x00, 0x01, 0x00, 0x00, 0x1d, 0x00, 0x02, 0x01, 0x02]),
   (16, [0x00, 0x03, 0x02, 0x68, 0x32]),
   (5, [])]

/-- Two key_share entries (group, key exchange): a GREASE group and x25519. -/
def sampleShares : List (Nat × List Byte) := [(0x2a2a, [0]), (0x1d, [1, 2])]

/-- The 26 data bytes of the CRYPTO frame of the test `TestCRYPTO`. -/
def sampleCryptoData : List Byte :=
  [0x33, 0x00, 0x26, 0x00, 0x24, 0x00, 0x1d, 0x00, 0x20, 0xf8, 0x82, 0xf6, 0x48,
   0x2b, 0x20, 0x0c, 0xa0, 0x60, 0x79, 0x1c, 0x45, 0xa5, 0xb8, 0x43, 0x58, 0x11]

/-- The buffer `reassembledCryptoTruth` of the test `TestReadAllFramesAndReassemble`. -/
def reassembledCryptoTruth : List Byte :=
  [
   0x01, 0x00, 0x01, 0x22, 0x03, 0x03, 0xe3, 0x1b, 0x6b, 0x88, 0xce, 0x0e,
   0xff, 0x48, 0x08, 0x52, 0xa6, 0x21, 0x03, 0x90, 0x84, 0x92, 0x5d, 0xf6,
   0x8a, 0xcb, 0xad, 0x66, 0xdb, 0x9f, 0x3c, 0x94, 0x3f, 0x0e, 0xba, 0xf2,
   0x4a, 0x3c, 0x00, 0x00, 0x06, 0x13, 0x01, 0x13, 0x02, 0x13, 0x03, 0x01,
   0x00, 0x00, 0xf3, 0x44, 0x69, 0x00, 0x05, 0x00, 0x03, 0x02, 0x68, 0x33,
   0x00, 0x39, 0x00, 0x5d, 0x09, 0x02, 0x40, 0x67, 0x0f, 0x00, 0x01, 0x04,
   0x80, 0x00, 0x75, 0x30, 0x05, 0x04, 0x80, 0x60, 0x00, 0x00, 0xe2, 0xd0,
   0x11, 0x38, 0x87, 0x0c, 0x6f, 0x9f, 0x01, 0x96, 0x07, 0x04, 0x80, 0x60,
   0x00, 0x00, 0x71, 0x28, 0x04, 0x52, 0x56, 0x43, 0x4d, 0x03, 0x02, 0x45,
   0xc0, 0x20, 0x04, 0x80, 0x01, 0x00, 0x00, 0x08, 0x02, 0x40, 0x64, 0x80,
   0xff, 0x73, 0xdb, 0x0c, 0x00, 0x00, 0x00, 0x01, 0xba, 0xca, 0x5a, 0x5a,
   0x00, 0x00, 0x00, 0x01, 0x80, 0x00, 0x47, 0x52, 0x04, 0x00, 0x00, 0x00,
   0x01, 0x06, 0x04, 0x80, 0x60, 0x00, 0x00, 0x04, 0x04, 0x80, 0xf0, 0x00,
   0x00, 0x00, 0x33, 0x00, 0x26, 0x00, 0x24, 0x00, 0x1d, 0x00, 0x20, 0xf8,
   0x82, 0xf6, 0x48, 0x2b, 0x20, 0x0c, 0xa0, 0x60, 0x79, 0x1c, 0x45, 0xa5,
   0xb8, 0x43, 0x58, 0x11, 0x26, 0x64, 0xec, 0x4f, 0xf7, 0xd6, 0xea, 0x10,
   0x30, 0xf6, 0x9f, 0x36, 0x80, 0x49, 0x43, 0x00, 0x0d, 0x00, 0x14, 0x00,
   0x12, 0x04, 0x03, 0x08, 0x04, 0x04, 0x01, 0x05, 0x03, 0x08, 0x05, 0x05,
   0x01, 0x08, 0x06, 0x06, 0x01, 0x02, 0x01, 0x00, 0x10, 0x00, 0x05, 0x00,
   0x03, 0x02, 0x68, 0x33, 0x00, 0x0a, 0x00, 0x08, 0x00, 0x06, 0x00, 0x1d,
   0x00, 0x17, 0x00, 0x18, 0x00, 0x00, 0x00, 0x1a, 0x00, 0x18, 0x00, 0x00,
   0x15, 0x71, 0x2e, 0x63, 0x6c, 0x69, 0x65, 0x6e, 0x74, 0x68, 0x65, 0x6c,
   0x6c, 0x6f, 0x2e, 0x67, 0x61, 0x75, 0x6b, 0x2e, 0x61, 0x73, 0x00, 0x2b,
   0x00, 0x03, 0x02, 0x03, 0x04, 0x00, 0x2d, 0x00, 0x02, 0x01, 0x01, 0x00,
   0x1b, 0x00, 0x03, 0x02, 0x00, 0x02]

/-- The data of the first CRYPTO frame of the test fixture (offset 184, length 110). -/
def fixtureData184 : List Byte :=
  [
   0x26, 0x64, 0xec, 0x4f, 0xf7, 0xd6, 0xea, 0x10, 0x30, 0xf6, 0x9f, 0x36,
   0x80, 0x49, 0x43, 0x00, 0x0d, 0x00, 0x14, 0x00, 0x12, 0x04, 0x03, 0x08,
   0x04, 0x04, 0x01, 0x05, 0x03, 0x08, 0x05, 0x05, 0x01, 0x08, 0x06, 0x06,
   0x01, 0x02, 0x01, 0x00, 0x10, 0x00, 0x05, 0x00, 0x03, 0x02, 0x68, 0x33,
   0x00, 0x0a, 0x00, 0x08, 0x00, 0x06, 0x00, 0x1d, 0x00, 0x17, 0x00, 0x18,
   0x00, 0x00, 0x00, 0x1a, 0x00, 0x18, 0x00, 0x00, 0x15, 0x71, 0x2e, 0x63,
   0x6c, 0x69, 0x65, 0x6e, 0x74, 0x68, 0x65, 0x6c, 0x6c, 0x6f, 0x2e, 0x67,
   0x61, 0x75, 0x6b, 0x2e, 0x61, 0x73, 0x00, 0x2b, 0x00, 0x03, 0x02, 0x03,
   0x04, 0x00, 0x2d, 0x00, 0x02, 0x01, 0x01, 0x00, 0x1b, 0x00, 0x03, 0x02,
   0x00, 0x02]

/-- The data of the third CRYPTO frame of the test fixture (offset 0, length 158). -/
def fixtureData0 : List Byte :=
  [
   0x01, 0x00, 0x01, 0x22, 0x03, 0x03, 0xe3, 0x1b, 0x6b, 0x88, 0xce, 0x0e,
   0xff, 0x48, 0x08, 0x52, 0xa6, 0x21, 0x03, 0x90, 0x84, 0x92, 0x5d, 0xf6,
   0x8a, 0xcb, 0xad, 0x66, 0xdb, 0x9f, 0x3c, 0x94, 0x3f, 0x0e, 0xba, 0xf2,
   0x4a, 0x3c, 0x00, 0x00, 0x06, 0x13, 0x01, 0x13, 0x02, 0x13, 0x03, 0x01,
   0x00, 0x00, 0xf3, 0x44, 0x69, 0x00, 0x05, 0x00, 0x03, 0x02, 0x68, 0x33,
   0x00, 0x39, 0x00, 0x5d, 0x09, 0x02, 0x40, 0x67, 0x0f, 0x00, 0x01, 0x04,
   0x80, 0x00, 0x75, 0x30, 0x05, 0x04, 0x80, 0x60, 0x00, 0x00, 0xe2, 0xd0,
   0x11, 0x38, 0x87, 0x0c, 0x6f, 0x9f, 0x01, 0x96, 0x07, 0x04, 0x80, 0x60,
   0x00, 0x00, 0x71, 0x28, 0x04, 0x52, 0x56, 0x43, 0x4d, 0x03, 0x02, 0x45,
   0xc0, 0x20, 0x04, 0x80, 0x01, 0x00, 0x00, 0x08, 0x02, 0x40, 0x64, 0x80,
   0xff, 0x73, 0xdb, 0x0c, 0x00, 0x00, 0x00, 0x01, 0xba, 0xca, 0x5a, 0x5a,
   0x00, 0x00, 0x00, 0x01, 0x80, 0x00, 0x47, 0x52, 0x04, 0x00, 0x00, 0x00,
   0x01, 0x06, 0x04, 0x80, 0x60, 0x00, 0x00, 0x04, 0x04, 0x80, 0xf0, 0x00,
   0x00, 0x00]

/-- The 13 frames of the test fixture `allFramesRaw`. -/
def fixtureFrames : List QUICFrame :=
  [.PING, .PADDING 627, .CRYPTO 184 110 fixtureData184, .PADDING 135, .PING,
   .CRYPTO 158 26 sampleCryptoData, .PADDING 119, .CRYPTO 0 158 fixtureData0,
   .PING, .PING, .PING, .PING, .PING]

/-- The bytes `allFramesRaw` of the test fixture. -/
def allFramesRaw : List Byte :=
  [0x01] ++ List.replicate 627 0x00 ++
  [0x06, 0x40, 0xb8, 0x40, 0x6e] ++ fixtureData184 ++ List.replicate 135 0x00 ++
  [0x01] ++ [0x06, 0x40, 0x9e, 0x1a] ++ sampleCryptoData ++ List.replicate 119 0x00 ++
  [0x06, 0x00, 0x40, 0x9e] ++ fixtureData0 ++ [0x01, 0x01, 0x01, 0x01, 0x01]

/-- A key_share body cut short: behind the list length and one whole share, a share of group
x25519 that declares 32 bytes of key exchange and holds two. -/
def sampleKeyShareCut : List Byte :=
  [0x00, 0x0b, 0x2a, 0x2a, 0x00, 0x01, 0x00, 0x00, 0x1d, 0x00, 0x20, 0x01, 0x02]

/-- A ClientHello record as a TLS 1.3 client sends it: the ClientHello of the test fixture
`reassembledCryptoTruth` without its two leading extensions (application_settings and
quic_transport_parameters), behind a TLS record header.  Empty session id, three cipher
suites, then the extensions key_share (x25519), signature_algorithms, ALPN (`h3`),
supported_groups, server_name, supported_versions, psk_key_exchange_modes and
compress_certificate. -/
def sampleHello : List Byte :=
  [0x16, 0x03, 0x01, 0x00, 0xbc] ++ [0x01, 0x00, 0x00, 0xb8] ++ [0x03, 0x03] ++
  [0xe3, 0x1b, 0x6b, 0x88, 0xce, 0x0e, 0xff, 0x48, 0x08, 0x52, 0xa6, 0x21, 0x03, 0x90, 0x84,
   0x92, 0x5d, 0xf6, 0x8a, 0xcb, 0xad, 0x66, 0xdb, 0x9f, 0x3c, 0x94, 0x3f, 0x0e, 0xba, 0xf2,
   0x4a, 0x3c] ++
  [0x00] ++ [0x00, 0x06, 0x13, 0x01, 0x13, 0x02, 0x13, 0x03] ++ [0x01, 0x00] ++ [0x00, 0x89] ++
  [0x00, 0x33, 0x00, 0x26, 0x00, 0x24, 0x00, 0x1d, 0x00, 0x20,
   0xf8, 0x82, 0xf6, 0x48, 0x2b, 0x20, 0x0c, 0xa0, 0x60, 0x79, 0x1c, 0x45, 0xa5, 0xb8, 0x43,
   0x58, 0x11, 0x26, 0x64, 0xec, 0x4f, 0xf7, 0xd6, 0xea, 0x10, 0x30, 0xf6, 0x9f, 0x36, 0x80,
   0x49, 0x43] ++
  [0x00, 0x0d, 0x00, 0x14, 0x00, 0x12, 0x04, 0x03, 0x08, 0x04, 0x04, 0x01, 0x05, 0x03, 0x08,
   0x05, 0x05, 0x01, 0x08, 0x06, 0x06, 0x01, 0x02, 0x01] ++
  [0x00, 0x10, 0x00, 0x05, 0x00, 0x03, 0x02, 0x68, 0x33] ++
  [0x00, 0x0a, 0x00, 0x08, 0x00, 0x06, 0x00, 0x1d, 0x00, 0x17, 0x00, 0x18] ++
  [0x00, 0x00, 0x00, 0x1a, 0x00, 0x18, 0x00, 0x00, 0x15, 0x71, 0x2e, 0x63, 0x6c, 0x69, 0x65,
   0x6e, 0x74, 0x68, 0x65, 0x6c, 0x6c, 0x6f, 0x2e, 0x67, 0x61, 0x75, 0x6b, 0x2e, 0x61, 0x73] ++
  [0x00, 0x2b, 0x00, 0x03, 0x02, 0x03, 0x04] ++
  [0x00, 0x2d, 0x00, 0x02, 0x01, 0x01] ++
  [0x00, 0x1b, 0x00, 0x03, 0x02, 0x00, 0x02]

/-- What uTLS decodes from `sampleHello`, written out from its bytes: the cipher suites, the
compression methods and the extensions in wire order (server_name is a type `parseExtensions`
does not single out; uTLS keeps no key exchange data of a share whose group is not GREASE). -/
def sampleHelloSpec : ClientHelloSpec :=
  { CipherSuites := [0x1301, 0x1302, 0x1303],
    CompressionMethods := [0],
    Extensions :=
      [.KeyShare [(0x1d, [])],
       .SignatureAlgorithms
         [0x0403, 0x0804, 0x0401, 0x0503, 0x0805, 0x0501, 0x0806, 0x0601, 0x0201],
       .ALPN ["h3"], .SupportedCurves [0x1d, 0x17, 0x18], .Other,
       .SupportedVersions [0x0304], .PSKKeyExchangeModes [1], .UtlsCompressCert [2]] }

/-- An environment for the examples on the record `sampleHello`: uTLS rejects a record whose
handshake type is not 1 and decodes `sampleHello` to `sampleHelloSpec`, with the server name
`q.clienthello.gauk.as`.  It is meant for that record and its variants only, and rejects
every other one. -/
def sampleEnvHello : Env where
  RawClientHello := fun raw =>
    if raw.getD 5 0 ≠ 0x01 then .error "handshake message is not a ClientHello"
    else if raw = sampleHello then .ok sampleHelloSpec
    else .error "unable to read extensions data"
  tlsUnmarshalClientHello := fun p =>
    if p = sampleHello.drop 5 then some { ServerName := "q.clienthello.gauk.as" } else none
  ParseQUICTransportParameters := fun _ => none
  calcNumericID := sampleHasher

/-- The record `sampleHello` with handshake type 2 (ServerHello) in place of 1. -/
def sampleHelloOtherType : List Byte := sampleHello.set 5 0x02

/-- What `ParseClientHello` leaves of the fresh record holding `sampleHello`. -/
def sampleHelloParsed : ClientHello :=
  { raw := sampleHello,
    TLSRecordVersion := 0x0301,
    TLSHandshakeVersion := 0x0303,
    CipherSuites := [0x1301, 0x1302, 0x1303],
    CompressionMethods := [0],
    Extensions := [51, 13, 16, 10, 0, 43, 45, 27],
    ExtensionsNormalized := [0, 10, 13, 16, 27, 43, 45, 51],
    ServerName := "q.clienthello.gauk.as",
    NamedGroupList := [0x1d, 0x17, 0x18],
    SignatureSchemeList :=
      [0x0403, 0x0804, 0x0401, 0x0503, 0x0805, 0x0501, 0x0806, 0x0601, 0x0201],
    ALPN := ["h3"],
    CertCompressAlgo := [2],
    SupportedVersions := [0x0304],
    PSKKeyExchangeModes := [1],
    KeyShare := [0x1d],
    NumID := 102413,
    NormNumID := -947409,
    HexID := "000000000001900d",
    NormHexID := "fffffffffff18b2f",
    lengthPrefixedSupportedGroups := [6, 0x1d, 0x17, 0x18],
    lengthPrefixedSignatureAlgos :=
      [18, 0x0403, 0x0804, 0x0401, 0x0503, 0x0805, 0x0501, 0x0806, 0x0601, 0x0201],
    alpnWithLengths := [0x00, 0x03, 0x02, 0x68, 0x33],
    lengthPrefixedCertCompressAlgos := [2, 0, 2],
    keyshareGroupsWithLengths := [0x1d, 32],
    finalizerSet := true }

/-- What `parseExtensions` (with `sampleHelloSpec` again) and then `parseExtra` leave of
`sampleHelloParsed`, the record that has been parsed once. -/
def sampleHelloParsedAgain : ClientHello :=
  { sampleHelloParsed with
    NamedGroupList := [0x1d, 0x17, 0x18, 0x1d, 0x17, 0x18],
    SignatureSchemeList :=
      [0x0403, 0x0804, 0x0401, 0x0503, 0x0805, 0x0501, 0x0806, 0x0601, 0x0201,
       0x0403, 0x0804, 0x0401, 0x0503, 0x0805, 0x0501, 0x0806, 0x0601, 0x0201],
    CertCompressAlgo := [2, 2],
    SupportedVersions := [0x0304, 0x0304],
    KeyShare := [0x1d, 0x1d],
    lengthPrefixedSupportedGroups :=
      [6, 0x1d, 0x17, 0x18, 12, 0x1d, 0x17, 0x18, 0x1d, 0x17, 0x18],
    lengthPrefixedSignatureAlgos :=
      [18, 0x0403, 0x0804, 0x0401, 0x0503, 0x0805, 0x0501, 0x0806, 0x0601, 0x0201,
       36, 0x0403, 0x0804, 0x0401, 0x0503, 0x0805, 0x0501, 0x0806, 0x0601, 0x0201,
       0x0403, 0x0804, 0x0401, 0x0503, 0x0805, 0x0501, 0x0806, 0x0601, 0x0201],
    lengthPrefixedCertCompressAlgos := [2, 0, 2, 4, 0, 2, 0, 2],
    keyshareGroupsWithLengths := [0x1d, 32, 0x1d, 32] }

/-! ## Reads: basic facts -/

theorem ReadFull_err_none_iff (r : Reader) (n : Nat) :
    (ReadFull r n).2.2 = none ↔ n ≤ r.length := by
  unfold ReadFull
  by_cases h : n ≤ r.length
  · simp [h]
  · by_cases h0 : r.length = 0 <;> simp [h, h0]

theorem ReadFull_buf_of_le (r : Reader) (n : Nat) (h : n ≤ r.length) :
    (ReadFull r n).1 = r.take n := by
  unfold ReadFull
  simp [Nat.sub_eq_zero_of_le h]

theorem ReadClientHello_cons5 (a b c d e : Byte) (t : List Byte) :
    ReadClientHello (a :: b :: c :: d :: e :: t) =
      if a ≠ 0x16 then
        ({ raw := [a, b, c, d, e] }, some "not a TLS handshake record", t)
      else
        ({ raw := [a, b, c, d, e] ++ (ReadFull t (d.val * 256 + e.val)).1 },
          (ReadFull t (d.val * 256 + e.val)).2.2, (ReadFull t (d.val * 256 + e.val)).2.1) := by
  by_cases ha : a = 0x16
  · subst ha
    simp [ReadClientHello, ReadFull, BigEndianUint16]
  · simp [ReadClientHello, ReadFull, BigEndianUint16, ha]

theorem ReadClientHello_short (p : List Byte) (h : p.length < 5) :
    (ReadClientHello p).2.1 ≠ none := by
  have h5 : ¬ 5 ≤ p.length := by omega
  by_cases h0 : p.length = 0 <;> simp [ReadClientHello, ReadFull, h5, h0]

theorem ReadClientHello_ok_iff (p : List Byte) :
    (ReadClientHello p).2.1 = none ↔
      5 ≤ p.length ∧ p.getD 0 0 = 0x16 ∧ 5 + declaredLength p ≤ p.length := by
  by_cases h : p.length < 5
  · constructor
    · intro he
      exact absurd he (ReadClientHello_short p h)
    · rintro ⟨h5, -, -⟩
      omega
  · match p, h with
    | a :: b :: c :: d :: e :: t, _ =>
      rw [ReadClientHello_cons5]
      by_cases ha : a = 0x16
      · subst ha
        simp [ReadFull_err_none_iff, declaredLength]
        omega
      · simp [ha]
    | [], h => simp at h
    | [_], h => simp at h
    | [_, _], h => simp at h
    | [_, _, _], h => simp at h
    | [_, _, _, _], h => simp at h

/-- Claim C1: `ReadClientHello`, fed the byte string `p` as the whole content of the reader,
returns no error exactly when `p` has at least 5 bytes, its first byte is `0x16`, and it has at
least `5 + L` bytes, `L` being the big-endian 16-bit value in `p[3..4]`. -/
theorem ReadClientHello_no_error_iff (p : List Byte) :
    (ReadClientHello p).2.1 = none ↔
      5 ≤ p.length ∧ p.getD 0 0 = 0x16 ∧ 5 + declaredLength p ≤ p.length := by
  by_cases h : p.length < 5
  · constructor
    · intro he
      exact absurd he (ReadClientHello_short p h)
    · rintro ⟨h5, -, -⟩
      omega
  · match p, h with
    | a :: b :: c :: d :: e :: t, _ =>
      rw [ReadClientHello_cons5]
      by_cases ha : a = 0x16
      · subst ha
        simp [ReadFull_err_none_iff, declaredLength]
        omega
      · simp [ha]
    | [], h => simp at h
    | [_], h => simp at h
    | [_, _], h => simp at h
    | [_, _, _], h => simp at h
    | [_, _, _, _], h => simp at h

theorem ReadClientHello_raw_cons5 (b c d e : Byte) (t : List Byte)
    (hL : d.val * 256 + e.val ≤ t.length) :
    (ReadClientHello (0x16 :: b :: c :: d :: e :: t)).1.Raw =
      0x16 :: b :: c :: d :: e :: t.take (d.val * 256 + e.val) := by
  rw [ReadClientHello_cons5]
  simp [ClientHello.Raw, ReadFull_buf_of_le _ _ hL]

/-- Claim C2: when `ReadClientHello` succeeds on `p`, the captured buffer `Raw()` is exactly the
first `5 + L` bytes of `p` (`L` the big-endian 16-bit value in `p[3..4]`), and reading those
`5 + L` bytes followed by any suffix `x` succeeds too and captures the same buffer as reading
them alone: bytes after the record are ignored. -/
theorem ReadClientHello_raw_prefix (p : List Byte) (h : (ReadClientHello p).2.1 = none) :
    (ReadClientHello p).1.Raw = p.take (5 + declaredLength p) ∧
      ∀ x : List Byte,
        (ReadClientHello (p.take (5 + declaredLength p) ++ x)).2.1 = none ∧
        (ReadClientHello (p.take (5 + declaredLength p) ++ x)).1.Raw =
          (ReadClientHello (p.take (5 + declaredLength p))).1.Raw := by
  obtain ⟨h5, h0, hL⟩ := (ReadClientHello_ok_iff p).1 h
  match p, h5 with
  | a :: b :: c :: d :: e :: t, _ =>
    have ha : a = 0x16 := by simpa using h0
    subst ha
    have hL2 : d.val * 256 + e.val ≤ t.length := by
      simp [declaredLength] at hL
      omega
    have hdl : declaredLength (0x16 :: b :: c :: d :: e :: t) = d.val * 256 + e.val := by
      simp [declaredLength]
    have htk : (0x16 :: b :: c :: d :: e :: t).take (5 + (d.val * 256 + e.val)) =
        0x16 :: b :: c :: d :: e :: t.take (d.val * 256 + e.val) := by
      rw [Nat.add_comm 5]
      simp [List.take_succ_cons]
    rw [hdl, htk]
    refine ⟨ReadClientHello_raw_cons5 b c d e t hL2, fun x => ?_⟩
    have hlen : (t.take (d.val * 256 + e.val)).length = d.val * 256 + e.val := by
      simp [List.length_take, hL2]
    have e1 := ReadClientHello_raw_cons5 b c d e (t.take (d.val * 256 + e.val) ++ x)
      (by simp [List.length_append, hlen])
    have e2 := ReadClientHello_raw_cons5 b c d e (t.take (d.val * 256 + e.val))
      (by simp [hlen])
    constructor
    · rw [ReadClientHello_ok_iff]
      simp [declaredLength, List.length_append, hlen]
      omega
    · simp only [List.cons_append]
      rw [e1, e2]
      simp [List.take_append_of_le_length, hlen, List.take_take]

/-- Claim C2 at a record with a two-byte payload. -/
theorem ReadClientHello_raw_prefix_witness :
    (ReadClientHello [0x16, 3, 1, 0, 2, 1, 0, 7]).2.1 = none ∧
    ((ReadClientHello [0x16, 3, 1, 0, 2, 1, 0, 7]).1.Raw =
        ([0x16, 3, 1, 0, 2, 1, 0, 7] : List Byte).take
          (5 + declaredLength [0x16, 3, 1, 0, 2, 1, 0, 7]) ∧
      ∀ x : List Byte,
        (ReadClientHello (([0x16, 3, 1, 0, 2, 1, 0, 7] : List Byte).take
          (5 + declaredLength [0x16, 3, 1, 0, 2, 1, 0, 7]) ++ x)).2.1 = none ∧
        (ReadClientHello (([0x16, 3, 1, 0, 2, 1, 0, 7] : List Byte).take
          (5 + declaredLength [0x16, 3, 1, 0, 2, 1, 0, 7]) ++ x)).1.Raw =
          (ReadClientHello (([0x16, 3, 1, 0, 2, 1, 0, 7] : List Byte).take
            (5 + declaredLength [0x16, 3, 1, 0, 2, 1, 0, 7]))).1.Raw) :=
  ⟨by decide, ReadClientHello_raw_prefix [0x16, 3, 1, 0, 2, 1, 0, 7] (by decide)⟩

/-! ## Reads: what a successful read says -/

theorem read_eq_some {s : List Byte} {n : Nat} {a b : List Byte}
    (h : cryptobyte.read s n = some (a, b)) : n ≤ s.length ∧ a = s.take n ∧ b = s.drop n := by
  unfold cryptobyte.read at h
  split at h
  · simp at h
  · simp only [Option.some.injEq, Prod.mk.injEq] at h
    exact ⟨by omega, h.1.symm, h.2.symm⟩

theorem read_of_le {s : List Byte} {n : Nat} (h : n ≤ s.length) :
    cryptobyte.read s n = some (s.take n, s.drop n) := by
  unfold cryptobyte.read
  simp [Nat.not_lt.mpr h]

theorem read_eq_none {s : List Byte} {n : Nat} : cryptobyte.read s n = none ↔ s.length < n := by
  unfold cryptobyte.read
  split <;> simp [*]

theorem Skip_eq_some {s t : List Byte} {n : Nat} (h : Skip s n = some t) :
    n ≤ s.length ∧ t = s.drop n := by
  unfold Skip at h
  split at h
  · simp at h
  · next a b hr =>
    obtain ⟨h1, -, h3⟩ := read_eq_some hr
    simp only [Option.some.injEq] at h
    exact ⟨h1, by rw [← h, h3]⟩

theorem Skip_of_le {s : List Byte} {n : Nat} (h : n ≤ s.length) : Skip s n = some (s.drop n) := by
  unfold Skip
  rw [read_of_le h]

theorem Skip_eq_none {s : List Byte} {n : Nat} : Skip s n = none ↔ s.length < n := by
  unfold Skip
  split
  · next hr => simp [read_eq_none.1 hr]
  · next a b hr =>
    have := (read_eq_some hr).1
    simp
    omega

theorem ReadUint16_cons (a b : Byte) (t : List Byte) :
    ReadUint16 (a :: b :: t) = some (a.val * 256 + b.val, t) := by
  unfold ReadUint16
  rw [read_of_le (by simp)]
  simp

theorem ReadUint16_eq_none {s : List Byte} : ReadUint16 s = none ↔ s.length < 2 := by
  unfold ReadUint16
  split
  · next hr => simp [read_eq_none.1 hr]
  · next a b hr =>
    have := (read_eq_some hr).1
    simp
    omega

theorem ReadUint16_eq_some {s t : List Byte} {v : Nat} (h : ReadUint16 s = some (v, t)) :
    ∃ a b : Byte, s = a :: b :: t ∧ v = a.val * 256 + b.val := by
  match s with
  | [] => simp [ReadUint16, cryptobyte.read] at h
  | [_] => simp [ReadUint16, cryptobyte.read] at h
  | a :: b :: r =>
    rw [ReadUint16_cons] at h
    simp only [Option.some.injEq, Prod.mk.injEq] at h
    exact ⟨a, b, by rw [h.2], h.1.symm⟩

theorem ReadUint16LengthPrefixed_cons (a b : Byte) (t : List Byte) :
    ReadUint16LengthPrefixed (a :: b :: t) =
      if t.length < a.val * 256 + b.val then none
      else some (t.take (a.val * 256 + b.val), t.drop (a.val * 256 + b.val)) := by
  unfold ReadUint16LengthPrefixed readLengthPrefixed
  rw [read_of_le (by simp)]
  by_cases h : t.length < a.val * 256 + b.val <;> simp [cryptobyte.read, h]

theorem ReadUint16LengthPrefixed_eq_some {s child t : List Byte}
    (h : ReadUint16LengthPrefixed s = some (child, t)) :
    ∃ a b : Byte, s = a :: b :: (child ++ t) ∧ child.length = a.val * 256 + b.val := by
  match s with
  | [] => simp [ReadUint16LengthPrefixed, readLengthPrefixed, cryptobyte.read] at h
  | [_] => simp [ReadUint16LengthPrefixed, readLengthPrefixed, cryptobyte.read] at h
  | a :: b :: r =>
    rw [ReadUint16LengthPrefixed_cons] at h
    split at h
    · simp at h
    · next hlt =>
      simp only [Option.some.injEq, Prod.mk.injEq] at h
      refine ⟨a, b, ?_, ?_⟩
      · rw [← h.1, ← h.2, List.take_append_drop]
      · rw [← h.1, List.length_take]
        omega

theorem ReadUint8LengthPrefixed_cons (a : Byte) (t : List Byte) :
    ReadUint8LengthPrefixed (a :: t) =
      if t.length < a.val then none else some (t.take a.val, t.drop a.val) := by
  unfold ReadUint8LengthPrefixed readLengthPrefixed
  rw [read_of_le (by simp)]
  by_cases h : t.length < a.val <;> simp [cryptobyte.read, h]

theorem ReadUint8LengthPrefixed_eq_some {s child t : List Byte}
    (h : ReadUint8LengthPrefixed s = some (child, t)) :
    ∃ a : Byte, s = a :: (child ++ t) ∧ child.length = a.val := by
  match s with
  | [] => simp [ReadUint8LengthPrefixed, readLengthPrefixed, cryptobyte.read] at h
  | a :: r =>
    rw [ReadUint8LengthPrefixed_cons] at h
    split at h
    · simp at h
    · next hlt =>
      simp only [Option.some.injEq, Prod.mk.injEq] at h
      refine ⟨a, ?_, ?_⟩
      · rw [← h.1, ← h.2, List.take_append_drop]
      · rw [← h.1, List.length_take]
        omega

theorem putUint16_bytes (a b : Byte) : putUint16 (a.val * 256 + b.val) = [a, b] := by
  have ha := a.isLt
  have hb := b.isLt
  simp only [putUint16, uint8, List.cons.injEq, and_true]
  constructor
  · apply Fin.ext
    show (a.val * 256 + b.val) / 256 % 256 = a.val
    omega
  · apply Fin.ext
    show (a.val * 256 + b.val) % 256 = b.val
    omega

/-! ## One extension -/

theorem IsGREASEUint16_16 : IsGREASEUint16 16 = false := by decide

theorem IsGREASEUint16_51 : IsGREASEUint16 51 = false := by decide

theorem parseExtensionExtra_default (ch : ClientHello) (id : Nat) (data : List Byte)
    (h16 : id ≠ 16) (h51 : id ≠ 51) :
    parseExtensionExtra ch id data = some (ch, normalizeGREASE id, none) := by
  unfold parseExtensionExtra normalizeGREASE
  simp only [h16, h51, if_false]
  split <;> rfl

theorem parseExtensionExtra_id {ch ch2 : ClientHello} {id id2 : Nat} {data : List Byte}
    (h : parseExtensionExtra ch id data = some (ch2, id2, none)) :
    id2 = normalizeGREASE id := by
  by_cases h16 : id = 16
  · subst h16
    simp only [parseExtensionExtra, if_true, Option.some.injEq, Prod.mk.injEq] at h
    rw [← h.2.1]
    simp [normalizeGREASE, IsGREASEUint16_16]
  · by_cases h51 : id = 51
    · subst h51
      have hn : normalizeGREASE 51 = 51 := by simp [normalizeGREASE, IsGREASEUint16_51]
      rw [hn]
      unfold parseExtensionExtra at h
      simp only [h16, if_false, if_true] at h
      split at h
      · simp at h
      · split at h
        · simp at h
        · simp at h
        · simp only [Option.some.injEq, Prod.mk.injEq] at h
          exact h.2.1.symm
    · rw [parseExtensionExtra_default ch id data h16 h51] at h
      simp only [Option.some.injEq, Prod.mk.injEq] at h
      exact h.2.1.symm

/-- Claim C7: for an extension id that is none of the recognized ids and for any extension
data, `parseExtensionExtra` returns no error, returns the id itself (the placeholder `0x0a0a`
when the id is a GREASE codepoint) and leaves the whole record as it was. -/
theorem parseExtensionExtra_unrecognized (ch : ClientHello) (id : Nat) (data : List Byte)
    (h : id ∉ [0, 10, 11, 13, 16, 27, 28, 43, 45, 51, 57, 17513]) :
    parseExtensionExtra ch id data =
      some (ch, (if IsGREASEUint16 id then 0x0a0a else id), none) := by
  have h16 : id ≠ 16 := fun e => h (by simp [e])
  have h51 : id ≠ 51 := fun e => h (by simp [e])
  exact parseExtensionExtra_default ch id data h16 h51

/-- Claim C7 at the GREASE id `0x3a3a` with three bytes of data. -/
theorem parseExtensionExtra_unrecognized_witness :
    (0x3a3a ∉ [0, 10, 11, 13, 16, 27, 28, 43, 45, 51, 57, 17513]) ∧
    parseExtensionExtra { raw := [1, 2] } 0x3a3a [7, 8, 9] =
      some ({ raw := [1, 2] }, (if IsGREASEUint16 0x3a3a then 0x0a0a else 0x3a3a), none) :=
  ⟨by decide, parseExtensionExtra_unrecognized { raw := [1, 2] } 0x3a3a [7, 8, 9] (by decide)⟩

/-! ## The extensions block -/

theorem parseExtensionsExtraLoop_ids :
    ∀ (fuel : Nat) (ch : ClientHello) (block : List Byte) (acc : List Nat) (ch' : ClientHello),
      parseExtensionsExtraLoop fuel ch block acc = some (ch', none) →
      ∃ recs : List (Nat × List Byte),
        (∀ r ∈ recs, r.1 < 65536 ∧ r.2.length < 65536) ∧
        block = recs.flatMap (fun r => wireExtension r.1 r.2) ∧
        ch'.Extensions = acc ++ recs.map (fun r => normalizeGREASE r.1) := by
  intro fuel
  induction fuel with
  | zero =>
    intro ch block acc ch' h
    simp [parseExtensionsExtraLoop] at h
  | succ n ih =>
    intro ch block acc ch' h
    unfold parseExtensionsExtraLoop at h
    split at h
    · next hemp =>
      refine ⟨[], by simp, by simpa using hemp, ?_⟩
      simp only [Option.some.injEq, Prod.mk.injEq, and_true] at h
      rw [← h]
      simp
    · split at h
      · simp at h
      · next id rest1 h1 =>
        split at h
        · simp at h
        · next data rest2 h2 =>
          split at h
          · simp at h
          · simp at h
          · next ch2 id2 h3 =>
            obtain ⟨recs, hb, hw, he⟩ := ih _ _ _ _ h
            obtain ⟨a, b, hs, hv⟩ := ReadUint16_eq_some h1
            obtain ⟨c, d, hs2, hl⟩ := ReadUint16LengthPrefixed_eq_some h2
            have hid := parseExtensionExtra_id h3
            refine ⟨(id, data) :: recs, ?_, ?_, ?_⟩
            · intro r hr
              rcases List.mem_cons.1 hr with rfl | hr
              · have := a.isLt
                have := b.isLt
                have := c.isLt
                have := d.isLt
                constructor <;> simp only <;> omega
              · exact hb r hr
            · rw [hs, hs2, List.flatMap_cons, ← hw, hv]
              simp [wireExtension, hl, putUint16_bytes]
            · rw [he, hid]
              simp

/-- Claim C3: when `parseExtensionsExtra` succeeds on an extensions block, the block is a
concatenation of records (a 16-bit id, then data behind a 16-bit length), and `ch.Extensions`
afterwards is exactly the list of their ids in wire order, each GREASE id replaced by `0x0a0a`
and every other id unchanged, whatever `ch.Extensions` held before. -/
theorem parseExtensionsExtra_extensions (ch ch' : ClientHello) (block : List Byte)
    (h : parseExtensionsExtra ch block = some (ch', none)) :
    ∃ recs : List (Nat × List Byte),
      (∀ r ∈ recs, r.1 < 65536 ∧ r.2.length < 65536) ∧
      block = recs.flatMap (fun r => wireExtension r.1 r.2) ∧
      ch'.Extensions = recs.map (fun r => if IsGREASEUint16 r.1 then 0x0a0a else r.1) ∧
      ch'.Extensions.length = recs.length := by
  obtain ⟨recs, hb, hw, he⟩ := parseExtensionsExtraLoop_ids _ ch block [] ch' h
  refine ⟨recs, hb, hw, ?_, ?_⟩
  · simpa [normalizeGREASE, GREASE_PLACEHOLDER] using he
  · rw [he]
    simp

/-! ## The path of `parseExtra` through a record -/

theorem parseExtra_ok_inv {env : Env} {ch ch' : ClientHello}
    (h : parseExtra env ch = some (ch', none)) :
    ∃ (rv hv : Nat) (s1 s2 sid s3 cs s4 cm s5 : List Byte),
      readRecordHeader ch.raw = some (rv, s1) ∧
      readHandshakeHeader s1 = some (hv, s2) ∧
      ReadUint8LengthPrefixed s2 = some (sid, s3) ∧
      ReadUint16LengthPrefixed s3 = some (cs, s4) ∧
      ReadUint8LengthPrefixed s4 = some (cm, s5) ∧
      ((s5 = [] ∧ ch' = withVersions ch rv hv) ∨
       (s5 ≠ [] ∧ ∃ (exts s6 : List Byte) (ch2 : ClientHello),
          ReadUint16LengthPrefixed s5 = some (exts, s6) ∧
          parseExtensionsExtra (withVersions ch rv hv) exts = some (ch2, none) ∧
          ch' = fingerprinted env ch2)) := by
  unfold parseExtra at h
  simp only at h
  split at h
  · simp at h
  · next rv s1 h1 =>
    split at h
    · simp at h
    · next hv s2 h2 =>
      split at h
      · simp at h
      · next sid s3 h3 =>
        split at h
        · simp at h
        · next cs s4 h4 =>
          split at h
          · simp at h
          · next cm s5 h5 =>
            refine ⟨rv, hv, s1, s2, sid, s3, cs, s4, cm, s5, h1, h2, h3, h4, h5, ?_⟩
            split at h
            · next hemp =>
              left
              simp only [Option.some.injEq, Prod.mk.injEq, and_true] at h
              exact ⟨by simpa using hemp, h.symm⟩
            · next hemp =>
              right
              refine ⟨by simpa using hemp, ?_⟩
              split at h
              · simp at h
              · next exts s6 h6 =>
                split at h
                · simp at h
                · simp at h
                · next ch2 h7 =>
                  simp only [Option.some.injEq, Prod.mk.injEq, and_true] at h
                  exact ⟨exts, s6, ch2, h6, h7, h.symm⟩

/-! ## What the raw-bytes pass may change -/

theorem keyshareLoop_frame :
    ∀ (fuel : Nat) (ch : ClientHello) (d : List Byte) (ch' : ClientHello) (e : Option Error),
      keyshareLoop fuel ch d = some (ch', e) →
      ∃ ks : List Nat, ch' = { ch with keyshareGroupsWithLengths := ks } := by
  intro fuel
  induction fuel with
  | zero =>
    intro ch d ch' e h
    simp [keyshareLoop] at h
  | succ n ih =>
    intro ch d ch' e h
    unfold keyshareLoop at h
    split at h
    · simp only [Option.some.injEq, Prod.mk.injEq] at h
      exact ⟨ch.keyshareGroupsWithLengths, h.1.symm⟩
    · split at h
      · simp only [Option.some.injEq, Prod.mk.injEq] at h
        exact ⟨ch.keyshareGroupsWithLengths, h.1.symm⟩
      · split at h
        · simp only [Option.some.injEq, Prod.mk.injEq] at h
          exact ⟨ch.keyshareGroupsWithLengths, h.1.symm⟩
        · simp only at h
          split at h
          · simp only [Option.some.injEq, Prod.mk.injEq] at h
            exact ⟨_, h.1.symm⟩
          · obtain ⟨ks, hks⟩ := ih _ _ _ _ h
            exact ⟨ks, hks⟩

theorem parseExtensionExtra_frame {ch ch' : ClientHello} {id id2 : Nat} {data : List Byte}
    {e : Option Error} (h : parseExtensionExtra ch id data = some (ch', id2, e)) :
    ∃ (alpn : List Byte) (ks : List Nat),
      ch' = { ch with alpnWithLengths := alpn, keyshareGroupsWithLengths := ks } := by
  unfold parseExtensionExtra at h
  split at h
  · simp only [Option.some.injEq, Prod.mk.injEq] at h
    exact ⟨data, ch.keyshareGroupsWithLengths, h.1.symm⟩
  · split at h
    · split at h
      · simp only [Option.some.injEq, Prod.mk.injEq] at h
        exact ⟨ch.alpnWithLengths, ch.keyshareGroupsWithLengths, h.1.symm⟩
      · split at h
        · simp at h
        · next c err hk =>
          obtain ⟨ks, hks⟩ := keyshareLoop_frame _ _ _ _ _ hk
          simp only [Option.some.injEq, Prod.mk.injEq] at h
          exact ⟨ch.alpnWithLengths, ks, by rw [← h.1, hks]⟩
        · next c hk =>
          obtain ⟨ks, hks⟩ := keyshareLoop_frame _ _ _ _ _ hk
          simp only [Option.some.injEq, Prod.mk.injEq] at h
          exact ⟨ch.alpnWithLengths, ks, by rw [← h.1, hks]⟩
    · split at h <;>
      · simp only [Option.some.injEq, Prod.mk.injEq] at h
        exact ⟨ch.alpnWithLengths, ch.keyshareGroupsWithLengths, h.1.symm⟩

theorem parseExtensionsExtraLoop_frame :
    ∀ (fuel : Nat) (ch : ClientHello) (block : List Byte) (acc : List Nat) (ch' : ClientHello)
      (e : Option Error),
      parseExtensionsExtraLoop fuel ch block acc = some (ch', e) →
      ∃ (exts : List Nat) (alpn : List Byte) (ks : List Nat),
        ch' = { ch with Extensions := exts, alpnWithLengths := alpn,
                        keyshareGroupsWithLengths := ks } := by
  intro fuel
  induction fuel with
  | zero =>
    intro ch block acc ch' e h
    simp [parseExtensionsExtraLoop] at h
  | succ n ih =>
    intro ch block acc ch' e h
    unfold parseExtensionsExtraLoop at h
    split at h
    · simp only [Option.some.injEq, Prod.mk.injEq] at h
      exact ⟨acc, ch.alpnWithLengths, ch.keyshareGroupsWithLengths, h.1.symm⟩
    · split at h
      · simp only [Option.some.injEq, Prod.mk.injEq] at h
        exact ⟨ch.Extensions, ch.alpnWithLengths, ch.keyshareGroupsWithLengths, h.1.symm⟩
      · split at h
        · simp only [Option.some.injEq, Prod.mk.injEq] at h
          exact ⟨ch.Extensions, ch.alpnWithLengths, ch.keyshareGroupsWithLengths, h.1.symm⟩
        · split at h
          · simp at h
          · next c i err hx =>
            obtain ⟨alpn, ks, hc⟩ := parseExtensionExtra_frame hx
            simp only [Option.some.injEq, Prod.mk.injEq] at h
            exact ⟨ch.Extensions, alpn, ks, by rw [← h.1, hc]⟩
          · next c i hx =>
            obtain ⟨alpn, ks, hc⟩ := parseExtensionExtra_frame hx
            obtain ⟨exts, alpn2, ks2, hc2⟩ := ih _ _ _ _ _ h
            exact ⟨exts, alpn2, ks2, by rw [hc2, hc]⟩

theorem parseExtensionsExtra_frame {ch ch' : ClientHello} {block : List Byte}
    {e : Option Error} (h : parseExtensionsExtra ch block = some (ch', e)) :
    ∃ (exts : List Nat) (alpn : List Byte) (ks : List Nat),
      ch' = { ch with Extensions := exts, alpnWithLengths := alpn,
                      keyshareGroupsWithLengths := ks } :=
  parseExtensionsExtraLoop_frame _ _ _ _ _ _ h

theorem normalizeGREASE_clean (id : Nat) :
    IsGREASEUint16 (normalizeGREASE id) = false ∨ normalizeGREASE id = 0x0a0a := by
  unfold normalizeGREASE
  by_cases h : IsGREASEUint16 id = true
  · right
    simp [h, GREASE_PLACEHOLDER]
  · left
    simp [h]

/-- Claim C4: when `parseExtra` succeeds, every value stored in `ch.Extensions` and in
`ch.ExtensionsNormalized` is either no GREASE codepoint or exactly the placeholder `0x0a0a`.
The record the parse starts from is any record on which this already holds, as on the fresh
record of `ReadClientHello`, whose two lists are empty. -/
theorem parseExtra_grease_hygiene (env : Env) (ch ch' : ClientHello)
    (h0 : ∀ v ∈ ch.Extensions ++ ch.ExtensionsNormalized, IsGREASEUint16 v = false ∨ v = 0x0a0a)
    (h : parseExtra env ch = some (ch', none)) :
    (∀ v ∈ ch'.Extensions, IsGREASEUint16 v = false ∨ v = 0x0a0a) ∧
    (∀ v ∈ ch'.ExtensionsNormalized, IsGREASEUint16 v = false ∨ v = 0x0a0a) := by
  obtain ⟨rv, hv, s1, s2, sid, s3, cs, s4, cm, s5, -, -, -, -, -, hcase⟩ := parseExtra_ok_inv h
  rcases hcase with ⟨-, hch⟩ | ⟨-, exts, s6, ch2, -, hp, hch⟩
  · subst hch
    constructor
    · intro v hv
      exact h0 v (List.mem_append_left _ hv)
    · intro v hv
      exact h0 v (List.mem_append_right _ hv)
  · obtain ⟨recs, -, -, he⟩ := parseExtensionsExtraLoop_ids _ _ _ _ _ hp
    have hclean : ∀ v ∈ ch2.Extensions, IsGREASEUint16 v = false ∨ v = 0x0a0a := by
      intro v hv
      rw [he] at hv
      simp only [List.nil_append, List.mem_map] at hv
      obtain ⟨r, -, rfl⟩ := hv
      exact normalizeGREASE_clean r.1
    subst hch
    constructor
    · exact hclean
    · intro v hv
      have hv2 : v ∈ sortSlice ch2.Extensions := hv
      exact hclean v ((List.perm_insertionSort _ _).mem_iff.1 hv2)

/-- Claim C5: when `parseExtra` succeeds, `ch.ExtensionsNormalized` is in ascending order and
is a permutation of `ch.Extensions`, so the two have the same length and sorting it again
gives the same sequence.  The record the parse starts from is any record on which this
already holds, as on the fresh record of `ReadClientHello`, whose two lists are empty. -/
theorem parseExtra_normalized_sorted_perm (env : Env) (ch ch' : ClientHello)
    (h0 : List.Sorted (· ≤ ·) ch.ExtensionsNormalized ∧
      List.Perm ch.ExtensionsNormalized ch.Extensions)
    (h : parseExtra env ch = some (ch', none)) :
    List.Sorted (· ≤ ·) ch'.ExtensionsNormalized ∧
    List.Perm ch'.ExtensionsNormalized ch'.Extensions ∧
    ch'.ExtensionsNormalized.length = ch'.Extensions.length ∧
    sortSlice ch'.ExtensionsNormalized = ch'.ExtensionsNormalized := by
  have key : List.Sorted (· ≤ ·) ch'.ExtensionsNormalized ∧
      List.Perm ch'.ExtensionsNormalized ch'.Extensions := by
    obtain ⟨rv, hv, s1, s2, sid, s3, cs, s4, cm, s5, -, -, -, -, -, hcase⟩ := parseExtra_ok_inv h
    rcases hcase with ⟨-, hch⟩ | ⟨-, exts, s6, ch2, -, -, hch⟩
    · subst hch
      exact h0
    · subst hch
      exact ⟨List.sorted_insertionSort _ _, List.perm_insertionSort _ _⟩
  exact ⟨key.1, key.2, key.2.length_eq, List.Sorted.insertionSort_eq key.1⟩

/-! ## The sample record, parsed -/

/-- Claim C3 on the sample extensions block (GREASE, key_share, ALPN, status_request). -/
theorem parseExtensionsExtra_extensions_witness :
    parseExtensionsExtra {} sampleExtensions = some (sampleBlockParsed, none) ∧
    ∃ recs : List (Nat × List Byte),
      (∀ r ∈ recs, r.1 < 65536 ∧ r.2.length < 65536) ∧
      sampleExtensions = recs.flatMap (fun r => wireExtension r.1 r.2) ∧
      sampleBlockParsed.Extensions =
        recs.map (fun r => if IsGREASEUint16 r.1 then 0x0a0a else r.1) ∧
      sampleBlockParsed.Extensions.length = recs.length :=
  ⟨by decide,
    parseExtensionsExtra_extensions {} sampleBlockParsed sampleExtensions (by decide)⟩

/-- Claim C4 on the sample record. -/
theorem parseExtra_grease_hygiene_witness :
    (∀ v ∈ ({ raw := sampleRaw } : ClientHello).Extensions ++
        ({ raw := sampleRaw } : ClientHello).ExtensionsNormalized,
      IsGREASEUint16 v = false ∨ v = 0x0a0a) ∧
    parseExtra sampleEnv { raw := sampleRaw } = some (sampleParsed, none) ∧
    (∀ v ∈ sampleParsed.Extensions, IsGREASEUint16 v = false ∨ v = 0x0a0a) ∧
    (∀ v ∈ sampleParsed.ExtensionsNormalized, IsGREASEUint16 v = false ∨ v = 0x0a0a) :=
  ⟨by decide, by decide,
    parseExtra_grease_hygiene sampleEnv { raw := sampleRaw } sampleParsed (by decide)
      (by decide)⟩

/-- Claim C5 on the sample record. -/
theorem parseExtra_normalized_sorted_perm_witness :
    (List.Sorted (· ≤ ·) ({ raw := sampleRaw } : ClientHello).ExtensionsNormalized ∧
      List.Perm ({ raw := sampleRaw } : ClientHello).ExtensionsNormalized
        ({ raw := sampleRaw } : ClientHello).Extensions) ∧
    parseExtra sampleEnv { raw := sampleRaw } = some (sampleParsed, none) ∧
    (List.Sorted (· ≤ ·) sampleParsed.ExtensionsNormalized ∧
      List.Perm sampleParsed.ExtensionsNormalized sampleParsed.Extensions ∧
      sampleParsed.ExtensionsNormalized.length = sampleParsed.Extensions.length ∧
      sortSlice sampleParsed.ExtensionsNormalized = sampleParsed.ExtensionsNormalized) :=
  ⟨⟨List.sorted_nil, List.Perm.nil⟩, by decide,
    parseExtra_normalized_sorted_perm sampleEnv { raw := sampleRaw } sampleParsed
      ⟨List.sorted_nil, List.Perm.nil⟩ (by decide)⟩

/-! ## Reads, by offsets -/

theorem ReadUint16_eq (s : List Byte) :
    ReadUint16 s =
      if s.length < 2 then none else some (BigEndianUint16 (s.take 2), s.drop 2) := by
  match s with
  | [] => simp [ReadUint16, cryptobyte.read]
  | [_] => simp [ReadUint16, cryptobyte.read]
  | a :: b :: t =>
    rw [ReadUint16_cons]
    simp [BigEndianUint16]

theorem readRecordHeader_of_le {s : List Byte} (h : 5 ≤ s.length) :
    readRecordHeader s = some (BigEndianUint16 ((s.drop 1).take 2), s.drop 5) := by
  unfold readRecordHeader
  rw [Skip_of_le (by omega)]
  simp only
  rw [ReadUint16_eq, if_neg (by rw [List.length_drop]; omega)]
  simp only
  rw [Skip_of_le (by rw [List.length_drop, List.length_drop]; omega)]
  simp [List.drop_drop]

theorem readRecordHeader_of_lt {s : List Byte} (h : s.length < 5) :
    readRecordHeader s = none := by
  unfold readRecordHeader
  split
  · rfl
  · next s1 h1 =>
    obtain ⟨-, e1⟩ := Skip_eq_some h1
    split
    · rfl
    · next v s2 h2 =>
      obtain ⟨a, b, e2, -⟩ := ReadUint16_eq_some h2
      split
      · rfl
      · next s3 h3 =>
        obtain ⟨l3, -⟩ := Skip_eq_some h3
        have hl : (s.drop 1).length = s2.length + 2 := by rw [← e1, e2]; simp
        rw [List.length_drop] at hl
        omega

theorem readHandshakeHeader_of_le {s : List Byte} (h : 38 ≤ s.length) :
    readHandshakeHeader s = some (BigEndianUint16 ((s.drop 4).take 2), s.drop 38) := by
  unfold readHandshakeHeader
  rw [Skip_of_le (by omega)]
  simp only
  rw [Skip_of_le (by rw [List.length_drop]; omega)]
  simp only
  rw [ReadUint16_eq, if_neg (by rw [List.length_drop, List.length_drop]; omega)]
  simp only
  rw [Skip_of_le (by rw [List.length_drop, List.length_drop, List.length_drop]; omega)]
  simp [List.drop_drop]

theorem readHandshakeHeader_of_lt {s : List Byte} (h : s.length < 38) :
    readHandshakeHeader s = none := by
  unfold readHandshakeHeader
  split
  · rfl
  · next s1 h1 =>
    obtain ⟨-, e1⟩ := Skip_eq_some h1
    split
    · rfl
    · next s2 h2 =>
      obtain ⟨-, e2⟩ := Skip_eq_some h2
      split
      · rfl
      · next v s3 h3 =>
        obtain ⟨a, b, e3, -⟩ := ReadUint16_eq_some h3
        split
        · rfl
        · next s4 h4 =>
          obtain ⟨l4, -⟩ := Skip_eq_some h4
          have hl : ((s.drop 1).drop 3).length = s3.length + 2 := by
            rw [← e1, ← e2, e3]; simp
          rw [List.length_drop, List.length_drop] at hl
          omega

theorem readRecordHeader_eq_some {s s1 : List Byte} {rv : Nat}
    (h : readRecordHeader s = some (rv, s1)) :
    5 ≤ s.length ∧ rv = BigEndianUint16 ((s.drop 1).take 2) ∧ s1 = s.drop 5 := by
  by_cases hl : s.length < 5
  · rw [readRecordHeader_of_lt hl] at h
    simp at h
  · rw [readRecordHeader_of_le (by omega)] at h
    simp only [Option.some.injEq, Prod.mk.injEq] at h
    exact ⟨by omega, h.1.symm, h.2.symm⟩

theorem readHandshakeHeader_eq_some {s s1 : List Byte} {hv : Nat}
    (h : readHandshakeHeader s = some (hv, s1)) :
    38 ≤ s.length ∧ hv = BigEndianUint16 ((s.drop 4).take 2) ∧ s1 = s.drop 38 := by
  by_cases hl : s.length < 38
  · rw [readHandshakeHeader_of_lt hl] at h
    simp at h
  · rw [readHandshakeHeader_of_le (by omega)] at h
    simp only [Option.some.injEq, Prod.mk.injEq] at h
    exact ⟨by omega, h.1.symm, h.2.symm⟩

theorem fingerprinted_frame (env : Env) (ch : ClientHello) :
    (fingerprinted env ch).raw = ch.raw ∧
    (fingerprinted env ch).TLSRecordVersion = ch.TLSRecordVersion ∧
    (fingerprinted env ch).TLSHandshakeVersion = ch.TLSHandshakeVersion :=
  ⟨rfl, rfl, rfl⟩

/-- Claim C6: when `parseExtra` succeeds, `ch.TLSRecordVersion` is the big-endian 16-bit value
at `raw[1..2]` and `ch.TLSHandshakeVersion` the one at `raw[9..10]`, behind the 5-byte record
header and the 4-byte handshake header; the buffer `raw` itself is left as it was. -/
theorem parseExtra_versions (env : Env) (ch ch' : ClientHello)
    (h : parseExtra env ch = some (ch', none)) :
    11 ≤ ch.raw.length ∧ ch'.raw = ch.raw ∧
    ch'.TLSRecordVersion = BigEndianUint16 ((ch.raw.drop 1).take 2) ∧
    ch'.TLSHandshakeVersion = BigEndianUint16 ((ch.raw.drop 9).take 2) := by
  obtain ⟨rv, hv, s1, s2, sid, s3, cs, s4, cm, s5, h1, h2, -, -, -, hcase⟩ :=
    parseExtra_ok_inv h
  obtain ⟨l1, e1, rfl⟩ := readRecordHeader_eq_some h1
  obtain ⟨l2, e2, -⟩ := readHandshakeHeader_eq_some h2
  rw [List.length_drop] at l2
  rw [List.drop_drop] at e2
  have key : ∀ c : ClientHello, c.raw = ch.raw → c.TLSRecordVersion = rv →
      c.TLSHandshakeVersion = hv →
      11 ≤ ch.raw.length ∧ c.raw = ch.raw ∧
        c.TLSRecordVersion = BigEndianUint16 ((ch.raw.drop 1).take 2) ∧
        c.TLSHandshakeVersion = BigEndianUint16 ((ch.raw.drop 9).take 2) := by
    intro c hr h3 h4
    exact ⟨by omega, hr, by rw [h3, e1], by rw [h4, e2]⟩
  rcases hcase with ⟨-, hch⟩ | ⟨-, exts, s6, ch2, -, hp, hch⟩
  · subst hch
    exact key _ rfl rfl rfl
  · obtain ⟨x, a, k, hfr⟩ := parseExtensionsExtra_frame hp
    subst hch
    subst hfr
    exact key _ rfl rfl rfl

/-- Claim C6 on the sample record: record version `0x0301`, handshake version `0x0303`. -/
theorem parseExtra_versions_witness :
    parseExtra sampleEnv { raw := sampleRaw } = some (sampleParsed, none) ∧
    (11 ≤ ({ raw := sampleRaw } : ClientHello).raw.length ∧
      sampleParsed.raw = ({ raw := sampleRaw } : ClientHello).raw ∧
      sampleParsed.TLSRecordVersion =
        BigEndianUint16 ((({ raw := sampleRaw } : ClientHello).raw.drop 1).take 2) ∧
      sampleParsed.TLSHandshakeVersion =
        BigEndianUint16 ((({ raw := sampleRaw } : ClientHello).raw.drop 9).take 2)) :=
  ⟨by decide, parseExtra_versions sampleEnv { raw := sampleRaw } sampleParsed (by decide)⟩

/-! ## The fingerprint fields -/

theorem AsHex_length (id : Int) : (AsHex id).length = 16 := by
  simp [AsHex, String.length]

theorem uint8_val (a : Byte) : uint8 a.val = a := by
  apply Fin.ext
  show a.val % 256 = a.val
  exact Nat.mod_eq_of_lt a.isLt

/-- Claim C8, as the code has it: on the record that ends after `compression_methods`,
`parseExtra` returns no error and the hasher has not run: `HexID` is still empty, not the
16-character rendering of `NumID`. -/
theorem parseExtra_bare_not_fingerprinted :
    parseExtra sampleEnv { raw := sampleRawBare } = some (sampleBareParsed, none) ∧
    sampleBareParsed.HexID = "" ∧
    AsHex sampleBareParsed.NumID = "0000000000000000" ∧
    sampleBareParsed.HexID ≠ AsHex sampleBareParsed.NumID := by
  decide

/-- Claim C8, amended: when `parseExtra` returns no error, the buffer is 43 bytes (headers,
version, random), then session id, cipher suites and compression methods behind their lengths,
then a rest.  When the rest is not empty (an extensions block follows) the hasher has been
invoked on the populated record: `(NumID, NormNumID)` is the result of `calcNumericID`, and
`HexID` and `NormHexID` are the 16-character hex renderings of `NumID` and `NormNumID`.  When
the rest is empty, the four fingerprint fields are left as they were. -/
theorem parseExtra_fingerprint (env : Env) (ch ch' : ClientHello)
    (h : parseExtra env ch = some (ch', none)) :
    ∃ pre sid cs cm rest : List Byte,
      ch.raw = pre ++ wireUint8Prefixed sid ++ wireUint16Prefixed cs ++
        wireUint8Prefixed cm ++ rest ∧
      pre.length = 43 ∧ sid.length < 256 ∧ cs.length < 65536 ∧ cm.length < 256 ∧
      (rest ≠ [] →
        (ch'.NumID, ch'.NormNumID) =
          env.calcNumericID { ch' with NumID := ch.NumID, NormNumID := ch.NormNumID,
                                        HexID := ch.HexID, NormHexID := ch.NormHexID } ∧
        ch'.HexID = AsHex ch'.NumID ∧ ch'.NormHexID = AsHex ch'.NormNumID ∧
        ch'.HexID.length = 16 ∧ ch'.NormHexID.length = 16) ∧
      (rest = [] →
        ch'.NumID = ch.NumID ∧ ch'.NormNumID = ch.NormNumID ∧
        ch'.HexID = ch.HexID ∧ ch'.NormHexID = ch.NormHexID) := by
  obtain ⟨rv, hv, s1, s2, sid, s3, cs, s4, cm, s5, h1, h2, h3, h4, h5, hcase⟩ :=
    parseExtra_ok_inv h
  obtain ⟨l1, -, rfl⟩ := readRecordHeader_eq_some h1
  obtain ⟨l2, -, rfl⟩ := readHandshakeHeader_eq_some h2
  obtain ⟨a, e3, k3⟩ := ReadUint8LengthPrefixed_eq_some h3
  obtain ⟨c, d, e4, k4⟩ := ReadUint16LengthPrefixed_eq_some h4
  obtain ⟨e, e5, k5⟩ := ReadUint8LengthPrefixed_eq_some h5
  rw [List.length_drop] at l2
  rw [List.drop_drop] at e3
  refine ⟨ch.raw.take 43, sid, cs, cm, s5, ?_, ?_, ?_, ?_, ?_, ?_, ?_⟩
  · have hw1 : wireUint8Prefixed sid = a :: sid := by
      simp [wireUint8Prefixed, k3, uint8_val]
    have hw2 : wireUint16Prefixed cs = c :: d :: cs := by
      simp [wireUint16Prefixed, k4, putUint16_bytes]
    have hw3 : wireUint8Prefixed cm = e :: cm := by
      simp [wireUint8Prefixed, k5, uint8_val]
    have hsplit : ch.raw = ch.raw.take 43 ++ ch.raw.drop 43 := (List.take_append_drop 43 _).symm
    have e3b : List.drop 43 ch.raw = a :: (sid ++ s3) := by
      have : (5 : Nat) + 38 = 43 := rfl
      rw [← this]
      exact e3
    rw [hw1, hw2, hw3]
    conv_lhs => rw [hsplit, e3b, e4, e5]
    simp
  · rw [List.length_take]
    omega
  · have := a.isLt
    omega
  · have := c.isLt
    have := d.isLt
    omega
  · have := e.isLt
    omega
  · intro hne
    rcases hcase with ⟨hemp, -⟩ | ⟨-, exts, s6, ch2, -, hp, hch⟩
    · exact absurd hemp hne
    · obtain ⟨x, al, k, hfr⟩ := parseExtensionsExtra_frame hp
      subst hch
      subst hfr
      exact ⟨rfl, rfl, rfl, AsHex_length _, AsHex_length _⟩
  · intro hemp
    rcases hcase with ⟨-, hch⟩ | ⟨hne, -⟩
    · subst hch
      exact ⟨rfl, rfl, rfl, rfl⟩
    · exact absurd hemp hne

/-- Claim C8, amended, on the sample record with its four extensions. -/
theorem parseExtra_fingerprint_witness :
    parseExtra sampleEnv { raw := sampleRaw } = some (sampleParsed, none) ∧
    ∃ pre sid cs cm rest : List Byte,
      ({ raw := sampleRaw } : ClientHello).raw =
        pre ++ wireUint8Prefixed sid ++ wireUint16Prefixed cs ++
          wireUint8Prefixed cm ++ rest ∧
      pre.length = 43 ∧ sid.length < 256 ∧ cs.length < 65536 ∧ cm.length < 256 ∧
      (rest ≠ [] →
        (sampleParsed.NumID, sampleParsed.NormNumID) =
          sampleEnv.calcNumericID
            { sampleParsed with NumID := ({ raw := sampleRaw } : ClientHello).NumID,
                                NormNumID := ({ raw := sampleRaw } : ClientHello).NormNumID,
                                HexID := ({ raw := sampleRaw } : ClientHello).HexID,
                                NormHexID := ({ raw := sampleRaw } : ClientHello).NormHexID } ∧
        sampleParsed.HexID = AsHex sampleParsed.NumID ∧
        sampleParsed.NormHexID = AsHex sampleParsed.NormNumID ∧
        sampleParsed.HexID.length = 16 ∧ sampleParsed.NormHexID.length = 16) ∧
      (rest = [] →
        sampleParsed.NumID = ({ raw := sampleRaw } : ClientHello).NumID ∧
        sampleParsed.NormNumID = ({ raw := sampleRaw } : ClientHello).NormNumID ∧
        sampleParsed.HexID = ({ raw := sampleRaw } : ClientHello).HexID ∧
        sampleParsed.NormHexID = ({ raw := sampleRaw } : ClientHello).NormHexID) :=
  ⟨by decide, parseExtra_fingerprint sampleEnv { raw := sampleRaw } sampleParsed (by decide)⟩

/-! ## What `UnmarshalClientHello` returns with an error -/

theorem ReadClientHello_only_raw (p : List Byte) :
    (ReadClientHello p).1 = { raw := (ReadClientHello p).1.raw } := by
  unfold ReadClientHello
  simp only
  split
  · rfl
  · split <;> rfl

/-- Claim C9, as the code has it: on the empty input `UnmarshalClientHello` returns the error
`EOF` together with a record that is not nil, the one `ReadClientHello` allocated, whose
`raw` is the 5-byte header buffer. -/
theorem UnmarshalClientHello_empty_returns_record :
    UnmarshalClientHello sampleEnv [] = some (some { raw := [0, 0, 0, 0, 0] }, some "EOF") ∧
    (some { raw := [0, 0, 0, 0, 0] } : Option ClientHello) ≠ none := by
  decide

/-- Claim C9, amended: when `UnmarshalClientHello` returns an error, the record returned with
it is not nil; it is the record `ReadClientHello` allocated.  When the error is the one of
`ReadClientHello`, that record holds the bytes read in `raw` and every other field has its
zero value; when `ReadClientHello` succeeded, the record and the error are those
`ParseClientHello` left. -/
theorem UnmarshalClientHello_error_record (env : Env) (p : List Byte)
    (rec : Option ClientHello) (err : Error)
    (h : UnmarshalClientHello env p = some (rec, some err)) :
    ∃ ch : ClientHello, rec = some ch ∧
      (((ReadClientHello p).2.1 = some err ∧ ch = (ReadClientHello p).1 ∧
          ch = { raw := ch.raw }) ∨
       ((ReadClientHello p).2.1 = none ∧
          ParseClientHello env (ReadClientHello p).1 = some (ch, some err))) := by
  unfold UnmarshalClientHello at h
  simp only at h
  split at h
  · next hne =>
    simp only [Option.some.injEq, Prod.mk.injEq] at h
    refine ⟨(ReadClientHello p).1, h.1.symm, Or.inl ⟨h.2, rfl, ?_⟩⟩
    exact ReadClientHello_only_raw p
  · next hnone =>
    have hn : (ReadClientHello p).2.1 = none := by simpa using hnone
    split at h
    · simp at h
    · next c e hp =>
      simp only [Option.some.injEq, Prod.mk.injEq] at h
      refine ⟨c, h.1.symm, Or.inr ⟨hn, ?_⟩⟩
      rw [hp, h.2]

/-- Claim C9, amended, on the empty input. -/
theorem UnmarshalClientHello_error_record_witness :
    UnmarshalClientHello sampleEnv [] = some (some { raw := [0, 0, 0, 0, 0] }, some "EOF") ∧
    ∃ ch : ClientHello, some { raw := [0, 0, 0, 0, 0] } = some ch ∧
      (((ReadClientHello []).2.1 = some "EOF" ∧ ch = (ReadClientHello []).1 ∧
          ch = { raw := ch.raw }) ∨
       ((ReadClientHello []).2.1 = none ∧
          ParseClientHello sampleEnv (ReadClientHello []).1 = some (ch, some "EOF"))) :=
  ⟨by decide,
    UnmarshalClientHello_error_record sampleEnv [] (some { raw := [0, 0, 0, 0, 0] }) "EOF"
      (by decide)⟩

/-! ## The raw-bytes pass does not look at `ch.raw` again -/

theorem keyshareLoop_raw (r : List Byte) :
    ∀ (fuel : Nat) (ch : ClientHello) (d : List Byte),
      keyshareLoop fuel { ch with raw := r } d = (keyshareLoop fuel ch d).map (setRaw r) := by
  intro fuel
  induction fuel with
  | zero =>
    intro ch d
    simp [keyshareLoop]
  | succ n ih =>
    intro ch d
    rw [keyshareLoop, keyshareLoop]
    split
    · rfl
    · split
      · rfl
      · next group d1 h1 =>
        split
        · rfl
        · next length d2 h2 =>
          simp only
          split
          · rfl
          · next d3 h3 =>
            exact ih { ch with keyshareGroupsWithLengths := ch.keyshareGroupsWithLengths ++
              [if IsGREASEUint16 group then GREASE_PLACEHOLDER else group, length] } d3

theorem parseExtensionExtra_raw (r : List Byte) (ch : ClientHello) (id : Nat)
    (data : List Byte) :
    parseExtensionExtra { ch with raw := r } id data =
      (parseExtensionExtra ch id data).map (fun x => ({ x.1 with raw := r }, x.2)) := by
  unfold parseExtensionExtra
  split
  · rfl
  · split
    · split
      · rfl
      · next d hd =>
        rw [keyshareLoop_raw r _ ch d]
        cases hk : keyshareLoop (d.length + 1) ch d with
        | none => rfl
        | some x =>
          obtain ⟨c, e⟩ := x
          cases e <;> rfl
    · split <;> rfl

theorem parseExtensionsExtraLoop_raw (r : List Byte) :
    ∀ (fuel : Nat) (ch : ClientHello) (block : List Byte) (acc : List Nat),
      parseExtensionsExtraLoop fuel { ch with raw := r } block acc =
        (parseExtensionsExtraLoop fuel ch block acc).map (setRaw r) := by
  intro fuel
  induction fuel with
  | zero =>
    intro ch block acc
    simp [parseExtensionsExtraLoop]
  | succ n ih =>
    intro ch block acc
    rw [parseExtensionsExtraLoop, parseExtensionsExtraLoop]
    split
    · rfl
    · split
      · rfl
      · split
        · rfl
        · next data rest hd =>
          rename_i id _ _ _
          rw [parseExtensionExtra_raw r ch id data]
          cases hx : parseExtensionExtra ch id data with
          | none => rfl
          | some x =>
            obtain ⟨c, i, e⟩ := x
            cases e with
            | none => exact ih c _ _
            | some err => rfl

theorem parseExtensionsExtra_raw (r : List Byte) (ch : ClientHello) (block : List Byte) :
    parseExtensionsExtra { ch with raw := r } block =
      (parseExtensionsExtra ch block).map (setRaw r) :=
  parseExtensionsExtraLoop_raw r _ ch block []

theorem parseExtra_eq_tail (env : Env) (ch : ClientHello) :
    parseExtra env ch =
      match readRecordHeader ch.raw with
      | none => some (ch, some "failed to parse TLS header, cryptobyte.String().Skip(): false")
      | some (rv, s) =>
      match readHandshakeHeader s with
      | none =>
        some ({ ch with TLSRecordVersion := rv },
          some "failed to parse ClientHello, cryptobyte.String().Skip(): false")
      | some (hv, s) =>
      match ReadUint8LengthPrefixed s with
      | none => some (withVersions ch rv hv, some "unable to read session id")
      | some (_, s) => parseExtraTail env (withVersions ch rv hv) s := by
  rfl

theorem parseExtraTail_raw (env : Env)
    (hcalc : ∀ (c : ClientHello) (r : List Byte),
      env.calcNumericID { c with raw := r } = env.calcNumericID c)
    (r : List Byte) (ch : ClientHello) (s : List Byte) :
    parseExtraTail env { ch with raw := r } s = (parseExtraTail env ch s).map (setRaw r) := by
  unfold parseExtraTail
  split
  · rfl
  · split
    · rfl
    · split
      · rfl
      · split
        · rfl
        · next exts rest hx =>
          rw [parseExtensionsExtra_raw r ch exts]
          cases hp : parseExtensionsExtra ch exts with
          | none => rfl
          | some x =>
            obtain ⟨c, e⟩ := x
            cases e with
            | some err => rfl
            | none =>
              simp only [Option.map_some', setRaw, Option.some.injEq, Prod.mk.injEq, and_true]
              have hc := hcalc { c with ExtensionsNormalized := sortSlice c.Extensions } r
              unfold fingerprinted
              simp only
              show _ = _
              have hc2 : env.calcNumericID
                  { { c with raw := r } with
                      ExtensionsNormalized := sortSlice ({ c with raw := r }).Extensions } =
                  env.calcNumericID { c with ExtensionsNormalized := sortSlice c.Extensions } :=
                hc
              rw [hc2]

/-! ## Two records that differ in random and session id -/

theorem BigEndianUint16_drop_take (l : List Byte) (k : Nat) :
    BigEndianUint16 ((l.drop k).take 2) = (l.getD k 0).val * 256 + (l.getD (k + 1) 0).val := by
  simp [BigEndianUint16, List.getD_eq_getElem?_getD, List.getElem?_take, List.getElem?_drop]

theorem drop_eq_of_agree {l1 l2 : List Byte} {k : Nat} (hlen : l1.length = l2.length)
    (h : ∀ i, i < l1.length → k ≤ i → l1.getD i 0 = l2.getD i 0) :
    l1.drop k = l2.drop k := by
  apply List.ext_getElem?
  intro i
  rw [List.getElem?_drop, List.getElem?_drop]
  by_cases hi : k + i < l1.length
  · have h2 : k + i < l2.length := by omega
    have := h (k + i) hi (by omega)
    rw [List.getD_eq_getElem?_getD, List.getD_eq_getElem?_getD,
      List.getElem?_eq_getElem hi, List.getElem?_eq_getElem h2] at this
    rw [List.getElem?_eq_getElem hi, List.getElem?_eq_getElem h2]
    simpa using this
  · have h2 : ¬ k + i < l2.length := by omega
    rw [List.getElem?_eq_none (by omega), List.getElem?_eq_none (by omega)]

theorem ReadUint8LengthPrefixed_drop (l : List Byte) (k : Nat) :
    ReadUint8LengthPrefixed (l.drop k) =
      if l.length < k + 1 + (l.getD k 0).val then none
      else some ((l.drop (k + 1)).take (l.getD k 0).val,
        l.drop (k + 1 + (l.getD k 0).val)) := by
  by_cases hk : k < l.length
  · have hd : l.drop k = l[k] :: l.drop (k + 1) := List.drop_eq_getElem_cons hk
    have hg : l.getD k 0 = l[k] := by
      rw [List.getD_eq_getElem?_getD, List.getElem?_eq_getElem hk]
      rfl
    rw [hd, ReadUint8LengthPrefixed_cons, hg, List.length_drop, List.drop_drop]
    by_cases hlt : l.length < k + 1 + (l[k]).val
    · rw [if_pos (by omega), if_pos hlt]
    · rw [if_neg (by omega), if_neg hlt]
  · rw [List.drop_eq_nil_of_le (by omega), if_pos (by omega)]
    rfl

theorem parseExtra_agree (env : Env)
    (hcalc : ∀ (c : ClientHello) (r : List Byte),
      env.calcNumericID { c with raw := r } = env.calcNumericID c)
    (ch : ClientHello) (raw1 raw2 : List Byte) (hlen : raw1.length = raw2.length)
    (hsame : ∀ i, i < raw1.length → ¬ (11 ≤ i ∧ i < 43) →
      ¬ (44 ≤ i ∧ i < 44 + (raw1.getD 43 0).val) → raw1.getD i 0 = raw2.getD i 0) :
    (parseExtra env { ch with raw := raw1 }).map (setRaw []) =
      (parseExtra env { ch with raw := raw2 }).map (setRaw []) := by
  rw [parseExtra_eq_tail, parseExtra_eq_tail]
  simp only
  by_cases h5 : raw1.length < 5
  · rw [readRecordHeader_of_lt h5, readRecordHeader_of_lt (hlen ▸ h5)]
    rfl
  · rw [readRecordHeader_of_le (by omega), readRecordHeader_of_le (by omega)]
    simp only
    have hrv : BigEndianUint16 ((raw1.drop 1).take 2) = BigEndianUint16 ((raw2.drop 1).take 2) := by
      rw [BigEndianUint16_drop_take, BigEndianUint16_drop_take,
        hsame 1 (by omega) (by omega) (by omega), hsame 2 (by omega) (by omega) (by omega)]
    rw [hrv]
    by_cases h43 : raw1.length < 43
    · rw [readHandshakeHeader_of_lt (by rw [List.length_drop]; omega),
        readHandshakeHeader_of_lt (by rw [List.length_drop]; omega)]
      rfl
    · rw [readHandshakeHeader_of_le (by rw [List.length_drop]; omega),
        readHandshakeHeader_of_le (by rw [List.length_drop]; omega)]
      simp only [List.drop_drop]
      have hhv : BigEndianUint16 ((raw1.drop 9).take 2) =
          BigEndianUint16 ((raw2.drop 9).take 2) := by
        rw [BigEndianUint16_drop_take, BigEndianUint16_drop_take,
          hsame 9 (by omega) (by omega) (by omega), hsame 10 (by omega) (by omega) (by omega)]
      have e9 : (5 : Nat) + 4 = 9 := rfl
      have e43 : (5 : Nat) + 38 = 43 := rfl
      rw [e9, e43, hhv, ReadUint8LengthPrefixed_drop, ReadUint8LengthPrefixed_drop]
      by_cases h44 : raw1.length < 44
      · rw [if_pos (by omega), if_pos (by omega)]
        rfl
      · have hn : raw1.getD 43 0 = raw2.getD 43 0 :=
          hsame 43 (by omega) (by omega) (by omega)
        rw [← hn]
        by_cases hsid : raw1.length < 43 + 1 + (raw1.getD 43 0).val
        · rw [if_pos hsid, if_pos (by omega)]
          rfl
        · rw [if_neg hsid, if_neg (by omega)]
          simp only
          have hdrop : raw1.drop (43 + 1 + (raw1.getD 43 0).val) =
              raw2.drop (43 + 1 + (raw1.getD 43 0).val) :=
            drop_eq_of_agree hlen (fun i hi hk => hsame i hi (by omega) (by omega))
          rw [hdrop]
          have t1 := parseExtraTail_raw env hcalc raw1
            (withVersions ch (BigEndianUint16 ((raw2.drop 1).take 2))
              (BigEndianUint16 ((raw2.drop 9).take 2)))
            (raw2.drop (43 + 1 + (raw1.getD 43 0).val))
          have t2 := parseExtraTail_raw env hcalc raw2
            (withVersions ch (BigEndianUint16 ((raw2.drop 1).take 2))
              (BigEndianUint16 ((raw2.drop 9).take 2)))
            (raw2.drop (43 + 1 + (raw1.getD 43 0).val))
          have hset : ∀ r : List Byte, setRaw [] ∘ setRaw r = setRaw [] := by
            intro r
            funext x
            rfl
          calc _ = Option.map (setRaw []) (Option.map (setRaw raw1) _) := congrArg _ t1
            _ = Option.map (setRaw []) (Option.map (setRaw raw2) _) := by
                rw [Option.map_map, Option.map_map, hset, hset]
            _ = _ := (congrArg _ t2).symm

theorem parseExtra_keeps_raw {env : Env} {ch ch' : ClientHello}
    (h : parseExtra env ch = some (ch', none)) : ch'.raw = ch.raw := by
  obtain ⟨rv, hv, s1, s2, sid, s3, cs, s4, cm, s5, -, -, -, -, -, hcase⟩ := parseExtra_ok_inv h
  rcases hcase with ⟨-, hch⟩ | ⟨-, exts, s6, ch2, -, hp, hch⟩
  · subst hch
    rfl
  · obtain ⟨x, a, k, hfr⟩ := parseExtensionsExtra_frame hp
    subst hch
    subst hfr
    rfl

/-- Claim C10: let `raw1` and `raw2` have equal length and differ only in the 32 bytes of the
random (`raw[11..42]`) and in the content bytes of the session id (`raw[44 ..]`, as many as
the length byte `raw[43]` says), and let the hasher read the parsed fields only.  Then
`parseExtra` succeeds on one exactly when it succeeds on the other, and when it does every
field other than `raw` ends with the same value, among them `TLSRecordVersion`,
`TLSHandshakeVersion`, `Extensions`, `ExtensionsNormalized`, `alpnWithLengths`,
`keyshareGroupsWithLengths`, `NumID` and `NormNumID`. -/
theorem parseExtra_random_session_id_irrelevant (env : Env)
    (hcalc : ∀ (c : ClientHello) (r : List Byte),
      env.calcNumericID { c with raw := r } = env.calcNumericID c)
    (ch : ClientHello) (raw1 raw2 : List Byte) (hlen : raw1.length = raw2.length)
    (hsame : ∀ i, i < raw1.length → ¬ (11 ≤ i ∧ i < 43) →
      ¬ (44 ≤ i ∧ i < 44 + (raw1.getD 43 0).val) → raw1.getD i 0 = raw2.getD i 0) :
    ((∃ c1, parseExtra env { ch with raw := raw1 } = some (c1, none)) ↔
      (∃ c2, parseExtra env { ch with raw := raw2 } = some (c2, none))) ∧
    ∀ c1 c2 : ClientHello,
      parseExtra env { ch with raw := raw1 } = some (c1, none) →
      parseExtra env { ch with raw := raw2 } = some (c2, none) →
      { c1 with raw := raw2 } = c2 ∧
      c1.TLSRecordVersion = c2.TLSRecordVersion ∧
      c1.TLSHandshakeVersion = c2.TLSHandshakeVersion ∧
      c1.Extensions = c2.Extensions ∧
      c1.ExtensionsNormalized = c2.ExtensionsNormalized ∧
      c1.alpnWithLengths = c2.alpnWithLengths ∧
      c1.keyshareGroupsWithLengths = c2.keyshareGroupsWithLengths ∧
      c1.NumID = c2.NumID ∧ c1.NormNumID = c2.NormNumID := by
  have hag := parseExtra_agree env hcalc ch raw1 raw2 hlen hsame
  refine ⟨⟨?_, ?_⟩, ?_⟩
  · rintro ⟨c1, h1⟩
    rw [h1] at hag
    cases h2 : parseExtra env { ch with raw := raw2 } with
    | none =>
      rw [h2] at hag
      simp at hag
    | some x =>
      obtain ⟨c2, e⟩ := x
      rw [h2] at hag
      simp only [Option.map_some', setRaw, Option.some.injEq, Prod.mk.injEq] at hag
      exact ⟨c2, by rw [← hag.2]⟩
  · rintro ⟨c2, h2⟩
    rw [h2] at hag
    cases h1 : parseExtra env { ch with raw := raw1 } with
    | none =>
      rw [h1] at hag
      simp at hag
    | some x =>
      obtain ⟨c1, e⟩ := x
      rw [h1] at hag
      simp only [Option.map_some', setRaw, Option.some.injEq, Prod.mk.injEq] at hag
      exact ⟨c1, by rw [hag.2]⟩
  · intro c1 c2 h1 h2
    rw [h1, h2] at hag
    simp only [Option.map_some', setRaw, Option.some.injEq, Prod.mk.injEq, and_true] at hag
    have hr2 : c2.raw = raw2 := parseExtra_keeps_raw h2
    have hfull : { c1 with raw := raw2 } = c2 := by
      have := congrArg (fun c : ClientHello => { c with raw := raw2 }) hag
      simp only at this
      rw [this, ← hr2]
    refine ⟨hfull, ?_, ?_, ?_, ?_, ?_, ?_, ?_, ?_⟩
    · have hf := congrArg ClientHello.TLSRecordVersion hfull
      exact hf
    · have hf := congrArg ClientHello.TLSHandshakeVersion hfull
      exact hf
    · have hf := congrArg ClientHello.Extensions hfull
      exact hf
    · have hf := congrArg ClientHello.ExtensionsNormalized hfull
      exact hf
    · have hf := congrArg ClientHello.alpnWithLengths hfull
      exact hf
    · have hf := congrArg ClientHello.keyshareGroupsWithLengths hfull
      exact hf
    · have hf := congrArg ClientHello.NumID hfull
      exact hf
    · have hf := congrArg ClientHello.NormNumID hfull
      exact hf

/-- Claim C10 on the sample record and its variant with another random and session id. -/
theorem parseExtra_random_session_id_irrelevant_witness :
    (∀ (c : ClientHello) (r : List Byte),
      sampleEnv.calcNumericID { c with raw := r } = sampleEnv.calcNumericID c) ∧
    sampleRaw.length = sampleRawVariant.length ∧
    (∀ i, i < sampleRaw.length → ¬ (11 ≤ i ∧ i < 43) →
      ¬ (44 ≤ i ∧ i < 44 + (sampleRaw.getD 43 0).val) →
      sampleRaw.getD i 0 = sampleRawVariant.getD i 0) ∧
    sampleRaw ≠ sampleRawVariant ∧
    (((∃ c1, parseExtra sampleEnv { ({} : ClientHello) with raw := sampleRaw } =
          some (c1, none)) ↔
      (∃ c2, parseExtra sampleEnv { ({} : ClientHello) with raw := sampleRawVariant } =
          some (c2, none))) ∧
    ∀ c1 c2 : ClientHello,
      parseExtra sampleEnv { ({} : ClientHello) with raw := sampleRaw } = some (c1, none) →
      parseExtra sampleEnv { ({} : ClientHello) with raw := sampleRawVariant } =
        some (c2, none) →
      { c1 with raw := sampleRawVariant } = c2 ∧
      c1.TLSRecordVersion = c2.TLSRecordVersion ∧
      c1.TLSHandshakeVersion = c2.TLSHandshakeVersion ∧
      c1.Extensions = c2.Extensions ∧
      c1.ExtensionsNormalized = c2.ExtensionsNormalized ∧
      c1.alpnWithLengths = c2.alpnWithLengths ∧
      c1.keyshareGroupsWithLengths = c2.keyshareGroupsWithLengths ∧
      c1.NumID = c2.NumID ∧ c1.NormNumID = c2.NormNumID) :=
  ⟨fun _ _ => rfl, by decide, by decide, by decide,
    parseExtra_random_session_id_irrelevant sampleEnv (fun _ _ => rfl) {} sampleRaw
      sampleRawVariant (by decide) (by decide)⟩

/-! ## The iteration budgets are enough

Every iteration of either loop consumes at least four bytes, so a budget above the length of
the data is never used up: the raw-bytes pass always returns. -/

theorem keyshareLoop_returns :
    ∀ (fuel : Nat) (ch : ClientHello) (d : List Byte),
      d.length < fuel → (keyshareLoop fuel ch d).isSome = true := by
  intro fuel
  induction fuel with
  | zero =>
    intro ch d h
    omega
  | succ n ih =>
    intro ch d h
    unfold keyshareLoop
    split
    · rfl
    · split
      · rfl
      · next group d1 h1 =>
        split
        · rfl
        · next length d2 h2 =>
          simp only
          split
          · rfl
          · next d3 h3 =>
            obtain ⟨a, b, e1, -⟩ := ReadUint16_eq_some h1
            obtain ⟨c, e, e2, -⟩ := ReadUint16_eq_some h2
            obtain ⟨-, e3⟩ := Skip_eq_some h3
            apply ih
            rw [e3, List.length_drop]
            rw [e1, e2] at h
            simp only [List.length_cons] at h
            omega

theorem parseExtensionExtra_returns (ch : ClientHello) (id : Nat) (data : List Byte) :
    (parseExtensionExtra ch id data).isSome = true := by
  unfold parseExtensionExtra
  split
  · rfl
  · split
    · split
      · rfl
      · next d hd =>
        have hk := keyshareLoop_returns (d.length + 1) ch d (by omega)
        cases hr : keyshareLoop (d.length + 1) ch d with
        | none => rw [hr] at hk; simp at hk
        | some x =>
          obtain ⟨c, e⟩ := x
          cases e <;> rfl
    · split <;> rfl

theorem parseExtensionsExtraLoop_returns :
    ∀ (fuel : Nat) (ch : ClientHello) (block : List Byte) (acc : List Nat),
      block.length < fuel → (parseExtensionsExtraLoop fuel ch block acc).isSome = true := by
  intro fuel
  induction fuel with
  | zero =>
    intro ch block acc h
    omega
  | succ n ih =>
    intro ch block acc h
    unfold parseExtensionsExtraLoop
    split
    · rfl
    · split
      · rfl
      · next id rest1 h1 =>
        split
        · rfl
        · next data rest2 h2 =>
          have hx := parseExtensionExtra_returns ch id data
          obtain ⟨a, b, e1, -⟩ := ReadUint16_eq_some h1
          obtain ⟨c, e, e2, -⟩ := ReadUint16LengthPrefixed_eq_some h2
          have hl : rest2.length < n := by
            rw [e1, e2] at h
            simp only [List.length_cons, List.length_append] at h
            omega
          cases hr : parseExtensionExtra ch id data with
          | none => rw [hr] at hx; simp at hx
          | some x =>
            obtain ⟨c2, i2, err⟩ := x
            cases err with
            | some msg => rfl
            | none => exact ih c2 rest2 _ hl

theorem parseExtensionsExtra_returns (ch : ClientHello) (block : List Byte) :
    (parseExtensionsExtra ch block).isSome = true :=
  parseExtensionsExtraLoop_returns _ ch block [] (by omega)

theorem parseExtraTail_returns (env : Env) (ch : ClientHello) (s : List Byte) :
    (parseExtraTail env ch s).isSome = true := by
  unfold parseExtraTail
  split
  · rfl
  · split
    · rfl
    · split
      · rfl
      · split
        · rfl
        · next exts rest hx =>
          have hp := parseExtensionsExtra_returns ch exts
          split
          · next hn => rw [hn] at hp; simp at hp
          · rfl
          · rfl

theorem parseExtra_returns (env : Env) (ch : ClientHello) :
    (parseExtra env ch).isSome = true := by
  rw [parseExtra_eq_tail]
  split
  · rfl
  · split
    · rfl
    · split
      · rfl
      · exact parseExtraTail_returns _ _ _

/-! ## Extensions as uTLS decoded them: what `parseExtensions` stores -/

theorem uint16_of_lt {v : Nat} (h : v < 65536) : uint16 v = v := Nat.mod_eq_of_lt h

theorem map_uint16_of_lt {l : List Nat} (h : ∀ v ∈ l, v < 65536) : l.map uint16 = l := by
  induction l with
  | nil => rfl
  | cons a t ih =>
    rw [List.map_cons, uint16_of_lt (h a (List.mem_cons_self a t)),
      ih (fun v hv => h v (List.mem_cons_of_mem a hv))]

/-- A view of the record that each extension either leaves alone or updates from its own
content folds over the selected extensions only. -/
theorem parseExtensions_view {α β : Type} (env : Env) (sel : TLSExtension → Option β)
    (view : ClientHello → α) (g : β → α → α)
    (hsome : ∀ (ch : ClientHello) (e : TLSExtension) (b : β),
      sel e = some b → view (parseExtensionsStep env ch e) = g b (view ch))
    (hnone : ∀ (ch : ClientHello) (e : TLSExtension),
      sel e = none → view (parseExtensionsStep env ch e) = view ch) :
    ∀ (exts : List TLSExtension) (ch : ClientHello),
      view (exts.foldl (parseExtensionsStep env) ch) =
        (exts.filterMap sel).foldl (fun a b => g b a) (view ch) := by
  intro exts
  induction exts with
  | nil =>
    intro ch
    rfl
  | cons e t ih =>
    intro ch
    rw [List.foldl_cons, ih]
    cases hs : sel e with
    | none => rw [List.filterMap_cons_none hs, hnone ch e hs]
    | some b => rw [List.filterMap_cons_some hs, List.foldl_cons, hsome ch e b hs]

theorem parseExtensions_curves_view (env : Env) (chs : ClientHelloSpec) (ch : ClientHello) :
    ((parseExtensions env ch chs).NamedGroupList,
      (parseExtensions env ch chs).lengthPrefixedSupportedGroups) =
      (chs.Extensions.filterMap curvesOf).foldl
        (fun a c => (a.1 ++ c.map uint16,
          a.2 ++ [uint16 (2 * uint16 (a.1 ++ c.map uint16).length)] ++ (a.1 ++ c.map uint16)))
        (ch.NamedGroupList, ch.lengthPrefixedSupportedGroups) := by
  unfold parseExtensions
  refine parseExtensions_view env curvesOf
    (fun c => (c.NamedGroupList, c.lengthPrefixedSupportedGroups)) _ ?_ ?_ _ ch
  · intro c e b h
    cases e <;> simp [curvesOf] at h
    subst h
    simp [parseExtensionsStep]
  · intro c e h
    cases e <;> simp [curvesOf] at h <;> simp only [parseExtensionsStep]
    split <;> rfl

theorem parseExtensions_signature_view (env : Env) (chs : ClientHelloSpec) (ch : ClientHello) :
    ((parseExtensions env ch chs).SignatureSchemeList,
      (parseExtensions env ch chs).lengthPrefixedSignatureAlgos) =
      (chs.Extensions.filterMap signatureAlgorithmsOf).foldl
        (fun a c => (a.1 ++ c.map uint16,
          a.2 ++ [uint16 (2 * uint16 (a.1 ++ c.map uint16).length)] ++ (a.1 ++ c.map uint16)))
        (ch.SignatureSchemeList, ch.lengthPrefixedSignatureAlgos) := by
  unfold parseExtensions
  refine parseExtensions_view env signatureAlgorithmsOf
    (fun c => (c.SignatureSchemeList, c.lengthPrefixedSignatureAlgos)) _ ?_ ?_ _ ch
  · intro c e b h
    cases e <;> simp [signatureAlgorithmsOf] at h
    subst h
    simp [parseExtensionsStep]
  · intro c e h
    cases e <;> simp [signatureAlgorithmsOf] at h <;> simp only [parseExtensionsStep]
    split <;> rfl

theorem parseExtensions_points_view (env : Env) (chs : ClientHelloSpec) (ch : ClientHello) :
    ((parseExtensions env ch chs).ECPointFormatList,
      (parseExtensions env ch chs).lengthPrefixedEcPointFormats) =
      (chs.Extensions.filterMap pointsOf).foldl
        (fun a c => (c, a.2 ++ [uint8 c.length] ++ c))
        (ch.ECPointFormatList, ch.lengthPrefixedEcPointFormats) := by
  unfold parseExtensions
  refine parseExtensions_view env pointsOf
    (fun c => (c.ECPointFormatList, c.lengthPrefixedEcPointFormats)) _ ?_ ?_ _ ch
  · intro c e b h
    cases e <;> simp [pointsOf] at h
    subst h
    simp [parseExtensionsStep]
  · intro c e h
    cases e <;> simp [pointsOf] at h <;> simp only [parseExtensionsStep]
    split <;> rfl

theorem parseExtensions_compress_view (env : Env) (chs : ClientHelloSpec) (ch : ClientHello) :
    ((parseExtensions env ch chs).CertCompressAlgo,
      (parseExtensions env ch chs).lengthPrefixedCertCompressAlgos) =
      (chs.Extensions.filterMap compressCertOf).foldl
        (fun a c => (a.1 ++ c.map uint16,
          a.2 ++ [uint8 (2 * (uint8 (a.1 ++ c.map uint16).length).val)] ++
            Uint16ToUint8 (a.1 ++ c.map uint16)))
        (ch.CertCompressAlgo, ch.lengthPrefixedCertCompressAlgos) := by
  unfold parseExtensions
  refine parseExtensions_view env compressCertOf
    (fun c => (c.CertCompressAlgo, c.lengthPrefixedCertCompressAlgos)) _ ?_ ?_ _ ch
  · intro c e b h
    cases e <;> simp [compressCertOf] at h
    subst h
    simp [parseExtensionsStep]
  · intro c e h
    cases e <;> simp [compressCertOf] at h <;> simp only [parseExtensionsStep]
    split <;> rfl

theorem Uint16ToUint8_length (a : List Nat) : (Uint16ToUint8 a).length = 2 * a.length := by
  induction a with
  | nil => rfl
  | cons v t ih =>
    simp only [Uint16ToUint8, List.flatMap_cons, List.length_append, List.length_cons,
      List.length_nil] at ih ⊢
    omega

theorem uint8_val_of_lt {n : Nat} (h : n < 256) : (uint8 n).val = n := Nat.mod_eq_of_lt h

/-- Claim C13: on a fresh record, for a `ClientHelloSpec` that holds exactly one
supported_groups extension (`n` groups), exactly one signature_algorithms extension (`m`
schemes) and exactly one ec_point_formats extension (`k` formats), with `n, m ≤ 32767` and
`k ≤ 255`, `parseExtensions` leaves `lengthPrefixedSupportedGroups = [2*n] ++ groups`,
`lengthPrefixedSignatureAlgos = [2*m] ++ schemes` and
`lengthPrefixedEcPointFormats = [k] ++ formats`. -/
theorem parseExtensions_length_prefixed (env : Env) (raw : List Byte) (chs : ClientHelloSpec)
    (groups schemes : List Nat) (formats : List Byte)
    (hg : chs.Extensions.filterMap curvesOf = [groups])
    (hs : chs.Extensions.filterMap signatureAlgorithmsOf = [schemes])
    (hf : chs.Extensions.filterMap pointsOf = [formats])
    (hgv : ∀ v ∈ groups, v < 65536) (hsv : ∀ v ∈ schemes, v < 65536)
    (hn : groups.length ≤ 32767) (hm : schemes.length ≤ 32767) (hk : formats.length ≤ 255) :
    (parseExtensions env { raw := raw } chs).lengthPrefixedSupportedGroups =
      (2 * groups.length) :: groups ∧
    (parseExtensions env { raw := raw } chs).lengthPrefixedSignatureAlgos =
      (2 * schemes.length) :: schemes ∧
    (parseExtensions env { raw := raw } chs).lengthPrefixedEcPointFormats =
      uint8 formats.length :: formats ∧
    (uint8 formats.length).val = formats.length := by
  have h1 := parseExtensions_curves_view env chs { raw := raw }
  have h2 := parseExtensions_signature_view env chs { raw := raw }
  have h3 := parseExtensions_points_view env chs { raw := raw }
  rw [hg] at h1
  rw [hs] at h2
  rw [hf] at h3
  simp only [List.foldl_cons, List.foldl_nil, List.nil_append, Prod.mk.injEq,
    map_uint16_of_lt hgv] at h1
  simp only [List.foldl_cons, List.foldl_nil, List.nil_append, Prod.mk.injEq,
    map_uint16_of_lt hsv] at h2
  simp only [List.foldl_cons, List.foldl_nil, List.nil_append, Prod.mk.injEq] at h3
  refine ⟨?_, ?_, ?_, uint8_val_of_lt (by omega)⟩
  · rw [h1.2]
    have e : uint16 (2 * uint16 groups.length) = 2 * groups.length := by
      unfold uint16
      omega
    rw [e]
    rfl
  · rw [h2.2]
    have e : uint16 (2 * uint16 schemes.length) = 2 * schemes.length := by
      unfold uint16
      omega
    rw [e]
    rfl
  · rw [h3.2]
    rfl

/-- Claim C14: on a fresh record, for a `ClientHelloSpec` that holds exactly one
compress_certificate extension with `n ≤ 127` algorithm ids, `parseExtensions` leaves
`CertCompressAlgo` equal to the ids in order and `lengthPrefixedCertCompressAlgos` equal to
the byte `2*n` (no wrap in 8 bits) followed by exactly `2*n` bytes, the ids in order, two
bytes each. -/
theorem parseExtensions_cert_compress (env : Env) (raw : List Byte) (chs : ClientHelloSpec)
    (ids : List Nat)
    (hc : chs.Extensions.filterMap compressCertOf = [ids])
    (hv : ∀ v ∈ ids, v < 65536) (hn : ids.length ≤ 127) :
    (parseExtensions env { raw := raw } chs).CertCompressAlgo = ids ∧
    (parseExtensions env { raw := raw } chs).lengthPrefixedCertCompressAlgos =
      uint8 (2 * ids.length) :: Uint16ToUint8 ids ∧
    (uint8 (2 * ids.length)).val = 2 * ids.length ∧
    (Uint16ToUint8 ids).length = 2 * ids.length ∧
    Uint16ToUint8 ids = ids.flatMap putUint16 := by
  have h1 := parseExtensions_compress_view env chs { raw := raw }
  rw [hc] at h1
  simp only [List.foldl_cons, List.foldl_nil, List.nil_append, Prod.mk.injEq,
    map_uint16_of_lt hv] at h1
  refine ⟨h1.1, ?_, uint8_val_of_lt (by omega), Uint16ToUint8_length ids, rfl⟩
  rw [h1.2, uint8_val_of_lt (by omega : ids.length < 256)]
  rfl

/-- Claim C13 on the sample `ClientHelloSpec`: three groups, two schemes, one format. -/
theorem parseExtensions_length_prefixed_witness :
    (sampleSpec.Extensions.filterMap curvesOf = [[0x0a0a, 0x1d, 0x17]] ∧
      sampleSpec.Extensions.filterMap signatureAlgorithmsOf = [[0x0403, 0x0804]] ∧
      sampleSpec.Extensions.filterMap pointsOf = [[0]]) ∧
    ((parseExtensions sampleEnv { raw := sampleRaw } sampleSpec).lengthPrefixedSupportedGroups =
        (2 * [0x0a0a, 0x1d, 0x17].length) :: [0x0a0a, 0x1d, 0x17] ∧
      (parseExtensions sampleEnv { raw := sampleRaw } sampleSpec).lengthPrefixedSignatureAlgos =
        (2 * [0x0403, 0x0804].length) :: [0x0403, 0x0804] ∧
      (parseExtensions sampleEnv { raw := sampleRaw } sampleSpec).lengthPrefixedEcPointFormats =
        uint8 ([0] : List Byte).length :: [0] ∧
      (uint8 ([0] : List Byte).length).val = ([0] : List Byte).length) :=
  ⟨by decide,
    parseExtensions_length_prefixed sampleEnv sampleRaw sampleSpec [0x0a0a, 0x1d, 0x17]
      [0x0403, 0x0804] [0] (by decide) (by decide) (by decide) (by decide) (by decide)
      (by decide) (by decide) (by decide)⟩

/-- Claim C14 on the sample `ClientHelloSpec`: two algorithm ids. -/
theorem parseExtensions_cert_compress_witness :
    sampleSpec.Extensions.filterMap compressCertOf = [[2, 1]] ∧
    ((parseExtensions sampleEnv { raw := sampleRaw } sampleSpec).CertCompressAlgo = [2, 1] ∧
      (parseExtensions sampleEnv { raw := sampleRaw } sampleSpec).lengthPrefixedCertCompressAlgos =
        uint8 (2 * [2, 1].length) :: Uint16ToUint8 [2, 1] ∧
      (uint8 (2 * [2, 1].length)).val = 2 * [2, 1].length ∧
      (Uint16ToUint8 [2, 1]).length = 2 * [2, 1].length ∧
      Uint16ToUint8 [2, 1] = [2, 1].flatMap putUint16) :=
  ⟨by decide,
    parseExtensions_cert_compress sampleEnv sampleRaw sampleSpec [2, 1] (by decide)
      (by decide) (by decide)⟩

/-! ## What the raw-bytes pass leaves alone, and the lists uTLS decoded -/

theorem parseExtraTail_outside {env : Env} {ch ch' : ClientHello} {s : List Byte}
    {e : Option Error} (h : parseExtraTail env ch s = some (ch', e)) :
    outsideExtra ch' = outsideExtra ch := by
  unfold parseExtraTail at h
  split at h
  · simp only [Option.some.injEq, Prod.mk.injEq] at h
    rw [← h.1]
  · split at h
    · simp only [Option.some.injEq, Prod.mk.injEq] at h
      rw [← h.1]
    · split at h
      · simp only [Option.some.injEq, Prod.mk.injEq] at h
        rw [← h.1]
      · split at h
        · simp only [Option.some.injEq, Prod.mk.injEq] at h
          rw [← h.1]
        · split at h
          · simp at h
          · next c err hp =>
            obtain ⟨x, a, k, hfr⟩ := parseExtensionsExtra_frame hp
            simp only [Option.some.injEq, Prod.mk.injEq] at h
            rw [← h.1, hfr]
            rfl
          · next c hp =>
            obtain ⟨x, a, k, hfr⟩ := parseExtensionsExtra_frame hp
            simp only [Option.some.injEq, Prod.mk.injEq] at h
            rw [← h.1, hfr]
            rfl

theorem parseExtra_outside {env : Env} {ch ch' : ClientHello} {e : Option Error}
    (h : parseExtra env ch = some (ch', e)) :
    outsideExtra ch' = outsideExtra ch := by
  rw [parseExtra_eq_tail] at h
  split at h
  · simp only [Option.some.injEq, Prod.mk.injEq] at h
    rw [← h.1]
  · split at h
    · simp only [Option.some.injEq, Prod.mk.injEq] at h
      rw [← h.1]
      rfl
    · split at h
      · simp only [Option.some.injEq, Prod.mk.injEq] at h
        rw [← h.1]
        rfl
      · rw [parseExtraTail_outside h]
        rfl

theorem parseExtensions_groups (env : Env) (chs : ClientHelloSpec) (ch : ClientHello) :
    (parseExtensions env ch chs).NamedGroupList =
      (chs.Extensions.filterMap curvesOf).foldl (fun a c => a ++ c.map uint16)
        ch.NamedGroupList := by
  unfold parseExtensions
  refine parseExtensions_view env curvesOf (fun c => c.NamedGroupList) _ ?_ ?_ _ ch
  · intro c e b h
    cases e <;> simp [curvesOf] at h
    subst h
    simp [parseExtensionsStep]
  · intro c e h
    cases e <;> simp [curvesOf] at h <;> simp only [parseExtensionsStep]
    split <;> rfl

theorem parseExtensions_versions (env : Env) (chs : ClientHelloSpec) (ch : ClientHello) :
    (parseExtensions env ch chs).SupportedVersions =
      (chs.Extensions.filterMap versionsOf).foldl (fun a c => a ++ c.map uint16)
        ch.SupportedVersions := by
  unfold parseExtensions
  refine parseExtensions_view env versionsOf (fun c => c.SupportedVersions) _ ?_ ?_ _ ch
  · intro c e b h
    cases e <;> simp [versionsOf] at h
    subst h
    simp [parseExtensionsStep]
  · intro c e h
    cases e <;> simp [versionsOf] at h <;> simp only [parseExtensionsStep]
    split <;> rfl

theorem parseExtensions_keyshare (env : Env) (chs : ClientHelloSpec) (ch : ClientHello) :
    (parseExtensions env ch chs).KeyShare =
      (chs.Extensions.filterMap keyShareGroupsOf).foldl (fun a c => a ++ c.map uint16)
        ch.KeyShare := by
  unfold parseExtensions
  refine parseExtensions_view env keyShareGroupsOf (fun c => c.KeyShare) _ ?_ ?_ _ ch
  · intro c e b h
    cases e <;> simp [keyShareGroupsOf] at h
    subst h
    simp [parseExtensionsStep]
  · intro c e h
    cases e <;> simp [keyShareGroupsOf] at h <;> simp only [parseExtensionsStep]
    split <;> rfl

/-! ## The raw-bytes pass on a well-formed block -/

theorem putUint16_val {v : Nat} (h : v < 65536) :
    (uint8 (v / 256)).val * 256 + (uint8 v).val = v := by
  show v / 256 % 256 * 256 + v % 256 = v
  omega

theorem ReadUint16_putUint16 {v : Nat} (h : v < 65536) (rest : List Byte) :
    ReadUint16 (putUint16 v ++ rest) = some (v, rest) := by
  show ReadUint16 (uint8 (v / 256) :: uint8 v :: rest) = _
  rw [ReadUint16_cons, putUint16_val h]

theorem ReadUint16LengthPrefixed_wire {data : List Byte} (h : data.length < 65536)
    (rest : List Byte) :
    ReadUint16LengthPrefixed (putUint16 data.length ++ data ++ rest) = some (data, rest) := by
  show ReadUint16LengthPrefixed (uint8 (data.length / 256) :: uint8 data.length ::
    (data ++ rest)) = _
  rw [ReadUint16LengthPrefixed_cons, putUint16_val h, if_neg (by simp)]
  simp

theorem wireExtension_append (id : Nat) (data rest : List Byte) :
    wireExtension id data ++ rest = putUint16 id ++ (putUint16 data.length ++ data ++ rest) := by
  simp [wireExtension]

theorem parseExtensionsExtraLoop_wire {id : Nat} {data : List Byte} (hid : id < 65536)
    (hd : data.length < 65536) (fuel : Nat) (ch : ClientHello) (rest : List Byte)
    (acc : List Nat) :
    parseExtensionsExtraLoop (fuel + 1) ch (wireExtension id data ++ rest) acc =
      match parseExtensionExtra ch id data with
      | none => none
      | some (ch, _, some err) =>
        some (ch, some ("failed to parse extension, parseExtensionExtra(): " ++ err))
      | some (ch, extensionID, none) =>
        parseExtensionsExtraLoop fuel ch rest (acc ++ [extensionID]) := by
  rw [parseExtensionsExtraLoop, wireExtension_append, ReadUint16_putUint16 hid]
  simp only [ReadUint16LengthPrefixed_wire hd]
  rfl

theorem parseExtensionExtra_alpn {ch ch2 : ClientHello} {id id2 : Nat} {data : List Byte}
    {e : Option Error} (h : parseExtensionExtra ch id data = some (ch2, id2, e)) :
    ch2.alpnWithLengths = if id = 16 then data else ch.alpnWithLengths := by
  unfold parseExtensionExtra at h
  split at h
  · next h16 =>
    simp only [Option.some.injEq, Prod.mk.injEq] at h
    rw [← h.1, if_pos h16]
  · next h16 =>
    rw [if_neg h16]
    split at h
    · split at h
      · simp only [Option.some.injEq, Prod.mk.injEq] at h
        rw [← h.1]
      · split at h
        · simp at h
        · next c err hk =>
          obtain ⟨ks, hks⟩ := keyshareLoop_frame _ _ _ _ _ hk
          simp only [Option.some.injEq, Prod.mk.injEq] at h
          rw [← h.1, hks]
        · next c hk =>
          obtain ⟨ks, hks⟩ := keyshareLoop_frame _ _ _ _ _ hk
          simp only [Option.some.injEq, Prod.mk.injEq] at h
          rw [← h.1, hks]
    · split at h <;>
      · simp only [Option.some.injEq, Prod.mk.injEq] at h
        rw [← h.1]

theorem parseExtensionsExtraLoop_alpn :
    ∀ (recs : List (Nat × List Byte)) (fuel : Nat) (ch : ClientHello) (acc : List Nat)
      (ch' : ClientHello),
      (∀ r ∈ recs, r.1 < 65536 ∧ r.2.length < 65536) →
      parseExtensionsExtraLoop fuel ch (recs.flatMap (fun r => wireExtension r.1 r.2)) acc =
        some (ch', none) →
      ch'.alpnWithLengths = lastALPN recs ch.alpnWithLengths := by
  intro recs
  induction recs with
  | nil =>
    intro fuel ch acc ch' _ h
    cases fuel with
    | zero => simp [parseExtensionsExtraLoop] at h
    | succ n =>
      simp only [List.flatMap_nil, parseExtensionsExtraLoop, List.isEmpty_nil, if_true,
        Option.some.injEq, Prod.mk.injEq, and_true] at h
      rw [← h]
      rfl
  | cons r t ih =>
    intro fuel ch acc ch' hb h
    cases fuel with
    | zero => simp [parseExtensionsExtraLoop] at h
    | succ n =>
      have hr := hb r (List.mem_cons_self r t)
      rw [List.flatMap_cons, parseExtensionsExtraLoop_wire hr.1 hr.2] at h
      cases hx : parseExtensionExtra ch r.1 r.2 with
      | none => rw [hx] at h; simp at h
      | some x =>
        obtain ⟨c, i, e⟩ := x
        rw [hx] at h
        cases e with
        | some err => simp at h
        | none =>
          simp only at h
          have := ih n c _ ch' (fun q hq => hb q (List.mem_cons_of_mem r hq)) h
          rw [this, parseExtensionExtra_alpn hx]
          rfl

theorem lastALPN_none {recs : List (Nat × List Byte)} (h : ∀ r ∈ recs, r.1 ≠ 16)
    (init : List Byte) : lastALPN recs init = init := by
  induction recs generalizing init with
  | nil => rfl
  | cons r t ih =>
    show lastALPN t (if r.1 = 16 then r.2 else init) = init
    rw [if_neg (h r (List.mem_cons_self r t)), ih (fun q hq => h q (List.mem_cons_of_mem r hq))]

theorem lastALPN_last (pre post : List (Nat × List Byte)) (d init : List Byte)
    (h : ∀ r ∈ post, r.1 ≠ 16) : lastALPN (pre ++ (16, d) :: post) init = d := by
  unfold lastALPN
  rw [List.foldl_append, List.foldl_cons]
  exact lastALPN_none h _

/-- Claim C12: let an extensions block be the concatenation of the records `recs` (16-bit id,
data behind a 16-bit length) and let `parseExtensionsExtra` succeed on it.  When the block
contains an ALPN extension (id 16), `ch.alpnWithLengths` afterwards is byte for byte the data
of that extension, of the last one when several occur; when it contains none,
`alpnWithLengths` is left unchanged. -/
theorem parseExtensionsExtra_alpn (ch ch' : ClientHello) (recs : List (Nat × List Byte))
    (hb : ∀ r ∈ recs, r.1 < 65536 ∧ r.2.length < 65536)
    (h : parseExtensionsExtra ch (recs.flatMap (fun r => wireExtension r.1 r.2)) =
      some (ch', none)) :
    (∀ (pre post : List (Nat × List Byte)) (d : List Byte),
      recs = pre ++ (16, d) :: post → (∀ r ∈ post, r.1 ≠ 16) → ch'.alpnWithLengths = d) ∧
    ((∀ r ∈ recs, r.1 ≠ 16) → ch'.alpnWithLengths = ch.alpnWithLengths) := by
  have key := parseExtensionsExtraLoop_alpn recs _ ch [] ch' hb h
  constructor
  · intro pre post d hrec hpost
    rw [key, hrec]
    exact lastALPN_last pre post d _ hpost
  · intro hno
    rw [key]
    exact lastALPN_none hno _

/-- Claim C12 on the sample extensions, whose third record is the ALPN extension. -/
theorem parseExtensionsExtra_alpn_witness :
    (∀ r ∈ sampleRecords, r.1 < 65536 ∧ r.2.length < 65536) ∧
    sampleRecords.flatMap (fun r => wireExtension r.1 r.2) = sampleExtensions ∧
    parseExtensionsExtra {} (sampleRecords.flatMap (fun r => wireExtension r.1 r.2)) =
      some (sampleBlockParsed, none) ∧
    ((∀ (pre post : List (Nat × List Byte)) (d : List Byte),
        sampleRecords = pre ++ (16, d) :: post → (∀ r ∈ post, r.1 ≠ 16) →
        sampleBlockParsed.alpnWithLengths = d) ∧
      ((∀ r ∈ sampleRecords, r.1 ≠ 16) →
        sampleBlockParsed.alpnWithLengths = ({} : ClientHello).alpnWithLengths)) :=
  ⟨by decide, by decide, by decide,
    parseExtensionsExtra_alpn {} sampleBlockParsed sampleRecords (by decide) (by decide)⟩

/-! ## The key_share extension -/

theorem wireKeyShareEntry_append (g : Nat) (ke rest : List Byte) :
    wireKeyShareEntry g ke ++ rest = putUint16 g ++ (putUint16 ke.length ++ (ke ++ rest)) := by
  simp [wireKeyShareEntry]

theorem keyshareLoop_wire {g : Nat} {ke : List Byte} (hg : g < 65536)
    (hk : ke.length < 65536) (fuel : Nat) (ch : ClientHello) (rest : List Byte) :
    keyshareLoop (fuel + 1) ch (wireKeyShareEntry g ke ++ rest) =
      keyshareLoop fuel
        { ch with keyshareGroupsWithLengths :=
            ch.keyshareGroupsWithLengths ++ [normalizeGREASE g, ke.length] } rest := by
  rw [keyshareLoop, wireKeyShareEntry_append, ReadUint16_putUint16 hg]
  simp only [ReadUint16_putUint16 hk]
  rw [Skip_of_le (by simp), List.drop_left]
  rfl

theorem length_le_flatMap_wireKeyShareEntry (es : List (Nat × List Byte)) :
    es.length ≤ (es.flatMap (fun e => wireKeyShareEntry e.1 e.2)).length := by
  induction es with
  | nil => simp
  | cons e t ih =>
    rw [List.flatMap_cons, List.length_append, List.length_cons]
    have h4 : 4 ≤ (wireKeyShareEntry e.1 e.2).length := by
      simp [wireKeyShareEntry, putUint16]
    omega

theorem keyshareLoop_entries :
    ∀ (es : List (Nat × List Byte)) (fuel : Nat) (ch : ClientHello),
      es.length < fuel → (∀ e ∈ es, e.1 < 65536 ∧ e.2.length < 65536) →
      keyshareLoop fuel ch (es.flatMap (fun e => wireKeyShareEntry e.1 e.2)) =
        some ({ ch with keyshareGroupsWithLengths := ch.keyshareGroupsWithLengths ++
                  es.flatMap (fun e => [normalizeGREASE e.1, e.2.length]) }, none) := by
  intro es
  induction es with
  | nil =>
    intro fuel ch hf _
    cases fuel with
    | zero => omega
    | succ n =>
      simp [keyshareLoop]
  | cons e t ih =>
    intro fuel ch hf hb
    cases fuel with
    | zero => omega
    | succ n =>
      have he := hb e (List.mem_cons_self e t)
      rw [List.flatMap_cons, keyshareLoop_wire he.1 he.2,
        ih n _ (by simpa using hf) (fun q hq => hb q (List.mem_cons_of_mem e hq))]
      simp

theorem parseExtensionExtra_keyshare_entries (ch : ClientHello) (a b : Byte)
    (es : List (Nat × List Byte)) (hb : ∀ e ∈ es, e.1 < 65536 ∧ e.2.length < 65536) :
    parseExtensionExtra ch 51 (a :: b :: es.flatMap (fun e => wireKeyShareEntry e.1 e.2)) =
      some ({ ch with keyshareGroupsWithLengths := ch.keyshareGroupsWithLengths ++
                es.flatMap (fun e => [normalizeGREASE e.1, e.2.length]) }, 51, none) := by
  unfold parseExtensionExtra
  rw [if_neg (by decide), if_pos rfl, Skip_of_le (by simp)]
  simp only [List.drop_succ_cons, List.drop_zero]
  rw [keyshareLoop_entries es _ ch
    (by have := length_le_flatMap_wireKeyShareEntry es; omega) hb]

theorem parseExtensionExtra_keyshare_short (ch : ClientHello) (data : List Byte)
    (h : data.length < 2) :
    parseExtensionExtra ch 51 data =
      some (ch, 0, some "unable to skip keyshare total length") := by
  unfold parseExtensionExtra
  rw [if_neg (by decide), if_pos rfl, Skip_eq_none.2 h]

theorem parseExtensionExtra_keyshare_prefix (ch : ClientHello) (a b c d : Byte)
    (rest : List Byte) :
    parseExtensionExtra ch 51 (a :: b :: rest) = parseExtensionExtra ch 51 (c :: d :: rest) := by
  unfold parseExtensionExtra
  rw [if_neg (by decide), if_pos rfl, Skip_of_le (by simp), Skip_of_le (by simp)]
  rfl

/-- Claim C15, as the code has it: a key_share body whose list-length prefix says 0 while five
bytes follow (one share of group `0x001d`) is parsed without error, and so is the body
`ff ff` that promises 65535 bytes and holds none. -/
theorem parseExtensionExtra_keyshare_prefix_unchecked :
    parseExtensionExtra {} 51 [0x00, 0x00, 0x00, 0x1d, 0x00, 0x01, 0x09] =
      some ({ keyshareGroupsWithLengths := [0x1d, 1] }, 51, none) ∧
    parseExtensionExtra {} 51 [0xff, 0xff] = some ({}, 51, none) := by
  decide

/-- Claim C15, amended: `parseExtensionExtra` skips the two bytes of the list-length prefix of
a key_share body without comparing them with what follows.  A body shorter than two bytes is
an error; replacing the prefix by any other two bytes does not change the result; and a body
whose entries (group, key exchange behind a 16-bit length) are whole is parsed without error
whatever the prefix says, each group and key exchange length being recorded. -/
theorem parseExtensionExtra_keyshare_prefix_skipped (ch : ClientHello) (a b : Byte)
    (es : List (Nat × List Byte)) (hb : ∀ e ∈ es, e.1 < 65536 ∧ e.2.length < 65536) :
    parseExtensionExtra ch 51 (a :: b :: es.flatMap (fun e => wireKeyShareEntry e.1 e.2)) =
      some ({ ch with keyshareGroupsWithLengths := ch.keyshareGroupsWithLengths ++
                es.flatMap (fun e => [normalizeGREASE e.1, e.2.length]) }, 51, none) ∧
    (∀ (c d : Byte) (rest : List Byte),
      parseExtensionExtra ch 51 (a :: b :: rest) = parseExtensionExtra ch 51 (c :: d :: rest)) ∧
    (∀ data : List Byte, data.length < 2 →
      parseExtensionExtra ch 51 data =
        some (ch, 0, some "unable to skip keyshare total length")) :=
  ⟨parseExtensionExtra_keyshare_entries ch a b es hb,
    fun c d rest => parseExtensionExtra_keyshare_prefix ch a b c d rest,
    fun data h => parseExtensionExtra_keyshare_short ch data h⟩

/-- Claim C15, amended, on a body with two shares behind the prefix `ff ff`. -/
theorem parseExtensionExtra_keyshare_prefix_skipped_witness :
    (∀ e ∈ sampleShares, e.1 < 65536 ∧ e.2.length < 65536) ∧
    (parseExtensionExtra {} 51
        (0xff :: 0xff :: sampleShares.flatMap (fun e => wireKeyShareEntry e.1 e.2)) =
      some ({ ({} : ClientHello) with keyshareGroupsWithLengths :=
                ({} : ClientHello).keyshareGroupsWithLengths ++
                  sampleShares.flatMap (fun e => [normalizeGREASE e.1, e.2.length]) },
            51, none) ∧
    (∀ (c d : Byte) (rest : List Byte),
      parseExtensionExtra {} 51 (0xff :: 0xff :: rest) =
        parseExtensionExtra {} 51 (c :: d :: rest)) ∧
    (∀ data : List Byte, data.length < 2 →
      parseExtensionExtra {} 51 data =
        some ({}, 0, some "unable to skip keyshare total length"))) :=
  ⟨by decide,
    parseExtensionExtra_keyshare_prefix_skipped {} 0xff 0xff sampleShares (by decide)⟩

/-! ## What `Raw()` holds after a short read -/

theorem take_min_append_drop (t : List Byte) (n : Nat) :
    t.take (min n t.length) ++ t.drop n = t := by
  by_cases h : n ≤ t.length
  · rw [Nat.min_eq_left h, List.take_append_drop]
  · rw [Nat.min_eq_right (by omega), List.take_of_length_le (Nat.le_refl _),
      List.drop_eq_nil_of_le (by omega), List.append_nil]

theorem take_min_replicate (t : List Byte) (n : Nat) :
    t.take n = t.take (min n t.length) := by
  by_cases h : n ≤ t.length
  · rw [Nat.min_eq_left h]
  · rw [Nat.min_eq_right (by omega), List.take_of_length_le (Nat.le_refl _),
      List.take_of_length_le (by omega)]

theorem ReadClientHello_raw_zero_padded (p : List Byte) :
    ∃ k : Nat, (ReadClientHello p).1.Raw = consumedBy p ++ List.replicate k 0 ∧
      p = consumedBy p ++ (ReadClientHello p).2.2 := by
  by_cases h : p.length < 5
  · have h5 : ¬ 5 ≤ p.length := by omega
    have hrest : (ReadClientHello p).2.2 = [] := by
      by_cases h0 : p.length = 0 <;>
        simp [ReadClientHello, ReadFull, h5, h0, List.drop_eq_nil_of_le (Nat.le_of_lt h)]
    have hraw : (ReadClientHello p).1.Raw = p ++ List.replicate (5 - p.length) 0 := by
      by_cases h0 : p.length = 0 <;>
        simp [ReadClientHello, ReadFull, h5, h0, ClientHello.Raw,
          List.take_of_length_le (Nat.le_of_lt h)]
    have hc : consumedBy p = p := by
      unfold consumedBy
      rw [hrest]
      simp
    exact ⟨5 - p.length, by rw [hraw, hc], by rw [hc, hrest, List.append_nil]⟩
  · match p, h with
    | a :: b :: c :: d :: e :: t, _ =>
      unfold consumedBy
      rw [ReadClientHello_cons5]
      by_cases ha : a = 0x16
      · subst ha
        simp only [ne_eq, not_true_eq_false, if_false, ClientHello.Raw, ReadFull]
        have e1 : (0x16 :: b :: c :: d :: e :: t).length -
            (t.drop (d.val * 256 + e.val)).length =
              min (d.val * 256 + e.val) t.length + 5 := by
          simp only [List.length_cons, List.length_drop]
          omega
        rw [e1]
        refine ⟨d.val * 256 + e.val - t.length, ?_, ?_⟩
        · simp only [List.take_succ_cons, List.cons_append, List.nil_append,
            List.append_assoc]
          rw [← take_min_replicate]
        · simp only [List.take_succ_cons, List.cons_append]
          rw [take_min_append_drop]
      · simp only [ne_eq, ha, not_false_eq_true, if_true, ClientHello.Raw]
        have e1 : (a :: b :: c :: d :: e :: t).length - t.length = 5 := by
          simp only [List.length_cons]
          omega
        rw [e1]
        exact ⟨0, by simp, by simp⟩
    | [], h => simp at h
    | [_], h => simp at h
    | [_, _], h => simp at h
    | [_, _, _], h => simp at h
    | [_, _, _, _], h => simp at h

/-- Claim C16, at inputs where the code departs from it: from a reader holding the two bytes
`16 03`, `ReadClientHello` consumes both, returns `unexpected EOF`, and `Raw()` is the whole
5-byte header buffer, three zero bytes beyond what was read; from `16 03 01 00 04 09`, a
header that declares four payload bytes followed by one, `Raw()` is the 9-byte buffer while
six bytes were consumed. -/
theorem ReadClientHello_raw_after_short_read :
    (ReadClientHello [0x16, 0x03]).2.1 = some "unexpected EOF" ∧
    consumedBy [0x16, 0x03] = [0x16, 0x03] ∧
    (ReadClientHello [0x16, 0x03]).1.Raw = [0x16, 0x03, 0, 0, 0] ∧
    (ReadClientHello [0x16, 0x03, 0x01, 0x00, 0x04, 0x09]).2.1 = some "unexpected EOF" ∧
    consumedBy [0x16, 0x03, 0x01, 0x00, 0x04, 0x09] = [0x16, 0x03, 0x01, 0x00, 0x04, 0x09] ∧
    (ReadClientHello [0x16, 0x03, 0x01, 0x00, 0x04, 0x09]).1.Raw =
      [0x16, 0x03, 0x01, 0x00, 0x04, 0x09, 0, 0, 0] := by
  decide

/-! ## The bytes `parseExtra` reads -/

/-- The outcome of `parseExtra` depends on the buffer only through its length, the two version
fields, the session id length and what follows the session id. -/
theorem parseExtra_agree_read (env : Env)
    (hcalc : ∀ (c : ClientHello) (r : List Byte),
      env.calcNumericID { c with raw := r } = env.calcNumericID c)
    (ch : ClientHello) (raw1 raw2 : List Byte) (hlen : raw1.length = raw2.length)
    (hsame : ∀ i, i < raw1.length →
      (i = 1 ∨ i = 2 ∨ i = 9 ∨ i = 10 ∨ i = 43 ∨ 44 + (raw1.getD 43 0).val ≤ i) →
      raw1.getD i 0 = raw2.getD i 0) :
    (parseExtra env { ch with raw := raw1 }).map (setRaw []) =
      (parseExtra env { ch with raw := raw2 }).map (setRaw []) := by
  rw [parseExtra_eq_tail, parseExtra_eq_tail]
  simp only
  by_cases h5 : raw1.length < 5
  · rw [readRecordHeader_of_lt h5, readRecordHeader_of_lt (hlen ▸ h5)]
    rfl
  · rw [readRecordHeader_of_le (by omega), readRecordHeader_of_le (by omega)]
    simp only
    have hrv : BigEndianUint16 ((raw1.drop 1).take 2) = BigEndianUint16 ((raw2.drop 1).take 2) := by
      rw [BigEndianUint16_drop_take, BigEndianUint16_drop_take,
        hsame 1 (by omega) (by omega), hsame 2 (by omega) (by omega)]
    rw [hrv]
    by_cases h43 : raw1.length < 43
    · rw [readHandshakeHeader_of_lt (by rw [List.length_drop]; omega),
        readHandshakeHeader_of_lt (by rw [List.length_drop]; omega)]
      rfl
    · rw [readHandshakeHeader_of_le (by rw [List.length_drop]; omega),
        readHandshakeHeader_of_le (by rw [List.length_drop]; omega)]
      simp only [List.drop_drop]
      have hhv : BigEndianUint16 ((raw1.drop 9).take 2) =
          BigEndianUint16 ((raw2.drop 9).take 2) := by
        rw [BigEndianUint16_drop_take, BigEndianUint16_drop_take,
          hsame 9 (by omega) (by omega), hsame 10 (by omega) (by omega)]
      have e9 : (5 : Nat) + 4 = 9 := rfl
      have e43 : (5 : Nat) + 38 = 43 := rfl
      rw [e9, e43, hhv, ReadUint8LengthPrefixed_drop, ReadUint8LengthPrefixed_drop]
      by_cases h44 : raw1.length < 44
      · rw [if_pos (by omega), if_pos (by omega)]
        rfl
      · have hn : raw1.getD 43 0 = raw2.getD 43 0 := hsame 43 (by omega) (by omega)
        rw [← hn]
        by_cases hsid : raw1.length < 43 + 1 + (raw1.getD 43 0).val
        · rw [if_pos hsid, if_pos (by omega)]
          rfl
        · rw [if_neg hsid, if_neg (by omega)]
          simp only
          have hdrop : raw1.drop (43 + 1 + (raw1.getD 43 0).val) =
              raw2.drop (43 + 1 + (raw1.getD 43 0).val) :=
            drop_eq_of_agree hlen (fun i hi hk => hsame i hi (by omega))
          rw [hdrop]
          have t1 := parseExtraTail_raw env hcalc raw1
            (withVersions ch (BigEndianUint16 ((raw2.drop 1).take 2))
              (BigEndianUint16 ((raw2.drop 9).take 2)))
            (raw2.drop (43 + 1 + (raw1.getD 43 0).val))
          have t2 := parseExtraTail_raw env hcalc raw2
            (withVersions ch (BigEndianUint16 ((raw2.drop 1).take 2))
              (BigEndianUint16 ((raw2.drop 9).take 2)))
            (raw2.drop (43 + 1 + (raw1.getD 43 0).val))
          have hset : ∀ r : List Byte, setRaw [] ∘ setRaw r = setRaw [] := by
            intro r
            funext x
            rfl
          calc _ = Option.map (setRaw []) (Option.map (setRaw raw1) _) := congrArg _ t1
            _ = Option.map (setRaw []) (Option.map (setRaw raw2) _) := by
                rw [Option.map_map, Option.map_map, hset, hset]
            _ = _ := (congrArg _ t2).symm

theorem getD_set_ne (l : List Byte) (k i : Nat) (t : Byte) (h : i ≠ k) :
    (l.set k t).getD i 0 = l.getD i 0 := by
  rw [List.getD_eq_getElem?_getD, List.getD_eq_getElem?_getD, List.getElem?_set_ne (Ne.symm h)]

theorem ParseClientHello_rejected (env : Env) (ch : ClientHello) (e : Error)
    (h : env.RawClientHello ch.raw = .error e) :
    ParseClientHello env ch =
      some (ch, some ("failed to parse ClientHello, (*tls.Fingerprinter).RawClientHello(): "
        ++ e)) := by
  unfold ParseClientHello
  rw [h]

/-! ## QUIC varints and the CRYPTO frame -/

theorem putBE_length (k v : Nat) : (putBE k v).length = k := by
  induction k with
  | zero => rfl
  | succ n ih => simp [putBE, ih]

theorem foldl_putBE (k : Nat) :
    ∀ (a v : Nat),
      (putBE k v).foldl (fun acc (x : Byte) => acc * 256 + x.val) a =
        a * 256 ^ k + v % 256 ^ k := by
  induction k with
  | zero =>
    intro a v
    simp [putBE, Nat.mod_one]
  | succ n ih =>
    intro a v
    rw [putBE, List.foldl_cons, ih]
    have hd : (uint8 (v / 256 ^ n)).val = v / 256 ^ n % 256 := rfl
    rw [hd, Nat.pow_succ, Nat.mod_mul]
    ring

theorem take_varint_putVarint (w v : Nat) (rest : List Byte) (hw : w ≤ 3)
    (hv : v < 64 * 256 ^ (2 ^ w - 1)) :
    take_varint (putVarint w v ++ rest) = .ok (v, rest) := by
  have hq : v / 256 ^ (2 ^ w - 1) < 64 := by
    rw [Nat.div_lt_iff_lt_mul (by positivity)]
    exact hv
  have key : ∀ q : Nat, q < 64 →
      (uint8 (w * 64 + q)).val = w * 64 + q ∧ (w * 64 + q) / 64 = w ∧
        (w * 64 + q) % 64 = q := by
    intro q hq
    exact ⟨Nat.mod_eq_of_lt (by omega), by omega, by omega⟩
  obtain ⟨hb, h1, h2⟩ := key _ hq
  show take_varint (uint8 (w * 64 + v / 256 ^ (2 ^ w - 1)) :: (putBE (2 ^ w - 1) v ++ rest)) = _
  unfold take_varint
  simp only [hb, h1, h2]
  rw [if_neg (by simp [putBE_length])]
  have ht : (putBE (2 ^ w - 1) v ++ rest).take (2 ^ w - 1) = putBE (2 ^ w - 1) v := by
    rw [List.take_left' (putBE_length _ _)]
  have hdrop : (putBE (2 ^ w - 1) v ++ rest).drop (2 ^ w - 1) = rest := by
    rw [List.drop_left' (putBE_length _ _)]
  rw [ht, hdrop, foldl_putBE, Nat.mul_comm, Nat.div_add_mod]

theorem take_append_of_length {d : List Byte} {n : Nat} (h : d.length = n) (t : List Byte) :
    take (d ++ t) n = .ok (d, t) := by
  unfold take
  rw [if_neg (by simp [h]), List.take_left' h, List.drop_left' h]

/-- Claim C20: for an offset and a length written as QUIC varints (of any of the four sizes
that holds them), data `d` of that length and any trailing bytes `t`, `CRYPTO.ReadReader` on
`varint(offset) ++ varint(length) ++ d ++ t` returns no error, with `Offset = offset`,
`Length = length`, `Data() = d`, and leaves exactly `t` in the reader. -/
theorem CRYPTO_ReadReader_wire (wo wl offset length : Nat) (d t : List Byte)
    (hwo : wo ≤ 3) (hwl : wl ≤ 3)
    (ho : offset < 64 * 256 ^ (2 ^ wo - 1)) (hl : length < 64 * 256 ^ (2 ^ wl - 1))
    (hd : d.length = length) :
    CRYPTO.ReadReader (putVarint wo offset ++ putVarint wl length ++ d ++ t) =
      .ok (offset, length, d, t) := by
  unfold CRYPTO.ReadReader
  rw [List.append_assoc, List.append_assoc, take_varint_putVarint wo offset _ hwo ho]
  simp only
  rw [take_varint_putVarint wl length _ hwl hl]
  simp only
  rw [take_append_of_length hd]

/-- Claim C20 on the bytes of the test: `40 9e 1a`, 26 data bytes, then `hello`. -/
theorem CRYPTO_ReadReader_wire_witness :
    ((1 : Nat) ≤ 3 ∧ (0 : Nat) ≤ 3 ∧ 158 < 64 * 256 ^ (2 ^ 1 - 1) ∧
      26 < 64 * 256 ^ (2 ^ 0 - 1) ∧ sampleCryptoData.length = 26) ∧
    putVarint 1 158 ++ putVarint 0 26 ++ sampleCryptoData ++ [0x68, 0x65, 0x6c, 0x6c, 0x6f] =
      [0x40, 0x9e, 0x1a] ++ sampleCryptoData ++ [0x68, 0x65, 0x6c, 0x6c, 0x6f] ∧
    CRYPTO.ReadReader
        (putVarint 1 158 ++ putVarint 0 26 ++ sampleCryptoData ++
          [0x68, 0x65, 0x6c, 0x6c, 0x6f]) =
      .ok (158, 26, sampleCryptoData, [0x68, 0x65, 0x6c, 0x6c, 0x6f]) :=
  ⟨by decide, by decide,
    CRYPTO_ReadReader_wire 1 0 158 26 sampleCryptoData [0x68, 0x65, 0x6c, 0x6c, 0x6f]
      (by decide) (by decide) (by decide) (by decide) (by decide)⟩

/-! ## PADDING frames and the frame loop -/

theorem PADDING_ReadReader_run (s : List Byte) (hs : s.head? ≠ some 0) :
    ∀ N : Nat, PADDING.ReadReader (List.replicate N 0 ++ s) = (N + 1, s) := by
  intro N
  induction N with
  | zero =>
    match s, hs with
    | [], _ => rfl
    | b :: rest, hs =>
      have hb : b ≠ 0 := fun e => hs (by rw [e]; rfl)
      simp [PADDING.ReadReader, hb]
  | succ n ih =>
    rw [List.replicate_succ, List.cons_append, PADDING.ReadReader, if_pos rfl, ih]

theorem PADDING_ReadReader_length :
    ∀ r : List Byte, (PADDING.ReadReader r).2.length ≤ r.length := by
  intro r
  induction r with
  | nil => simp [PADDING.ReadReader]
  | cons b t ih =>
    rw [PADDING.ReadReader]
    split
    · simp only [List.length_cons]
      omega
    · simp

theorem take_varint_length {r r' : List Byte} {v : Nat}
    (h : take_varint r = .ok (v, r')) : r'.length < r.length := by
  unfold take_varint at h
  split at h
  · simp at h
  · next b rest =>
    simp only at h
    split at h
    · simp at h
    · simp only [Except.ok.injEq, Prod.mk.injEq] at h
      rw [← h.2, List.length_drop, List.length_cons]
      omega

theorem take_length {r d r' : List Byte} {n : Nat}
    (h : take r n = .ok (d, r')) : r'.length ≤ r.length := by
  unfold take at h
  split at h
  · simp at h
  · simp only [Except.ok.injEq, Prod.mk.injEq] at h
    rw [← h.2, List.length_drop]
    omega

theorem skip_varints_length :
    ∀ (n : Nat) (r r' : List Byte), skip_varints n r = .ok r' → r'.length ≤ r.length := by
  intro n
  induction n with
  | zero =>
    intro r r' h
    simp only [skip_varints, Except.ok.injEq] at h
    rw [h]
  | succ k ih =>
    intro r r' h
    rw [skip_varints] at h
    split at h
    · simp at h
    · next v r1 h1 =>
      have := take_varint_length h1
      have := ih _ _ h
      omega

theorem CRYPTO_ReadReader_length {r r' d : List Byte} {o l : Nat}
    (h : CRYPTO.ReadReader r = .ok (o, l, d, r')) : r'.length ≤ r.length := by
  unfold CRYPTO.ReadReader at h
  split at h
  · simp at h
  · next o1 r1 h1 =>
    split at h
    · simp at h
    · next l1 r2 h2 =>
      split at h
      · simp at h
      · next d1 r3 h3 =>
        simp only [Except.ok.injEq, Prod.mk.injEq] at h
        have := take_varint_length h1
        have := take_varint_length h2
        have := take_length h3
        rw [← h.2.2.2]
        omega

theorem ACK_ReadReader_length {ecn : Bool} {r r' : List Byte}
    (h : ACK.ReadReader ecn r = .ok r') : r'.length ≤ r.length := by
  unfold ACK.ReadReader at h
  split at h
  · simp at h
  · next v1 r1 h1 =>
    split at h
    · simp at h
    · next v2 r2 h2 =>
      split at h
      · simp at h
      · next v3 r3 h3 =>
        split at h
        · simp at h
        · next v4 r4 h4 =>
          split at h
          · simp at h
          · next r5 h5 =>
            have := take_varint_length h1
            have := take_varint_length h2
            have := take_varint_length h3
            have := take_varint_length h4
            have := skip_varints_length _ _ _ h5
            split at h
            · have := skip_varints_length _ _ _ h
              omega
            · simp only [Except.ok.injEq] at h
              rw [← h]
              omega

theorem CONNECTION_CLOSE_ReadReader_length {tr : Bool} {r r' : List Byte}
    (h : CONNECTION_CLOSE.ReadReader tr r = .ok r') : r'.length ≤ r.length := by
  unfold CONNECTION_CLOSE.ReadReader at h
  split at h
  · simp at h
  · next v1 r1 h1 =>
    split at h
    · simp at h
    · next r2 h2 =>
      have hr2 : r2.length ≤ r1.length := by
        split at h2
        · exact skip_varints_length _ _ _ h2
        · simp only [Except.ok.injEq] at h2
          rw [h2]
      split at h
      · simp at h
      · next v3 r3 h3 =>
        split at h
        · simp at h
        · next d r4 h4 =>
          simp only [Except.ok.injEq] at h
          have := take_varint_length h1
          have := take_varint_length h3
          have := take_length h4
          rw [← h]
          omega

theorem ReadFrame_length {r r' : List Byte} {f : QUICFrame}
    (h : ReadFrame r = .ok (f, r')) : r'.length < r.length := by
  unfold ReadFrame at h
  split at h
  · simp at h
  · next t rest =>
    simp only [List.length_cons]
    split at h
    · simp only [Except.ok.injEq, Prod.mk.injEq] at h
      have := PADDING_ReadReader_length rest
      rw [← h.2]
      omega
    · split at h
      · simp only [Except.ok.injEq, Prod.mk.injEq] at h
        rw [← h.2]
        omega
      · split at h
        · split at h
          · simp at h
          · next r1 h1 =>
            simp only [Except.ok.injEq, Prod.mk.injEq] at h
            have := ACK_ReadReader_length h1
            rw [← h.2]
            omega
        · split at h
          · split at h
            · simp at h
            · next o l d r1 h1 =>
              simp only [Except.ok.injEq, Prod.mk.injEq] at h
              have := CRYPTO_ReadReader_length h1
              rw [← h.2]
              omega
          · split at h
            · split at h
              · simp at h
              · next r1 h1 =>
                simp only [Except.ok.injEq, Prod.mk.injEq] at h
                have := CONNECTION_CLOSE_ReadReader_length h1
                rw [← h.2]
                omega
            · simp at h

/-- The budget of the frame loop is never used up: every frame consumes at least its type
byte, so any budget above the length of the buffer gives the same result. -/
theorem ReadAllFramesLoop_fuel :
    ∀ (fuel : Nat) (r : List Byte), r.length < fuel →
      ReadAllFramesLoop fuel r = ReadAllFramesLoop (r.length + 1) r := by
  intro fuel
  induction fuel using Nat.strong_induction_on with
  | _ fuel ih =>
    intro r hr
    cases fuel with
    | zero => omega
    | succ n =>
      rw [ReadAllFramesLoop, ReadAllFramesLoop]
      split
      · rfl
      · split
        · rfl
        · next f r1 h1 =>
          have hl := ReadFrame_length h1
          rw [ih n (by omega) r1 (by omega), ih r.length (by omega) r1 (by omega)]

theorem ReadAllFrames_returns (r : List Byte) : (ReadAllFrames r).isSome = true := by
  unfold ReadAllFrames
  generalize hn : r.length + 1 = n
  have hlt : r.length < n := by omega
  clear hn
  induction n generalizing r with
  | zero => omega
  | succ k ih =>
    rw [ReadAllFramesLoop]
    split
    · rfl
    · split
      · rfl
      · next f r1 h1 =>
        have hl := ReadFrame_length h1
        have := ih r1 (by omega)
        cases hr : ReadAllFramesLoop k r1 with
        | none => rw [hr] at this; simp at this
        | some x => cases x <;> rfl

theorem ReadAllFrames_padding (N : Nat) (s : List Byte) (hs : s.head? ≠ some 0) :
    ReadAllFrames (List.replicate (N + 1) 0 ++ s) =
      match ReadAllFrames s with
      | none => none
      | some (.error e) => some (.error e)
      | some (.ok frames) => some (.ok (.PADDING (N + 1) :: frames)) := by
  have hf : ReadFrame (List.replicate (N + 1) 0 ++ s) = .ok (.PADDING (N + 1), s) := by
    rw [List.replicate_succ, List.cons_append, ReadFrame]
    simp only [if_true, PADDING_ReadReader_run s hs N]
  unfold ReadAllFrames
  rw [ReadAllFramesLoop, if_neg (by simp [List.replicate_succ]), hf]
  simp only
  rw [ReadAllFramesLoop_fuel _ s (by simp)]

theorem ReadFrame_not_padding {t : Byte} {rest r' : List Byte} {f : QUICFrame}
    (ht : t ≠ 0) (h : ReadFrame (t :: rest) = .ok (f, r')) : ∀ n : Nat, f ≠ .PADDING n := by
  intro n hn
  subst hn
  rw [ReadFrame, if_neg ht] at h
  split at h
  · simp at h
  · split at h
    · split at h <;> simp at h
    · split at h
      · split at h <;> simp at h
      · split at h
        · split at h <;> simp at h
        · simp at h

theorem ReadAllFrames_head_not_padding (s : List Byte) (hs : s.head? ≠ some 0)
    (f : QUICFrame) (frames : List QUICFrame)
    (h : ReadAllFrames s = some (.ok (f :: frames))) : ∀ n : Nat, f ≠ .PADDING n := by
  cases s with
  | nil => simp [ReadAllFrames, ReadAllFramesLoop] at h
  | cons t rest =>
    have ht : t ≠ 0 := fun e => hs (by rw [e]; rfl)
    unfold ReadAllFrames at h
    rw [ReadAllFramesLoop, if_neg (by simp)] at h
    split at h
    · simp at h
    · next f1 r1 h1 =>
      have hf1 : f1 = f := by
        cases hr : ReadAllFramesLoop (t :: rest).length r1 with
        | none => rw [hr] at h; simp at h
        | some x =>
          rw [hr] at h
          cases x with
          | error e => simp at h
          | ok fs =>
            simp only [Option.some.injEq, Except.ok.injEq, List.cons.injEq] at h
            exact h.1
      subst hf1
      exact ReadFrame_not_padding ht h1

/-- Claim C19: for every `N` and every byte string `s` that is empty or starts with a byte
other than zero, `PADDING.ReadReader` on `N` zero bytes followed by `s` (the type byte read
before) gives `Length = N + 1` and leaves exactly `s` in the reader; so `ReadAllFrames` on a
run of `k = N + 1` zero bytes followed by `s` yields one PADDING frame of length `k` followed
by the frames of `s`, the first of which is no PADDING frame. -/
theorem PADDING_coalesced (N : Nat) (s : List Byte) (hs : s.head? ≠ some 0) :
    PADDING.ReadReader (List.replicate N 0 ++ s) = (N + 1, s) ∧
    ReadAllFrames (List.replicate (N + 1) 0 ++ s) =
      (match ReadAllFrames s with
        | none => none
        | some (.error e) => some (.error e)
        | some (.ok frames) => some (.ok (.PADDING (N + 1) :: frames))) ∧
    (ReadAllFrames s).isSome = true ∧
    ∀ (f : QUICFrame) (frames : List QUICFrame),
      ReadAllFrames s = some (.ok (f :: frames)) → ∀ n : Nat, f ≠ .PADDING n :=
  ⟨PADDING_ReadReader_run s hs N, ReadAllFrames_padding N s hs, ReadAllFrames_returns s,
    ReadAllFrames_head_not_padding s hs⟩

/-- Claim C19 on three zero bytes followed by two PING frames. -/
theorem PADDING_coalesced_witness :
    ([0x01, 0x01] : List Byte).head? ≠ some 0 ∧
    ReadAllFrames [0x00, 0x00, 0x00, 0x01, 0x01] = some (.ok [.PADDING 3, .PING, .PING]) ∧
    (PADDING.ReadReader (List.replicate 2 0 ++ [0x01, 0x01]) = (2 + 1, [0x01, 0x01]) ∧
      ReadAllFrames (List.replicate (2 + 1) 0 ++ [0x01, 0x01]) =
        (match ReadAllFrames [0x01, 0x01] with
          | none => none
          | some (.error e) => some (.error e)
          | some (.ok frames) => some (.ok (.PADDING (2 + 1) :: frames))) ∧
      (ReadAllFrames [0x01, 0x01]).isSome = true ∧
      ∀ (f : QUICFrame) (frames : List QUICFrame),
        ReadAllFrames [0x01, 0x01] = some (.ok (f :: frames)) → ∀ n : Nat, f ≠ .PADDING n) :=
  ⟨by decide, by decide, PADDING_coalesced 2 [0x01, 0x01] (by decide)⟩

/-! ## CRYPTO reassembly -/

theorem overlap_agrees (B : List Byte) (o len cursor : Nat) (h1 : o ≤ cursor)
    (h2 : cursor < o + len) :
    ((B.take cursor).drop o).take (cursor - o) = ((B.drop o).take len).take (cursor - o) := by
  rw [List.drop_take, List.take_take, List.take_take, Nat.min_self,
    Nat.min_eq_left (by omega)]

theorem extend_output (B : List Byte) (o len cursor : Nat) (h1 : o ≤ cursor)
    (h2 : cursor < o + len) :
    B.take cursor ++ (((B.drop o).take len).take len).drop (cursor - o) = B.take (o + len) := by
  rw [List.take_take, Nat.min_self, List.drop_take, List.drop_drop]
  have e1 : o + (cursor - o) = cursor := by omega
  have e2 : o + len = cursor + (len - (cursor - o)) := by omega
  rw [e1, e2, List.take_add]

theorem reassembleFrom_covers (B : List Byte) :
    ∀ (l : List (Nat × Nat × List Byte)) (cursor : Nat),
      List.Sorted offsetLE l →
      (∀ c ∈ l, c.1 + c.2.1 ≤ B.length ∧ c.2.2 = (B.drop c.1).take c.2.1) →
      cursor ≤ B.length →
      (∀ i, cursor ≤ i → i < B.length → ∃ c ∈ l, c.1 ≤ i ∧ i < c.1 + c.2.1) →
      reassembleFrom cursor (B.take cursor) l = .ok B := by
  intro l
  induction l with
  | nil =>
    intro cursor _ _ hc hcov
    have : cursor = B.length := by
      by_cases h : cursor < B.length
      · obtain ⟨c, hmem, -⟩ := hcov cursor (Nat.le_refl _) h
        simp at hmem
      · omega
    rw [reassembleFrom, this, List.take_length]
  | cons f t ih =>
    intro cursor hs hd hc hcov
    obtain ⟨o, len, data⟩ := f
    have hst := List.sorted_cons.1 hs
    have hf := hd (o, len, data) (List.mem_cons_self _ _)
    simp only at hf
    have ho : o ≤ cursor := by
      by_cases h : cursor < B.length
      · obtain ⟨g, hmem, hg1, -⟩ := hcov cursor (Nat.le_refl _) h
        rcases List.mem_cons.1 hmem with rfl | hg
        · exact hg1
        · have : o ≤ g.1 := hst.1 g hg
          omega
      · omega
    rw [reassembleFrom, if_neg (by omega)]
    by_cases hend : o + len ≤ cursor
    · rw [if_pos hend]
      apply ih cursor hst.2 (fun c hcm => hd c (List.mem_cons_of_mem _ hcm)) hc
      intro i hi1 hi2
      obtain ⟨g, hmem, hg1, hg2⟩ := hcov i hi1 hi2
      rcases List.mem_cons.1 hmem with rfl | hg
      · simp only at hg2
        omega
      · exact ⟨g, hg, hg1, hg2⟩
    · rw [if_neg hend, hf.2, if_neg (by
        rw [overlap_agrees B o len cursor ho (by omega)]
        simp), extend_output B o len cursor ho (by omega)]
      apply ih (o + len) hst.2 (fun c hcm => hd c (List.mem_cons_of_mem _ hcm)) hf.1
      intro i hi1 hi2
      obtain ⟨g, hmem, hg1, hg2⟩ := hcov i (by omega) hi2
      rcases List.mem_cons.1 hmem with rfl | hg
      · simp only at hg2
        omega
      · exact ⟨g, hg, hg1, hg2⟩

/-- Claim C18: for every buffer `B` and every list of frames whose CRYPTO frames, in any
order and possibly overlapping, each carry `B[offset .. offset+length)` as data and together
cover `[0, |B|)`, `ReassembleCRYPTOFrames` returns `B` without error; frames of other types
in the list are left out of the reassembly. -/
theorem ReassembleCRYPTOFrames_covering (B : List Byte) (frames : List QUICFrame)
    (hdata : ∀ c ∈ frames.filterMap cryptoOf,
      c.1 + c.2.1 ≤ B.length ∧ c.2.2 = (B.drop c.1).take c.2.1)
    (hcover : ∀ i, i < B.length →
      ∃ c ∈ frames.filterMap cryptoOf, c.1 ≤ i ∧ i < c.1 + c.2.1) :
    ReassembleCRYPTOFrames frames = .ok B := by
  unfold ReassembleCRYPTOFrames
  have hperm := List.perm_insertionSort offsetLE (frames.filterMap cryptoOf)
  have := reassembleFrom_covers B ((frames.filterMap cryptoOf).insertionSort offsetLE) 0
    (List.sorted_insertionSort offsetLE _)
    (fun c hc => hdata c (hperm.mem_iff.1 hc))
    (Nat.zero_le _)
    (fun i _ hi => by
      obtain ⟨c, hc, h1, h2⟩ := hcover i hi
      exact ⟨c, hperm.mem_iff.2 hc, h1, h2⟩)
  simpa using this

/-! ## The test fixture -/

section Fixture

set_option maxRecDepth 100000

/-- The frame loop on the bytes of the test fixture gives its 13 frames: PADDING lengths 627,
135 and 119, CRYPTO offsets 184, 158 and 0 with lengths 110, 26 and 158. -/
theorem ReadAllFrames_fixture : ReadAllFrames allFramesRaw = some (.ok fixtureFrames) := by
  decide

/-- Claim C18 on the 13 frames of the test fixture, which reassemble to the 294-byte buffer. -/
theorem ReassembleCRYPTOFrames_covering_witness :
    reassembledCryptoTruth.length = 294 ∧
    fixtureFrames.length = 13 ∧
    (∀ c ∈ fixtureFrames.filterMap cryptoOf,
      c.1 + c.2.1 ≤ reassembledCryptoTruth.length ∧
        c.2.2 = (reassembledCryptoTruth.drop c.1).take c.2.1) ∧
    (∀ i, i < reassembledCryptoTruth.length →
      ∃ c ∈ fixtureFrames.filterMap cryptoOf, c.1 ≤ i ∧ i < c.1 + c.2.1) ∧
    ReassembleCRYPTOFrames fixtureFrames = .ok reassembledCryptoTruth :=
  ⟨by decide, by decide, by decide, by decide,
    ReassembleCRYPTOFrames_covering reassembledCryptoTruth fixtureFrames (by decide)
      (by decide)⟩

end Fixture

/-! ## A record without an extensions block -/

theorem ReadUint8LengthPrefixed_wire {data : List Byte} (h : data.length < 256)
    (rest : List Byte) :
    ReadUint8LengthPrefixed (wireUint8Prefixed data ++ rest) = some (data, rest) := by
  show ReadUint8LengthPrefixed (uint8 data.length :: (data ++ rest)) = _
  rw [ReadUint8LengthPrefixed_cons, uint8_val_of_lt h, if_neg (by simp)]
  simp

theorem parseExtra_bare (env : Env) (ch : ClientHello) (pre sid cs cm : List Byte)
    (hraw : ch.raw = pre ++ wireUint8Prefixed sid ++ wireUint16Prefixed cs ++
      wireUint8Prefixed cm)
    (hpre : pre.length = 43) (hsid : sid.length < 256) (hcs : cs.length < 65536)
    (hcm : cm.length < 256) :
    parseExtra env ch =
      some (withVersions ch (BigEndianUint16 ((ch.raw.drop 1).take 2))
        (BigEndianUint16 ((ch.raw.drop 9).take 2)), none) := by
  have hlen : 44 ≤ ch.raw.length := by
    rw [hraw]
    simp only [List.length_append, wireUint8Prefixed, List.length_cons]
    omega
  have hdrop : ch.raw.drop 43 =
      wireUint8Prefixed sid ++ (wireUint16Prefixed cs ++ wireUint8Prefixed cm) := by
    rw [hraw, List.append_assoc, List.append_assoc, List.drop_left' hpre]
  rw [parseExtra_eq_tail, readRecordHeader_of_le (by omega)]
  simp only
  rw [readHandshakeHeader_of_le (by rw [List.length_drop]; omega)]
  simp only [List.drop_drop]
  have e9 : (5 : Nat) + 4 = 9 := rfl
  have e43 : (5 : Nat) + 38 = 43 := rfl
  rw [e9, e43, hdrop, ReadUint8LengthPrefixed_wire hsid]
  simp only
  unfold parseExtraTail
  have h16 : ReadUint16LengthPrefixed (wireUint16Prefixed cs ++ wireUint8Prefixed cm) =
      some (cs, wireUint8Prefixed cm) := ReadUint16LengthPrefixed_wire hcs _
  rw [h16]
  simp only
  have h8 : ReadUint8LengthPrefixed (wireUint8Prefixed cm) = some (cm, []) := by
    have := ReadUint8LengthPrefixed_wire hcm []
    rwa [List.append_nil] at this
  rw [h8]
  rfl

/-- Claim C21: for a buffer that ends right behind `compression_methods` (43 bytes of
headers, version and random, then session id, cipher suites and compression methods behind
their lengths, and nothing more), `parseExtra` returns no error and sets only
`TLSRecordVersion` and `TLSHandshakeVersion`: every other field, among them `Extensions`,
`ExtensionsNormalized`, `alpnWithLengths` and `keyshareGroupsWithLengths`, is left as it
was. -/
theorem parseExtra_no_extensions (env : Env) (ch : ClientHello) (pre sid cs cm : List Byte)
    (hraw : ch.raw = pre ++ wireUint8Prefixed sid ++ wireUint16Prefixed cs ++
      wireUint8Prefixed cm)
    (hpre : pre.length = 43) (hsid : sid.length < 256) (hcs : cs.length < 65536)
    (hcm : cm.length < 256) :
    parseExtra env ch =
      some ({ ch with TLSRecordVersion := BigEndianUint16 ((ch.raw.drop 1).take 2),
                      TLSHandshakeVersion := BigEndianUint16 ((ch.raw.drop 9).take 2) },
        none) ∧
    ∀ ch' : ClientHello, parseExtra env ch = some (ch', none) →
      ch'.Extensions = ch.Extensions ∧ ch'.ExtensionsNormalized = ch.ExtensionsNormalized ∧
      ch'.alpnWithLengths = ch.alpnWithLengths ∧
      ch'.keyshareGroupsWithLengths = ch.keyshareGroupsWithLengths := by
  have key := parseExtra_bare env ch pre sid cs cm hraw hpre hsid hcs hcm
  refine ⟨key, ?_⟩
  intro ch' h
  rw [key] at h
  simp only [Option.some.injEq, Prod.mk.injEq, and_true] at h
  rw [← h]
  exact ⟨rfl, rfl, rfl, rfl⟩

/-- Claim C21 on the sample record that ends behind `compression_methods`. -/
theorem parseExtra_no_extensions_witness :
    (({ raw := sampleRawBare } : ClientHello).raw =
        sampleRawBare.take 43 ++ wireUint8Prefixed [0xaa, 0xbb] ++
          wireUint16Prefixed [0x13, 0x01, 0x13, 0x02] ++ wireUint8Prefixed [0]) ∧
    (parseExtra sampleEnv { raw := sampleRawBare } =
        some ({ ({ raw := sampleRawBare } : ClientHello) with
                TLSRecordVersion := BigEndianUint16
                  ((({ raw := sampleRawBare } : ClientHello).raw.drop 1).take 2),
                TLSHandshakeVersion := BigEndianUint16
                  ((({ raw := sampleRawBare } : ClientHello).raw.drop 9).take 2) },
          none) ∧
      ∀ ch' : ClientHello, parseExtra sampleEnv { raw := sampleRawBare } = some (ch', none) →
        ch'.Extensions = ({ raw := sampleRawBare } : ClientHello).Extensions ∧
        ch'.ExtensionsNormalized = ({ raw := sampleRawBare } : ClientHello).ExtensionsNormalized ∧
        ch'.alpnWithLengths = ({ raw := sampleRawBare } : ClientHello).alpnWithLengths ∧
        ch'.keyshareGroupsWithLengths =
          ({ raw := sampleRawBare } : ClientHello).keyshareGroupsWithLengths) :=
  ⟨by decide,
    parseExtra_no_extensions sampleEnv { raw := sampleRawBare } (sampleRawBare.take 43)
      [0xaa, 0xbb] [0x13, 0x01, 0x13, 0x02] [0] (by decide) (by decide) (by decide) (by decide)
      (by decide)⟩

/-! ## What the key_share case records -/

/-- Claim C22: for a key_share body (id 51) made of a two-byte list length followed by whole
entries (a 16-bit group, then the key exchange behind its 16-bit length),
`parseExtensionExtra` returns the id 51 and no error, changes no field but
`keyshareGroupsWithLengths`, and appends to it exactly the pairs (group, key exchange length)
in wire order, a GREASE group being replaced by `0x0a0a`; so every group it records is no
GREASE codepoint or is `0x0a0a`, and every length is that of the key exchange. -/
theorem parseExtensionExtra_keyshare_recorded (ch : ClientHello) (a b : Byte)
    (es : List (Nat × List Byte)) (hb : ∀ e ∈ es, e.1 < 65536 ∧ e.2.length < 65536) :
    ∃ ch' : ClientHello,
      parseExtensionExtra ch 51 (a :: b :: es.flatMap (fun e => wireKeyShareEntry e.1 e.2)) =
        some (ch', 51, none) ∧
      ch' = { ch with keyshareGroupsWithLengths := ch'.keyshareGroupsWithLengths } ∧
      ch'.keyshareGroupsWithLengths = ch.keyshareGroupsWithLengths ++
        es.flatMap (fun e => [if IsGREASEUint16 e.1 then 0x0a0a else e.1, e.2.length]) ∧
      (∀ e ∈ es, IsGREASEUint16 (if IsGREASEUint16 e.1 then 0x0a0a else e.1) = false ∨
        (if IsGREASEUint16 e.1 then 0x0a0a else e.1) = 0x0a0a) ∧
      ch'.keyshareGroupsWithLengths.length = ch.keyshareGroupsWithLengths.length + 2 * es.length :=
  ⟨_, parseExtensionExtra_keyshare_entries ch a b es hb, rfl, rfl,
    fun e _ => normalizeGREASE_clean e.1, by
      simp only [List.length_append, Nat.add_left_cancel_iff]
      induction es with
      | nil => rfl
      | cons e t ih =>
        rw [List.flatMap_cons, List.length_append,
          ih (fun q hq => hb q (List.mem_cons_of_mem e hq))]
        simp only [List.length_cons, List.length_nil]
        omega⟩

/-- Claim C22 on a body with two shares, a GREASE group with one byte of key exchange and
x25519 with two, appended to a record that already holds one pair. -/
theorem parseExtensionExtra_keyshare_recorded_witness :
    (∀ e ∈ sampleShares, e.1 < 65536 ∧ e.2.length < 65536) ∧
    ∃ ch' : ClientHello,
      parseExtensionExtra { keyshareGroupsWithLengths := [0x17, 65] } 51
          (0x00 :: 0x0b :: sampleShares.flatMap (fun e => wireKeyShareEntry e.1 e.2)) =
        some (ch', 51, none) ∧
      ch' = { ({ keyshareGroupsWithLengths := [0x17, 65] } : ClientHello) with
              keyshareGroupsWithLengths := ch'.keyshareGroupsWithLengths } ∧
      ch'.keyshareGroupsWithLengths =
        ({ keyshareGroupsWithLengths := [0x17, 65] } : ClientHello).keyshareGroupsWithLengths ++
        sampleShares.flatMap
          (fun e => [if IsGREASEUint16 e.1 then 0x0a0a else e.1, e.2.length]) ∧
      (∀ e ∈ sampleShares, IsGREASEUint16 (if IsGREASEUint16 e.1 then 0x0a0a else e.1) = false ∨
        (if IsGREASEUint16 e.1 then 0x0a0a else e.1) = 0x0a0a) ∧
      ch'.keyshareGroupsWithLengths.length =
        ({ keyshareGroupsWithLengths := [0x17, 65] } : ClientHello).keyshareGroupsWithLengths.length
          + 2 * sampleShares.length :=
  ⟨by decide,
    parseExtensionExtra_keyshare_recorded { keyshareGroupsWithLengths := [0x17, 65] } 0x00 0x0b
      sampleShares (by decide)⟩

/-! ## A key_share extension that is cut short -/

theorem keyshareLoop_entries_append :
    ∀ (es : List (Nat × List Byte)) (fuel : Nat) (ch : ClientHello) (tail : List Byte),
      (∀ e ∈ es, e.1 < 65536 ∧ e.2.length < 65536) →
      keyshareLoop (fuel + es.length) ch
          (es.flatMap (fun e => wireKeyShareEntry e.1 e.2) ++ tail) =
        keyshareLoop fuel
          { ch with keyshareGroupsWithLengths := ch.keyshareGroupsWithLengths ++
              es.flatMap (fun e => [normalizeGREASE e.1, e.2.length]) } tail := by
  intro es
  induction es with
  | nil =>
    intro fuel ch tail _
    simp
  | cons e t ih =>
    intro fuel ch tail hb
    have he := hb e (List.mem_cons_self e t)
    rw [List.flatMap_cons, List.append_assoc, List.length_cons, ← Nat.add_assoc,
      keyshareLoop_wire he.1 he.2, ih fuel _ tail (fun q hq => hb q (List.mem_cons_of_mem e hq))]
    simp

theorem keyshareLoop_cut (fuel : Nat) (ch : ClientHello) (tail : List Byte)
    (h : (1 ≤ tail.length ∧ tail.length ≤ 3) ∨
      (4 ≤ tail.length ∧ tail.length - 4 < BigEndianUint16 (tail.drop 2))) :
    ∃ (ch' : ClientHello) (err : Error),
      keyshareLoop (fuel + 1) ch tail = some (ch', some err) ∧
      err ∈ ["unable to read keyshare group", "unable to skip keyshare data"] := by
  have hne : tail.isEmpty = false := by
    cases tail with
    | nil => simp at h
    | cons x t => rfl
  unfold keyshareLoop
  rw [hne]
  simp only [Bool.false_eq_true, if_false]
  split
  · exact ⟨_, _, rfl, by simp⟩
  · next g d1 h1 =>
    split
    · exact ⟨_, _, rfl, by simp⟩
    · next len d2 h2 =>
      obtain ⟨a, b, e1, -⟩ := ReadUint16_eq_some h1
      obtain ⟨c, d, e2, hv⟩ := ReadUint16_eq_some h2
      have hs : Skip d2 len = none := by
        rw [Skip_eq_none]
        rw [e1, e2] at h
        simp only [List.length_cons, List.drop_succ_cons, List.drop_zero, BigEndianUint16,
          List.getD_cons_zero, List.getD_cons_succ] at h
        omega
      rw [hs]
      exact ⟨_, _, rfl, by simp⟩

theorem parseExtensionExtra_keyshare_cut (ch : ClientHello) (data : List Byte)
    (h : keyShareTruncated data) :
    ∃ (ch' : ClientHello) (err : Error),
      parseExtensionExtra ch 51 data = some (ch', 0, some err) ∧
      err ∈ ["unable to skip keyshare total length", "unable to read keyshare group",
        "unable to skip keyshare data"] := by
  rcases h with h | ⟨a, b, es, tail, hd, hb, ht⟩
  · exact ⟨ch, _, parseExtensionExtra_keyshare_short ch data h, by simp⟩
  · subst hd
    obtain ⟨c, err, hk, he⟩ := keyshareLoop_cut
      ((es.flatMap (fun e => wireKeyShareEntry e.1 e.2) ++ tail).length - es.length)
      { ch with keyshareGroupsWithLengths := ch.keyshareGroupsWithLengths ++
          es.flatMap (fun e => [normalizeGREASE e.1, e.2.length]) } tail ht
    have hl := length_le_flatMap_wireKeyShareEntry es
    have hf : (es.flatMap (fun e => wireKeyShareEntry e.1 e.2) ++ tail).length + 1 =
        (es.flatMap (fun e => wireKeyShareEntry e.1 e.2) ++ tail).length - es.length + 1 +
          es.length := by
      rw [List.length_append]
      omega
    refine ⟨c, err, ?_, ?_⟩
    · unfold parseExtensionExtra
      rw [if_neg (by decide), if_pos rfl, Skip_of_le (by simp)]
      simp only [List.drop_succ_cons, List.drop_zero]
      rw [hf, keyshareLoop_entries_append es _ ch tail hb, hk]
    · rcases List.mem_cons.1 he with rfl | he
      · simp
      · rcases List.mem_cons.1 he with rfl | he
        · simp
        · simp at he

theorem parseExtensionsExtraLoop_rejects {data : List Byte} (hd : data.length < 65536)
    (hx : ∀ c : ClientHello, ∃ (c' : ClientHello) (err : Error),
      parseExtensionExtra c 51 data = some (c', 0, some err))
    (rest : List Byte) :
    ∀ (recs : List (Nat × List Byte)) (fuel : Nat) (ch : ClientHello) (acc : List Nat),
      (∀ r ∈ recs, r.1 < 65536 ∧ r.2.length < 65536) →
      ∃ (ch' : ClientHello) (err : Error),
        parseExtensionsExtraLoop (fuel + 1 + recs.length) ch
            (recs.flatMap (fun r => wireExtension r.1 r.2) ++ (wireExtension 51 data ++ rest))
            acc = some (ch', some err) ∧
        ch'.Extensions = ch.Extensions := by
  intro recs
  induction recs with
  | nil =>
    intro fuel ch acc _
    obtain ⟨c', err, hc⟩ := hx ch
    obtain ⟨alpn, ks, hfr⟩ := parseExtensionExtra_frame hc
    refine ⟨c', "failed to parse extension, parseExtensionExtra(): " ++ err, ?_, by rw [hfr]⟩
    rw [List.flatMap_nil, List.nil_append, List.length_nil, Nat.add_zero,
      parseExtensionsExtraLoop_wire (by decide) hd, hc]
  | cons r t ih =>
    intro fuel ch acc hb
    have hr := hb r (List.mem_cons_self r t)
    rw [List.flatMap_cons, List.append_assoc, List.length_cons, ← Nat.add_assoc,
      parseExtensionsExtraLoop_wire hr.1 hr.2]
    have hret := parseExtensionExtra_returns ch r.1 r.2
    cases hp : parseExtensionExtra ch r.1 r.2 with
    | none => rw [hp] at hret; simp at hret
    | some x =>
      obtain ⟨c, i, e⟩ := x
      obtain ⟨alpn, ks, hfr⟩ := parseExtensionExtra_frame hp
      cases e with
      | some err =>
        exact ⟨c, "failed to parse extension, parseExtensionExtra(): " ++ err, rfl, by rw [hfr]⟩
      | none =>
        obtain ⟨c', err, hc, he⟩ := ih fuel c (acc ++ [i])
          (fun q hq => hb q (List.mem_cons_of_mem r hq))
        exact ⟨c', err, hc, by rw [he, hfr]⟩

theorem length_le_flatMap_wireExtension (recs : List (Nat × List Byte)) :
    recs.length ≤ (recs.flatMap (fun r => wireExtension r.1 r.2)).length := by
  induction recs with
  | nil => simp
  | cons r t ih =>
    rw [List.flatMap_cons, List.length_append, List.length_cons]
    have h4 : 4 ≤ (wireExtension r.1 r.2).length := by
      simp [wireExtension, putUint16]
    omega

/-- Claim C23: on a key_share body (id 51) that is cut short, `parseExtensionExtra` returns
an error, with the id 0.  Cut short means: fewer than two bytes; or, behind the list length
and whole entries, one to three bytes, too few for a group and a length; or an entry whose
declared key exchange length exceeds the bytes left in the extension data.  An extensions
block that holds such an extension behind whole records makes `parseExtensionsExtra` return
an error too, and `ch.Extensions` is as it was before the call. -/
theorem parseExtensionExtra_keyshare_truncated (ch : ClientHello) (data : List Byte)
    (recs : List (Nat × List Byte)) (rest : List Byte)
    (h : keyShareTruncated data) (hd : data.length < 65536)
    (hb : ∀ r ∈ recs, r.1 < 65536 ∧ r.2.length < 65536) :
    (∃ (ch' : ClientHello) (err : Error),
      parseExtensionExtra ch 51 data = some (ch', 0, some err) ∧
      err ∈ ["unable to skip keyshare total length", "unable to read keyshare group",
        "unable to skip keyshare data"]) ∧
    (∃ (ch' : ClientHello) (err : Error),
      parseExtensionsExtra ch
          (recs.flatMap (fun r => wireExtension r.1 r.2) ++ wireExtension 51 data ++ rest) =
        some (ch', some err) ∧
      ch'.Extensions = ch.Extensions) := by
  refine ⟨parseExtensionExtra_keyshare_cut ch data h, ?_⟩
  have hx : ∀ c : ClientHello, ∃ (c' : ClientHello) (err : Error),
      parseExtensionExtra c 51 data = some (c', 0, some err) := fun c => by
    obtain ⟨c', err, hc, -⟩ := parseExtensionExtra_keyshare_cut c data h
    exact ⟨c', err, hc⟩
  have hl := length_le_flatMap_wireExtension recs
  have hf : (recs.flatMap (fun r => wireExtension r.1 r.2) ++ wireExtension 51 data ++
      rest).length + 1 =
      (recs.flatMap (fun r => wireExtension r.1 r.2) ++ wireExtension 51 data ++
        rest).length - recs.length + 1 + recs.length := by
    simp only [List.length_append]
    omega
  unfold parseExtensionsExtra
  rw [hf, List.append_assoc]
  exact parseExtensionsExtraLoop_rejects hd hx rest recs _ ch [] hb

/-- Claim C23 on a body whose second share declares 32 bytes of key exchange and holds two,
in a block that starts with a GREASE extension and goes on with a status_request. -/
theorem parseExtensionExtra_keyshare_truncated_witness :
    keyShareTruncated sampleKeyShareCut ∧ sampleKeyShareCut.length < 65536 ∧
    (∀ r ∈ [((0x1a1a : Nat), ([] : List Byte))], r.1 < 65536 ∧ r.2.length < 65536) ∧
    (∃ (ch' : ClientHello) (err : Error),
      parseExtensionExtra { Extensions := [7] } 51 sampleKeyShareCut =
        some (ch', 0, some err) ∧
      err ∈ ["unable to skip keyshare total length", "unable to read keyshare group",
        "unable to skip keyshare data"]) ∧
    (∃ (ch' : ClientHello) (err : Error),
      parseExtensionsExtra { Extensions := [7] }
          ([((0x1a1a : Nat), ([] : List Byte))].flatMap (fun r => wireExtension r.1 r.2) ++
            wireExtension 51 sampleKeyShareCut ++ [0x00, 0x05, 0x00, 0x00]) =
        some (ch', some err) ∧
      ch'.Extensions = ({ Extensions := [7] } : ClientHello).Extensions) :=
  ⟨Or.inr ⟨0x00, 0x0b, [(0x2a2a, [0x00])], [0x00, 0x1d, 0x00, 0x20, 0x01, 0x02],
      by decide, by decide, Or.inr (by decide)⟩,
    by decide, by decide,
    parseExtensionExtra_keyshare_truncated { Extensions := [7] } sampleKeyShareCut
      [(0x1a1a, [])] [0x00, 0x05, 0x00, 0x00]
      (Or.inr ⟨0x00, 0x0b, [(0x2a2a, [0x00])], [0x00, 0x1d, 0x00, 0x20, 0x01, 0x02],
        by decide, by decide, Or.inr (by decide)⟩)
      (by decide) (by decide)⟩

/-! ## Termination of the raw-bytes pass

Each pass through either loop returns or goes on with an input at least four bytes shorter,
so a loop runs at most a quarter of the length of its input many times. -/

theorem keyshareLoop_step (ch : ClientHello) (d : List Byte) :
    (∃ r : ClientHello × Option Error, ∀ fuel : Nat, keyshareLoop (fuel + 1) ch d = some r) ∨
    (∃ (ch2 : ClientHello) (d3 : List Byte), d3.length + 4 ≤ d.length ∧
      ∀ fuel : Nat, keyshareLoop (fuel + 1) ch d = keyshareLoop fuel ch2 d3) := by
  by_cases he : d.isEmpty = true
  · left
    exact ⟨(ch, none), fun fuel => by rw [keyshareLoop, if_pos he]⟩
  · cases h1 : ReadUint16 d with
    | none =>
      left
      exact ⟨(ch, some "unable to read keyshare group"), fun fuel => by
        rw [keyshareLoop, if_neg he, h1]⟩
    | some x =>
      obtain ⟨g, d1⟩ := x
      cases h2 : ReadUint16 d1 with
      | none =>
        left
        exact ⟨(ch, some "unable to read keyshare group"), fun fuel => by
          rw [keyshareLoop, if_neg he, h1]
          simp only [h2]⟩
      | some y =>
        obtain ⟨len, d2⟩ := y
        cases h3 : Skip d2 len with
        | none =>
          left
          exact ⟨({ ch with keyshareGroupsWithLengths :=
              ch.keyshareGroupsWithLengths ++ [normalizeGREASE g, len] },
            some "unable to skip keyshare data"), fun fuel => by
            rw [keyshareLoop, if_neg he, h1]
            simp only [h2, h3]
            rfl⟩
        | some d3 =>
          right
          obtain ⟨a, b, e1, -⟩ := ReadUint16_eq_some h1
          obtain ⟨c, e, e2, -⟩ := ReadUint16_eq_some h2
          obtain ⟨-, e3⟩ := Skip_eq_some h3
          refine ⟨{ ch with keyshareGroupsWithLengths :=
              ch.keyshareGroupsWithLengths ++ [normalizeGREASE g, len] }, d3, ?_, fun fuel => ?_⟩
          · rw [e3, List.length_drop, e1, e2]
            simp only [List.length_cons]
            omega
          · rw [keyshareLoop, if_neg he, h1]
            simp only [h2, h3]
            rfl

theorem keyshareLoop_budget :
    ∀ (n m : Nat) (ch : ClientHello) (d : List Byte),
      d.length / 4 < n → d.length / 4 < m → keyshareLoop n ch d = keyshareLoop m ch d := by
  intro n
  induction n with
  | zero =>
    intro m ch d h
    omega
  | succ k ih =>
    intro m ch d hn hm
    cases m with
    | zero => omega
    | succ j =>
      rcases keyshareLoop_step ch d with ⟨r, hr⟩ | ⟨ch2, d3, hl, hs⟩
      · rw [hr, hr]
      · rw [hs, hs]
        exact ih j ch2 d3 (by omega) (by omega)

theorem parseExtensionsExtraLoop_step (ch : ClientHello) (block : List Byte) (acc : List Nat) :
    (∃ r : ClientHello × Option Error,
      ∀ fuel : Nat, parseExtensionsExtraLoop (fuel + 1) ch block acc = some r) ∨
    (∃ (ch2 : ClientHello) (rest : List Byte) (acc2 : List Nat),
      rest.length + 4 ≤ block.length ∧
      ∀ fuel : Nat, parseExtensionsExtraLoop (fuel + 1) ch block acc =
        parseExtensionsExtraLoop fuel ch2 rest acc2) := by
  by_cases he : block.isEmpty = true
  · left
    exact ⟨({ ch with Extensions := acc }, none), fun fuel => by
      rw [parseExtensionsExtraLoop, if_pos he]⟩
  · cases h1 : ReadUint16 block with
    | none =>
      left
      exact ⟨(ch, some "unable to read extension ID"), fun fuel => by
        rw [parseExtensionsExtraLoop, if_neg he, h1]⟩
    | some x =>
      obtain ⟨id, r1⟩ := x
      cases h2 : ReadUint16LengthPrefixed r1 with
      | none =>
        left
        exact ⟨(ch, some "unable to read extension data"), fun fuel => by
          rw [parseExtensionsExtraLoop, if_neg he, h1]
          simp only [h2]⟩
      | some y =>
        obtain ⟨data, r2⟩ := y
        have hret := parseExtensionExtra_returns ch id data
        cases h3 : parseExtensionExtra ch id data with
        | none => rw [h3] at hret; simp at hret
        | some z =>
          obtain ⟨c, i, e⟩ := z
          cases e with
          | some err =>
            left
            exact ⟨(c, some ("failed to parse extension, parseExtensionExtra(): " ++ err)),
              fun fuel => by
                rw [parseExtensionsExtraLoop, if_neg he, h1]
                simp only [h2, h3]⟩
          | none =>
            right
            obtain ⟨a, b, e1, -⟩ := ReadUint16_eq_some h1
            obtain ⟨p, q, e2, -⟩ := ReadUint16LengthPrefixed_eq_some h2
            refine ⟨c, r2, acc ++ [i], ?_, fun fuel => ?_⟩
            · rw [e1, e2]
              simp only [List.length_cons, List.length_append]
              omega
            · rw [parseExtensionsExtraLoop, if_neg he, h1]
              simp only [h2, h3]

theorem parseExtensionsExtraLoop_budget :
    ∀ (n m : Nat) (ch : ClientHello) (block : List Byte) (acc : List Nat),
      block.length / 4 < n → block.length / 4 < m →
      parseExtensionsExtraLoop n ch block acc = parseExtensionsExtraLoop m ch block acc := by
  intro n
  induction n with
  | zero =>
    intro m ch block acc h
    omega
  | succ k ih =>
    intro m ch block acc hn hm
    cases m with
    | zero => omega
    | succ j =>
      rcases parseExtensionsExtraLoop_step ch block acc with ⟨r, hr⟩ | ⟨ch2, rest, acc2, hl, hs⟩
      · rw [hr, hr]
      · rw [hs, hs]
        exact ih j ch2 rest acc2 (by omega) (by omega)

/-- Claim C24: `parseExtra`, `parseExtensionsExtra` and `parseExtensionExtra` return on every
input, with or without an error (no read leaves the buffer: a read that would is a failed
read, and the pass has no indexing of its own).  A pass through the loop over the extensions
block either returns or goes on with a block at least four bytes shorter, and a pass through
the key_share loop either returns or goes on with extension data at least four bytes shorter;
so a budget of a quarter of the input length many passes (and the closing test for emptiness)
is never used up and gives the result the loop gives with any larger budget. -/
theorem parseExtra_terminates (env : Env) (ch : ClientHello) (id : Nat)
    (block data : List Byte) (acc : List Nat) :
    (parseExtra env ch).isSome = true ∧
    (parseExtensionsExtra ch block).isSome = true ∧
    (parseExtensionExtra ch id data).isSome = true ∧
    ((∃ r : ClientHello × Option Error,
        ∀ fuel : Nat, parseExtensionsExtraLoop (fuel + 1) ch block acc = some r) ∨
      (∃ (ch2 : ClientHello) (rest : List Byte) (acc2 : List Nat),
        rest.length + 4 ≤ block.length ∧
        ∀ fuel : Nat, parseExtensionsExtraLoop (fuel + 1) ch block acc =
          parseExtensionsExtraLoop fuel ch2 rest acc2)) ∧
    ((∃ r : ClientHello × Option Error,
        ∀ fuel : Nat, keyshareLoop (fuel + 1) ch data = some r) ∨
      (∃ (ch2 : ClientHello) (d3 : List Byte), d3.length + 4 ≤ data.length ∧
        ∀ fuel : Nat, keyshareLoop (fuel + 1) ch data = keyshareLoop fuel ch2 d3)) ∧
    (parseExtensionsExtraLoop (block.length / 4 + 1) ch block acc).isSome = true ∧
    (∀ extra : Nat, parseExtensionsExtraLoop (block.length / 4 + 1 + extra) ch block acc =
      parseExtensionsExtraLoop (block.length / 4 + 1) ch block acc) ∧
    (keyshareLoop (data.length / 4 + 1) ch data).isSome = true ∧
    (∀ extra : Nat, keyshareLoop (data.length / 4 + 1 + extra) ch data =
      keyshareLoop (data.length / 4 + 1) ch data) := by
  refine ⟨parseExtra_returns env ch, parseExtensionsExtra_returns ch block,
    parseExtensionExtra_returns ch id data, parseExtensionsExtraLoop_step ch block acc,
    keyshareLoop_step ch data, ?_, ?_, ?_, ?_⟩
  · rw [parseExtensionsExtraLoop_budget _ (block.length + 1) ch block acc (by omega) (by omega)]
    exact parseExtensionsExtraLoop_returns _ ch block acc (by omega)
  · intro extra
    exact parseExtensionsExtraLoop_budget _ _ ch block acc (by omega) (by omega)
  · rw [keyshareLoop_budget _ (data.length + 1) ch data (by omega) (by omega)]
    exact keyshareLoop_returns _ ch data (by omega)
  · intro extra
    exact keyshareLoop_budget _ _ ch data (by omega) (by omega)

/-! ## What the raw-bytes pass does, whatever the record holds

The bytes decide whether a pass fails, which ids and which ALPN data it stores and which
pairs it appends to `keyshareGroupsWithLengths`; the record it runs on decides nothing. -/

theorem keyshareLoop_effect :
    ∀ (fuel : Nat) (d : List Byte), ∃ r : Option (List Nat × Option Error),
      ∀ ch : ClientHello, keyshareLoop fuel ch d =
        r.map (fun x => ({ ch with keyshareGroupsWithLengths :=
          ch.keyshareGroupsWithLengths ++ x.1 }, x.2)) := by
  intro fuel
  induction fuel with
  | zero =>
    intro d
    exact ⟨none, fun ch => rfl⟩
  | succ n ih =>
    intro d
    by_cases he : d.isEmpty = true
    · exact ⟨some ([], none), fun ch => by
        rw [keyshareLoop, if_pos he]
        simp⟩
    · cases h1 : ReadUint16 d with
      | none =>
        exact ⟨some ([], some "unable to read keyshare group"), fun ch => by
          rw [keyshareLoop, if_neg he, h1]
          simp⟩
      | some x =>
        obtain ⟨g, d1⟩ := x
        cases h2 : ReadUint16 d1 with
        | none =>
          exact ⟨some ([], some "unable to read keyshare group"), fun ch => by
            rw [keyshareLoop, if_neg he, h1]
            simp [h2]⟩
        | some y =>
          obtain ⟨len, d2⟩ := y
          cases h3 : Skip d2 len with
          | none =>
            exact ⟨some ([normalizeGREASE g, len], some "unable to skip keyshare data"),
              fun ch => by
                rw [keyshareLoop, if_neg he, h1]
                simp only [h2, h3]
                rfl⟩
          | some d3 =>
            obtain ⟨r, hr⟩ := ih d3
            refine ⟨r.map (fun x => ([normalizeGREASE g, len] ++ x.1, x.2)), fun ch => ?_⟩
            rw [keyshareLoop, if_neg he, h1]
            simp only [h2, h3]
            have hc := hr { ch with keyshareGroupsWithLengths :=
              ch.keyshareGroupsWithLengths ++ [normalizeGREASE g, len] }
            refine Eq.trans hc ?_
            cases r with
            | none => rfl
            | some x => simp [List.append_assoc]

theorem parseExtensionExtra_effect (id : Nat) (data : List Byte) :
    ∃ (al : Option (List Byte)) (D : List Nat) (i : Nat) (e : Option Error),
      ∀ ch : ClientHello, parseExtensionExtra ch id data =
        some ({ ch with alpnWithLengths := al.getD ch.alpnWithLengths,
                        keyshareGroupsWithLengths := ch.keyshareGroupsWithLengths ++ D },
          i, e) := by
  by_cases h16 : id = 16
  · exact ⟨some data, [], id, none, fun ch => by
      unfold parseExtensionExtra
      rw [if_pos h16]
      simp⟩
  · by_cases h51 : id = 51
    · cases hs : Skip data 2 with
      | none =>
        exact ⟨none, [], 0, some "unable to skip keyshare total length", fun ch => by
          unfold parseExtensionExtra
          rw [if_neg h16, if_pos h51, hs]
          simp⟩
      | some d =>
        obtain ⟨r, hr⟩ := keyshareLoop_effect (d.length + 1) d
        have hret := keyshareLoop_returns (d.length + 1) {} d (by omega)
        rw [hr] at hret
        cases r with
        | none => simp at hret
        | some x =>
          obtain ⟨D, e⟩ := x
          cases e with
          | some err =>
            exact ⟨none, D, 0, some err, fun ch => by
              unfold parseExtensionExtra
              rw [if_neg h16, if_pos h51, hs]
              simp only [hr ch]
              rfl⟩
          | none =>
            exact ⟨none, D, id, none, fun ch => by
              unfold parseExtensionExtra
              rw [if_neg h16, if_pos h51, hs]
              simp only [hr ch]
              rfl⟩
    · exact ⟨none, [], normalizeGREASE id, none, fun ch => by
        rw [parseExtensionExtra_default ch id data h16 h51]
        simp⟩

theorem parseExtensionsExtraLoop_effect :
    ∀ (fuel : Nat) (block : List Byte) (acc : List Nat),
      ∃ r : Option (Option (List Nat) × Option (List Byte) × List Nat × Option Error),
        ∀ ch : ClientHello, parseExtensionsExtraLoop fuel ch block acc =
          r.map (fun x =>
            ({ ch with Extensions := x.1.getD ch.Extensions,
                       alpnWithLengths := x.2.1.getD ch.alpnWithLengths,
                       keyshareGroupsWithLengths := ch.keyshareGroupsWithLengths ++ x.2.2.1 },
              x.2.2.2)) := by
  intro fuel
  induction fuel with
  | zero =>
    intro block acc
    exact ⟨none, fun ch => rfl⟩
  | succ n ih =>
    intro block acc
    by_cases he : block.isEmpty = true
    · exact ⟨some (some acc, none, [], none), fun ch => by
        rw [parseExtensionsExtraLoop, if_pos he]
        simp⟩
    · cases h1 : ReadUint16 block with
      | none =>
        exact ⟨some (none, none, [], some "unable to read extension ID"), fun ch => by
          rw [parseExtensionsExtraLoop, if_neg he, h1]
          simp⟩
      | some x =>
        obtain ⟨id, r1⟩ := x
        cases h2 : ReadUint16LengthPrefixed r1 with
        | none =>
          exact ⟨some (none, none, [], some "unable to read extension data"), fun ch => by
            rw [parseExtensionsExtraLoop, if_neg he, h1]
            simp [h2]⟩
        | some y =>
          obtain ⟨data, r2⟩ := y
          obtain ⟨al, D, i, e, hx⟩ := parseExtensionExtra_effect id data
          cases e with
          | some err =>
            exact ⟨some (none, al, D,
              some ("failed to parse extension, parseExtensionExtra(): " ++ err)), fun ch => by
                rw [parseExtensionsExtraLoop, if_neg he, h1]
                simp only [h2, hx ch]
                rfl⟩
          | none =>
            obtain ⟨r, hr⟩ := ih r2 (acc ++ [i])
            refine ⟨r.map (fun x => (x.1, (match x.2.1 with | some a => some a | none => al),
              D ++ x.2.2.1, x.2.2.2)), fun ch => ?_⟩
            rw [parseExtensionsExtraLoop, if_neg he, h1]
            simp only [h2, hx ch]
            refine Eq.trans (hr _) ?_
            cases r with
            | none => rfl
            | some x =>
              obtain ⟨xe, xa, xd, xerr⟩ := x
              cases xa <;> simp [List.append_assoc]

theorem parseExtensionsExtra_effect (block : List Byte) :
    ∃ (exts : Option (List Nat)) (al : Option (List Byte)) (D : List Nat) (e : Option Error),
      ∀ ch : ClientHello, parseExtensionsExtra ch block =
        some ({ ch with Extensions := exts.getD ch.Extensions,
                        alpnWithLengths := al.getD ch.alpnWithLengths,
                        keyshareGroupsWithLengths := ch.keyshareGroupsWithLengths ++ D }, e) := by
  obtain ⟨r, hr⟩ := parseExtensionsExtraLoop_effect (block.length + 1) block []
  have hret := parseExtensionsExtra_returns {} block
  unfold parseExtensionsExtra at hret
  rw [hr] at hret
  cases r with
  | none => simp at hret
  | some x =>
    obtain ⟨exts, al, D, e⟩ := x
    exact ⟨exts, al, D, e, fun ch => hr ch⟩

theorem parseExtra_again {env : Env} {c ch1 : ClientHello}
    (h : parseExtra env c = some (ch1, none)) (c' : ClientHello) (hraw : c'.raw = c.raw)
    (hE : c'.Extensions = ch1.Extensions)
    (hN : c'.ExtensionsNormalized = ch1.ExtensionsNormalized)
    (hA : c'.alpnWithLengths = ch1.alpnWithLengths)
    (hF : c'.NumID = ch1.NumID ∧ c'.NormNumID = ch1.NormNumID ∧ c'.HexID = ch1.HexID ∧
      c'.NormHexID = ch1.NormHexID) :
    ∃ ch2 : ClientHello, parseExtra env c' = some (ch2, none) ∧
      ch2.TLSRecordVersion = ch1.TLSRecordVersion ∧
      ch2.TLSHandshakeVersion = ch1.TLSHandshakeVersion ∧
      ch2.Extensions = ch1.Extensions ∧
      ch2.ExtensionsNormalized = ch1.ExtensionsNormalized ∧
      ch2.alpnWithLengths = ch1.alpnWithLengths ∧
      (∃ D : List Nat, ch1.keyshareGroupsWithLengths = c.keyshareGroupsWithLengths ++ D ∧
        ch2.keyshareGroupsWithLengths = c'.keyshareGroupsWithLengths ++ D) ∧
      ((ch2.NumID = ch1.NumID ∧ ch2.NormNumID = ch1.NormNumID ∧ ch2.HexID = ch1.HexID ∧
          ch2.NormHexID = ch1.NormHexID) ∨
        ((ch2.NumID, ch2.NormNumID) =
            env.calcNumericID { ch2 with NumID := ch1.NumID, NormNumID := ch1.NormNumID,
                                         HexID := ch1.HexID, NormHexID := ch1.NormHexID } ∧
          ch2.HexID = AsHex ch2.NumID ∧ ch2.NormHexID = AsHex ch2.NormNumID)) := by
  obtain ⟨rv, hv, s1, s2, sid, s3, cs, s4, cm, s5, h1, h2, h3, h4, h5, hcase⟩ :=
    parseExtra_ok_inv h
  have hfwd : parseExtra env c' =
      if s5.isEmpty then some (withVersions c' rv hv, none)
      else
        match ReadUint16LengthPrefixed s5 with
        | none => some (withVersions c' rv hv, some "unable to read extensions data")
        | some (extensions, _) =>
          match parseExtensionsExtra (withVersions c' rv hv) extensions with
          | none => none
          | some (ch, some err) =>
            some (ch, some ("failed to parse extensions, parseExtensionsExtra(): " ++ err))
          | some (ch, none) => some (fingerprinted env ch, none) := by
    rw [parseExtra_eq_tail, hraw, h1]
    simp only
    rw [h2]
    simp only
    rw [h3]
    simp only
    unfold parseExtraTail
    rw [h4]
    simp only
    rw [h5]
  rcases hcase with ⟨hs5, hch1⟩ | ⟨hs5, exts, s6, c2, h6, h7, hch1⟩
  · subst hs5
    refine ⟨withVersions c' rv hv, ?_, ?_, ?_, ?_, ?_, ?_, ⟨[], ?_, ?_⟩, Or.inl ?_⟩
    · rw [hfwd]
      rfl
    · rw [hch1]
      rfl
    · rw [hch1]
      rfl
    · exact hE
    · exact hN
    · exact hA
    · rw [hch1]
      simp [withVersions]
    · simp [withVersions]
    · exact hF
  · obtain ⟨xe, al, D, e, hx⟩ := parseExtensionsExtra_effect exts
    have h7' := h7
    rw [hx] at h7'
    simp only [Option.some.injEq, Prod.mk.injEq] at h7'
    obtain ⟨hc2, he⟩ := h7'
    subst he
    have hne : s5.isEmpty = false := by
      cases s5 with
      | nil => exact absurd rfl hs5
      | cons a t => rfl
    have hch1' : ch1 = fingerprinted env
        { withVersions c rv hv with
          Extensions := xe.getD (withVersions c rv hv).Extensions,
          alpnWithLengths := al.getD (withVersions c rv hv).alpnWithLengths,
          keyshareGroupsWithLengths :=
            (withVersions c rv hv).keyshareGroupsWithLengths ++ D } := by
      rw [hch1, ← hc2]
    have e1 : ch1.Extensions = xe.getD c.Extensions := by
      rw [hch1']
      rfl
    have e2 : ch1.alpnWithLengths = al.getD c.alpnWithLengths := by
      rw [hch1']
      rfl
    have e3 : ch1.ExtensionsNormalized = sortSlice (xe.getD c.Extensions) := by
      rw [hch1']
      rfl
    have i1 : xe.getD c'.Extensions = xe.getD c.Extensions := by
      rw [hE, e1]
      cases xe <;> rfl
    have i2 : al.getD c'.alpnWithLengths = al.getD c.alpnWithLengths := by
      rw [hA, e2]
      cases al <;> rfl
    refine ⟨fingerprinted env
        { withVersions c' rv hv with
          Extensions := xe.getD (withVersions c' rv hv).Extensions,
          alpnWithLengths := al.getD (withVersions c' rv hv).alpnWithLengths,
          keyshareGroupsWithLengths :=
            (withVersions c' rv hv).keyshareGroupsWithLengths ++ D },
      ?_, ?_, ?_, ?_, ?_, ?_, ⟨D, ?_, ?_⟩, Or.inr ⟨?_, rfl, rfl⟩⟩
    · rw [hfwd, hne]
      simp only [Bool.false_eq_true, if_false]
      rw [h6]
      simp only
      rw [hx]
    · rw [hch1']
      rfl
    · rw [hch1']
      rfl
    · rw [e1]
      exact i1
    · rw [e3]
      exact congrArg sortSlice i1
    · rw [e2]
      exact i2
    · rw [hch1']
      rfl
    · rfl
    · rw [← hF.1, ← hF.2.1, ← hF.2.2.1, ← hF.2.2.2]
      rfl

/-! ## What `parseExtensions` does, whatever the record holds -/

theorem parseExtensions_keeps {α : Type} (env : Env) (view : ClientHello → α)
    (hstep : ∀ (ch : ClientHello) (e : TLSExtension),
      view (parseExtensionsStep env ch e) = view ch)
    (chs : ClientHelloSpec) (ch : ClientHello) :
    view (parseExtensions env ch chs) = view ch := by
  unfold parseExtensions
  generalize chs.Extensions = exts
  induction exts generalizing ch with
  | nil => rfl
  | cons e t ih => rw [List.foldl_cons, ih, hstep]

theorem parseExtensions_assigns {α : Type} (env : Env) (view : ClientHello → α)
    (hstep : ∀ e : TLSExtension,
      (∀ ch : ClientHello, view (parseExtensionsStep env ch e) = view ch) ∨
      (∃ v : α, ∀ ch : ClientHello, view (parseExtensionsStep env ch e) = v))
    (chs : ClientHelloSpec) :
    (∀ ch : ClientHello, view (parseExtensions env ch chs) = view ch) ∨
    (∃ v : α, ∀ ch : ClientHello, view (parseExtensions env ch chs) = v) := by
  unfold parseExtensions
  generalize chs.Extensions = exts
  induction exts with
  | nil =>
    left
    intro ch
    rfl
  | cons e t ih =>
    rcases ih with ih | ⟨v, ih⟩
    · rcases hstep e with hs | ⟨v, hs⟩
      · left
        intro ch
        rw [List.foldl_cons, ih, hs]
      · right
        exact ⟨v, fun ch => by rw [List.foldl_cons, ih, hs]⟩
    · right
      exact ⟨v, fun ch => by rw [List.foldl_cons, ih]⟩

theorem parseExtensions_assigns_again {α : Type} (env : Env) (view : ClientHello → α)
    (hstep : ∀ e : TLSExtension,
      (∀ ch : ClientHello, view (parseExtensionsStep env ch e) = view ch) ∨
      (∃ v : α, ∀ ch : ClientHello, view (parseExtensionsStep env ch e) = v))
    (chs : ClientHelloSpec) (ch ch' : ClientHello)
    (h : view ch' = view (parseExtensions env ch chs)) :
    view (parseExtensions env ch' chs) = view (parseExtensions env ch chs) := by
  rcases parseExtensions_assigns env view hstep chs with hk | ⟨v, hv⟩
  · rw [hk ch', h]
  · rw [hv ch', hv ch]

theorem parseExtensions_appends {β : Type} (env : Env) (view : ClientHello → List β)
    (hstep : ∀ e : TLSExtension, ∃ D : List β,
      ∀ ch : ClientHello, view (parseExtensionsStep env ch e) = view ch ++ D)
    (chs : ClientHelloSpec) :
    ∃ D : List β, ∀ ch : ClientHello, view (parseExtensions env ch chs) = view ch ++ D := by
  unfold parseExtensions
  generalize chs.Extensions = exts
  induction exts with
  | nil => exact ⟨[], fun ch => by simp⟩
  | cons e t ih =>
    obtain ⟨D2, h2⟩ := ih
    obtain ⟨D1, h1⟩ := hstep e
    exact ⟨D1 ++ D2, fun ch => by rw [List.foldl_cons, h2, h1, List.append_assoc]⟩

theorem parseExtensions_grows {β : Type} (env : Env) (view : ClientHello → List β)
    (hstep : ∀ (ch : ClientHello) (e : TLSExtension),
      view ch <+: view (parseExtensionsStep env ch e))
    (chs : ClientHelloSpec) (ch : ClientHello) :
    view ch <+: view (parseExtensions env ch chs) := by
  unfold parseExtensions
  generalize chs.Extensions = exts
  induction exts generalizing ch with
  | nil => exact List.prefix_refl _
  | cons e t ih =>
    rw [List.foldl_cons]
    exact List.IsPrefix.trans (hstep ch e) (ih _)

theorem parseExtensionsStep_assigned (env : Env) (e : TLSExtension) :
    ((∀ ch : ClientHello, (parseExtensionsStep env ch e).ECPointFormatList =
        ch.ECPointFormatList) ∨
      (∃ v, ∀ ch : ClientHello, (parseExtensionsStep env ch e).ECPointFormatList = v)) ∧
    ((∀ ch : ClientHello, (parseExtensionsStep env ch e).ALPN = ch.ALPN) ∨
      (∃ v, ∀ ch : ClientHello, (parseExtensionsStep env ch e).ALPN = v)) ∧
    ((∀ ch : ClientHello, (parseExtensionsStep env ch e).PSKKeyExchangeModes =
        ch.PSKKeyExchangeModes) ∨
      (∃ v, ∀ ch : ClientHello, (parseExtensionsStep env ch e).PSKKeyExchangeModes = v)) ∧
    ((∀ ch : ClientHello, (parseExtensionsStep env ch e).ApplicationSettings =
        ch.ApplicationSettings) ∨
      (∃ v, ∀ ch : ClientHello, (parseExtensionsStep env ch e).ApplicationSettings = v)) ∧
    ((∀ ch : ClientHello, (parseExtensionsStep env ch e).qtp = ch.qtp) ∨
      (∃ v, ∀ ch : ClientHello, (parseExtensionsStep env ch e).qtp = v)) := by
  cases e with
  | Generic Id Data =>
    by_cases h : Id = ExtType_quic_transport_parameters
    · refine ⟨Or.inl ?_, Or.inl ?_, Or.inl ?_, Or.inl ?_,
        Or.inr ⟨env.ParseQUICTransportParameters Data, ?_⟩⟩ <;>
        intro c <;> simp only [parseExtensionsStep, h, if_true]
    · refine ⟨Or.inl ?_, Or.inl ?_, Or.inl ?_, Or.inl ?_, Or.inl ?_⟩ <;>
        intro c <;> simp only [parseExtensionsStep, h, if_false]
  | SupportedPoints p =>
    exact ⟨Or.inr ⟨p, fun c => rfl⟩, Or.inl (fun c => rfl), Or.inl (fun c => rfl),
      Or.inl (fun c => rfl), Or.inl (fun c => rfl)⟩
  | ALPN p =>
    exact ⟨Or.inl (fun c => rfl), Or.inr ⟨p, fun c => rfl⟩, Or.inl (fun c => rfl),
      Or.inl (fun c => rfl), Or.inl (fun c => rfl)⟩
  | PSKKeyExchangeModes p =>
    exact ⟨Or.inl (fun c => rfl), Or.inl (fun c => rfl), Or.inr ⟨p, fun c => rfl⟩,
      Or.inl (fun c => rfl), Or.inl (fun c => rfl)⟩
  | ApplicationSettings p =>
    exact ⟨Or.inl (fun c => rfl), Or.inl (fun c => rfl), Or.inl (fun c => rfl),
      Or.inr ⟨p, fun c => rfl⟩, Or.inl (fun c => rfl)⟩
  | _ =>
    exact ⟨Or.inl (fun c => rfl), Or.inl (fun c => rfl), Or.inl (fun c => rfl),
      Or.inl (fun c => rfl), Or.inl (fun c => rfl)⟩

theorem parseExtensionsStep_appended (env : Env) (e : TLSExtension) :
    (∃ D, ∀ ch : ClientHello, (parseExtensionsStep env ch e).NamedGroupList =
      ch.NamedGroupList ++ D) ∧
    (∃ D, ∀ ch : ClientHello, (parseExtensionsStep env ch e).SignatureSchemeList =
      ch.SignatureSchemeList ++ D) ∧
    (∃ D, ∀ ch : ClientHello, (parseExtensionsStep env ch e).CertCompressAlgo =
      ch.CertCompressAlgo ++ D) ∧
    (∃ D, ∀ ch : ClientHello, (parseExtensionsStep env ch e).RecordSizeLimit =
      ch.RecordSizeLimit ++ D) ∧
    (∃ D, ∀ ch : ClientHello, (parseExtensionsStep env ch e).SupportedVersions =
      ch.SupportedVersions ++ D) ∧
    (∃ D, ∀ ch : ClientHello, (parseExtensionsStep env ch e).KeyShare = ch.KeyShare ++ D) := by
  have keep : ∀ {β : Type} (view : ClientHello → List β),
      (∀ ch : ClientHello, view (parseExtensionsStep env ch e) = view ch) →
      ∃ D, ∀ ch : ClientHello, view (parseExtensionsStep env ch e) = view ch ++ D :=
    fun view hk => ⟨[], fun ch => by rw [hk, List.append_nil]⟩
  cases e with
  | Generic Id Data =>
    refine ⟨keep _ ?_, keep _ ?_, keep _ ?_, keep _ ?_, keep _ ?_, keep _ ?_⟩ <;>
      intro c <;> simp only [parseExtensionsStep] <;> split <;> rfl
  | SupportedCurves p =>
    exact ⟨⟨_, fun c => rfl⟩, keep _ (fun c => rfl), keep _ (fun c => rfl),
      keep _ (fun c => rfl), keep _ (fun c => rfl), keep _ (fun c => rfl)⟩
  | SignatureAlgorithms p =>
    exact ⟨keep _ (fun c => rfl), ⟨_, fun c => rfl⟩, keep _ (fun c => rfl),
      keep _ (fun c => rfl), keep _ (fun c => rfl), keep _ (fun c => rfl)⟩
  | UtlsCompressCert p =>
    exact ⟨keep _ (fun c => rfl), keep _ (fun c => rfl), ⟨_, fun c => rfl⟩,
      keep _ (fun c => rfl), keep _ (fun c => rfl), keep _ (fun c => rfl)⟩
  | FakeRecordSizeLimit p =>
    exact ⟨keep _ (fun c => rfl), keep _ (fun c => rfl), keep _ (fun c => rfl),
      ⟨_, fun c => rfl⟩, keep _ (fun c => rfl), keep _ (fun c => rfl)⟩
  | SupportedVersions p =>
    exact ⟨keep _ (fun c => rfl), keep _ (fun c => rfl), keep _ (fun c => rfl),
      keep _ (fun c => rfl), ⟨_, fun c => rfl⟩, keep _ (fun c => rfl)⟩
  | KeyShare p =>
    exact ⟨keep _ (fun c => rfl), keep _ (fun c => rfl), keep _ (fun c => rfl),
      keep _ (fun c => rfl), keep _ (fun c => rfl), ⟨_, fun c => rfl⟩⟩
  | _ =>
    exact ⟨keep _ (fun c => rfl), keep _ (fun c => rfl), keep _ (fun c => rfl),
      keep _ (fun c => rfl), keep _ (fun c => rfl), keep _ (fun c => rfl)⟩

theorem parseExtensionsStep_grows (env : Env) (ch : ClientHello) (e : TLSExtension) :
    ch.lengthPrefixedSupportedGroups <+:
      (parseExtensionsStep env ch e).lengthPrefixedSupportedGroups ∧
    ch.lengthPrefixedEcPointFormats <+:
      (parseExtensionsStep env ch e).lengthPrefixedEcPointFormats ∧
    ch.lengthPrefixedSignatureAlgos <+:
      (parseExtensionsStep env ch e).lengthPrefixedSignatureAlgos ∧
    ch.lengthPrefixedCertCompressAlgos <+:
      (parseExtensionsStep env ch e).lengthPrefixedCertCompressAlgos := by
  cases e with
  | Generic Id Data =>
    simp only [parseExtensionsStep]
    split <;> exact ⟨List.prefix_refl _, List.prefix_refl _, List.prefix_refl _,
      List.prefix_refl _⟩
  | SupportedCurves p =>
    exact ⟨⟨_, (List.append_assoc _ _ _).symm⟩, List.prefix_refl _, List.prefix_refl _,
      List.prefix_refl _⟩
  | SupportedPoints p =>
    exact ⟨List.prefix_refl _, ⟨_, (List.append_assoc _ _ _).symm⟩, List.prefix_refl _,
      List.prefix_refl _⟩
  | SignatureAlgorithms p =>
    exact ⟨List.prefix_refl _, List.prefix_refl _, ⟨_, (List.append_assoc _ _ _).symm⟩,
      List.prefix_refl _⟩
  | UtlsCompressCert p =>
    exact ⟨List.prefix_refl _, List.prefix_refl _, List.prefix_refl _,
      ⟨_, (List.append_assoc _ _ _).symm⟩⟩
  | _ =>
    exact ⟨List.prefix_refl _, List.prefix_refl _, List.prefix_refl _, List.prefix_refl _⟩

/-! ## Parsing a record that has been parsed -/

theorem outsideExtra_fields {a b : ClientHello} (h : outsideExtra a = outsideExtra b) :
    a.raw = b.raw ∧ a.CipherSuites = b.CipherSuites ∧
    a.CompressionMethods = b.CompressionMethods ∧ a.ServerName = b.ServerName ∧
    a.UserAgent = b.UserAgent ∧
    (a.ECPointFormatList = b.ECPointFormatList ∧ a.ALPN = b.ALPN ∧
      a.PSKKeyExchangeModes = b.PSKKeyExchangeModes ∧
      a.ApplicationSettings = b.ApplicationSettings ∧ a.qtp = b.qtp) ∧
    (a.NamedGroupList = b.NamedGroupList ∧ a.SignatureSchemeList = b.SignatureSchemeList ∧
      a.CertCompressAlgo = b.CertCompressAlgo ∧ a.RecordSizeLimit = b.RecordSizeLimit ∧
      a.SupportedVersions = b.SupportedVersions ∧ a.KeyShare = b.KeyShare) ∧
    (a.lengthPrefixedSupportedGroups = b.lengthPrefixedSupportedGroups ∧
      a.lengthPrefixedEcPointFormats = b.lengthPrefixedEcPointFormats ∧
      a.lengthPrefixedSignatureAlgos = b.lengthPrefixedSignatureAlgos ∧
      a.lengthPrefixedCertCompressAlgos = b.lengthPrefixedCertCompressAlgos) := by
  have key := congrArg (fun c : ClientHello =>
    (c.raw, c.CipherSuites, c.CompressionMethods, c.ServerName, c.UserAgent,
      (c.ECPointFormatList, c.ALPN, c.PSKKeyExchangeModes, c.ApplicationSettings, c.qtp),
      (c.NamedGroupList, c.SignatureSchemeList, c.CertCompressAlgo, c.RecordSizeLimit,
        c.SupportedVersions, c.KeyShare),
      (c.lengthPrefixedSupportedGroups, c.lengthPrefixedEcPointFormats,
        c.lengthPrefixedSignatureAlgos, c.lengthPrefixedCertCompressAlgos))) h
  simp only [outsideExtra, Prod.mk.injEq] at key
  exact key

theorem parseExtensions_untouched (env : Env) (chs : ClientHelloSpec) (ch : ClientHello) :
    (parseExtensions env ch chs).raw = ch.raw ∧
    (parseExtensions env ch chs).CipherSuites = ch.CipherSuites ∧
    (parseExtensions env ch chs).CompressionMethods = ch.CompressionMethods ∧
    (parseExtensions env ch chs).Extensions = ch.Extensions ∧
    (parseExtensions env ch chs).ExtensionsNormalized = ch.ExtensionsNormalized ∧
    (parseExtensions env ch chs).alpnWithLengths = ch.alpnWithLengths ∧
    (parseExtensions env ch chs).keyshareGroupsWithLengths = ch.keyshareGroupsWithLengths ∧
    (parseExtensions env ch chs).UserAgent = ch.UserAgent ∧
    (parseExtensions env ch chs).NumID = ch.NumID ∧
    (parseExtensions env ch chs).NormNumID = ch.NormNumID ∧
    (parseExtensions env ch chs).HexID = ch.HexID ∧
    (parseExtensions env ch chs).NormHexID = ch.NormHexID ∧
    (parseExtensions env ch chs).ServerName = ch.ServerName ∧
    (parseExtensions env ch chs).finalizerSet = ch.finalizerSet := by
  have key := parseExtensions_keeps env
    (fun c => (c.raw, c.CipherSuites, c.CompressionMethods, c.Extensions,
      c.ExtensionsNormalized, c.alpnWithLengths, c.keyshareGroupsWithLengths, c.UserAgent,
      c.NumID, c.NormNumID, c.HexID, c.NormHexID, c.ServerName, c.finalizerSet))
    (by
      intro c e
      cases e <;> simp only [parseExtensionsStep]
      split <;> rfl) chs ch
  simp only [Prod.mk.injEq] at key
  exact key

theorem outsideExtra_finalizerSet {a b : ClientHello} (h : outsideExtra a = outsideExtra b) :
    a.finalizerSet = b.finalizerSet := by
  have key := congrArg ClientHello.finalizerSet h
  exact key

theorem ParseClientHello_ok_steps {env : Env} {ch ch' : ClientHello}
    (h : ParseClientHello env ch = some (ch', none)) :
    ∃ (chs : ClientHelloSpec) (chm : ClientHelloMsg),
      env.RawClientHello ch.raw = .ok chs ∧ 5 ≤ ch.raw.length ∧
      env.tlsUnmarshalClientHello (ch.raw.drop 5) = some chm ∧
      ch.finalizerSet = false ∧
      parseExtra env
        { { parseExtensions env
              { { ch with CipherSuites := chs.CipherSuites } with
                  CompressionMethods := chs.CompressionMethods } chs with
            ServerName := chm.ServerName } with
          finalizerSet := true } = some (ch', none) := by
  unfold ParseClientHello at h
  split at h
  · simp at h
  · next chs hr =>
    simp only at h
    split at h
    · simp at h
    · next hlen =>
      split at h
      · simp at h
      · next chm hm =>
        split at h
        · simp at h
        · next hfin =>
          rw [(parseExtensions_untouched env chs _).1] at hlen hm
          have hf : (parseExtensions env
              { { ch with CipherSuites := chs.CipherSuites } with
                  CompressionMethods := chs.CompressionMethods } chs).finalizerSet =
              ch.finalizerSet := (parseExtensions_untouched env chs _).2.2.2.2.2.2.2.2.2.2.2.2.2
          have hfin' : ¬ (parseExtensions env
              { { ch with CipherSuites := chs.CipherSuites } with
                  CompressionMethods := chs.CompressionMethods } chs).finalizerSet = true :=
            hfin
          rw [hf] at hfin'
          exact ⟨chs, chm, hr, Nat.not_lt.mp hlen, hm, by simpa using hfin', h⟩

theorem ParseClientHello_aborts {env : Env} {ch : ClientHello} {chs : ClientHelloSpec}
    {chm : ClientHelloMsg} (hr : env.RawClientHello ch.raw = .ok chs)
    (hlen : 5 ≤ ch.raw.length)
    (hm : env.tlsUnmarshalClientHello (ch.raw.drop 5) = some chm)
    (hfin : ch.finalizerSet = true) :
    ParseClientHello env ch = none := by
  have hraw : (parseExtensions env
      { { ch with CipherSuites := chs.CipherSuites } with
          CompressionMethods := chs.CompressionMethods } chs).raw = ch.raw :=
    (parseExtensions_untouched env chs _).1
  have hlen' : ¬ (parseExtensions env
      { { ch with CipherSuites := chs.CipherSuites } with
          CompressionMethods := chs.CompressionMethods } chs).raw.length < 5 := by
    rw [hraw]
    omega
  have hm' : env.tlsUnmarshalClientHello ((parseExtensions env
      { { ch with CipherSuites := chs.CipherSuites } with
          CompressionMethods := chs.CompressionMethods } chs).raw.drop 5) = some chm := by
    rw [hraw]
    exact hm
  have hf : (parseExtensions env
      { { ch with CipherSuites := chs.CipherSuites } with
          CompressionMethods := chs.CompressionMethods } chs).finalizerSet = true :=
    ((parseExtensions_untouched env chs _).2.2.2.2.2.2.2.2.2.2.2.2.2).trans hfin
  unfold ParseClientHello
  rw [hr]
  simp only [hlen', hm', if_false]
  exact if_pos hf

/-! ## What a successful parse stores of the lists uTLS decoded -/

/-- What the three lists of groups and versions hold after a successful `ParseClientHello`:
what they held before, followed by the values of the supported_groups, supported_versions
and key_share extensions as uTLS decoded them, in order, each reduced to 16 bits.  Nothing
under `ParseClientHello` replaces a value in them. -/
theorem ParseClientHello_lists_as_decoded (env : Env) (ch ch' : ClientHello)
    (h : ParseClientHello env ch = some (ch', none)) :
    ∃ chs : ClientHelloSpec, env.RawClientHello ch.raw = .ok chs ∧
      ch'.NamedGroupList =
        (chs.Extensions.filterMap curvesOf).foldl (fun a c => a ++ c.map uint16)
          ch.NamedGroupList ∧
      ch'.SupportedVersions =
        (chs.Extensions.filterMap versionsOf).foldl (fun a c => a ++ c.map uint16)
          ch.SupportedVersions ∧
      ch'.KeyShare =
        (chs.Extensions.filterMap keyShareGroupsOf).foldl (fun a c => a ++ c.map uint16)
          ch.KeyShare := by
  obtain ⟨chs, chm, hr, -, -, -, hp⟩ := ParseClientHello_ok_steps h
  obtain ⟨-, -, -, -, -, -, ⟨o_ngl, -, -, -, o_sv, o_ks⟩, -⟩ :=
    outsideExtra_fields (parseExtra_outside hp)
  refine ⟨chs, hr, ?_, ?_, ?_⟩
  · exact o_ngl.trans (parseExtensions_groups env chs _)
  · exact o_sv.trans (parseExtensions_versions env chs _)
  · exact o_ks.trans (parseExtensions_keyshare env chs _)

/-! ## A record that is not a ClientHello -/

/-- Claim C17: for a record whose handshake type byte `raw[5]` is not `0x01`,
`ParseClientHello` returns an error and leaves the record as it was: nothing of the record
is stored, and neither `parseExtensions` nor `parseExtra` is reached.  The type byte is
examined by uTLS, which `ParseClientHello` calls first; that uTLS's `RawClientHello` rejects
such a record is the hypothesis `hutls`. -/
theorem ParseClientHello_not_client_hello (env : Env)
    (hutls : ∀ raw : List Byte, raw.getD 5 0 ≠ 0x01 →
      ∃ e : Error, env.RawClientHello raw = .error e)
    (ch : ClientHello) (h : ch.raw.getD 5 0 ≠ 0x01) :
    ∃ e : Error, env.RawClientHello ch.raw = .error e ∧
      ParseClientHello env ch =
        some (ch, some ("failed to parse ClientHello, (*tls.Fingerprinter).RawClientHello(): "
          ++ e)) := by
  obtain ⟨e, he⟩ := hutls ch.raw h
  exact ⟨e, he, ParseClientHello_rejected env ch e he⟩

/-- Claim C17 on the sample record with handshake type 2. -/
theorem ParseClientHello_not_client_hello_witness :
    (∀ raw : List Byte, raw.getD 5 0 ≠ 0x01 →
      ∃ e : Error, sampleEnvHello.RawClientHello raw = .error e) ∧
    ({ raw := sampleHelloOtherType } : ClientHello).raw.getD 5 0 ≠ 0x01 ∧
    ParseClientHello sampleEnvHello { raw := sampleHelloOtherType } =
      some ({ raw := sampleHelloOtherType },
        some ("failed to parse ClientHello, (*tls.Fingerprinter).RawClientHello(): " ++
          "handshake message is not a ClientHello")) ∧
    ∃ e : Error,
      sampleEnvHello.RawClientHello ({ raw := sampleHelloOtherType } : ClientHello).raw =
        .error e ∧
      ParseClientHello sampleEnvHello { raw := sampleHelloOtherType } =
        some ({ raw := sampleHelloOtherType },
          some ("failed to parse ClientHello, (*tls.Fingerprinter).RawClientHello(): "
            ++ e)) :=
  ⟨fun _ h => ⟨_, if_pos h⟩, by decide, rfl,
    ParseClientHello_not_client_hello sampleEnvHello (fun _ h => ⟨_, if_pos h⟩)
      { raw := sampleHelloOtherType } (by decide)⟩

/-! ## The parse steps, run again -/

/-- Claim C25, amended: parsing is not idempotent on a record.  When `ParseClientHello` has
succeeded on a record, uTLS having decoded its bytes to `chs`, running the parse steps again
on the resulting record (`parseExtensions` with `chs`, then `parseExtra`) succeeds again.
The fields that are assigned come out as they were: `raw`, the two versions,
`CipherSuites`, `CompressionMethods`, `Extensions`, `ExtensionsNormalized`, `ServerName`,
`UserAgent`, `ECPointFormatList`, `ALPN`, `PSKKeyExchangeModes`, `ApplicationSettings`, `qtp`
and `alpnWithLengths`.  The lists built by `append` grow by the same elements a second time:
`NamedGroupList`, `SignatureSchemeList`, `CertCompressAlgo`, `RecordSizeLimit`,
`SupportedVersions`, `KeyShare` and `keyshareGroupsWithLengths`.  The four length-prefixed
side buffers keep what they held and may grow behind it.  The four fingerprint fields either
are left as they were or hold what the hasher returns for the record as it then stands, lists
grown, with the hex fields rendered from that.  `ParseClientHello` itself cannot be run a
second time on the record: the first call has registered a finalizer, and the second does
not return. -/
theorem ParseClientHello_steps_again (env : Env) (ch ch1 : ClientHello)
    (h : ParseClientHello env ch = some (ch1, none)) :
    ∃ chs : ClientHelloSpec, env.RawClientHello ch.raw = .ok chs ∧
    ch1.finalizerSet = true ∧ ParseClientHello env ch1 = none ∧
    ∃ ch2 : ClientHello, parseExtra env (parseExtensions env ch1 chs) = some (ch2, none) ∧
      (ch2.raw = ch1.raw ∧ ch2.TLSRecordVersion = ch1.TLSRecordVersion ∧
        ch2.TLSHandshakeVersion = ch1.TLSHandshakeVersion ∧
        ch2.CipherSuites = ch1.CipherSuites ∧
        ch2.CompressionMethods = ch1.CompressionMethods ∧
        ch2.Extensions = ch1.Extensions ∧
        ch2.ExtensionsNormalized = ch1.ExtensionsNormalized ∧
        ch2.ServerName = ch1.ServerName ∧ ch2.UserAgent = ch1.UserAgent ∧
        ch2.ECPointFormatList = ch1.ECPointFormatList ∧ ch2.ALPN = ch1.ALPN ∧
        ch2.PSKKeyExchangeModes = ch1.PSKKeyExchangeModes ∧
        ch2.ApplicationSettings = ch1.ApplicationSettings ∧ ch2.qtp = ch1.qtp ∧
        ch2.alpnWithLengths = ch1.alpnWithLengths) ∧
      ((∃ D, ch1.NamedGroupList = ch.NamedGroupList ++ D ∧
          ch2.NamedGroupList = ch1.NamedGroupList ++ D) ∧
        (∃ D, ch1.SignatureSchemeList = ch.SignatureSchemeList ++ D ∧
          ch2.SignatureSchemeList = ch1.SignatureSchemeList ++ D) ∧
        (∃ D, ch1.CertCompressAlgo = ch.CertCompressAlgo ++ D ∧
          ch2.CertCompressAlgo = ch1.CertCompressAlgo ++ D) ∧
        (∃ D, ch1.RecordSizeLimit = ch.RecordSizeLimit ++ D ∧
          ch2.RecordSizeLimit = ch1.RecordSizeLimit ++ D) ∧
        (∃ D, ch1.SupportedVersions = ch.SupportedVersions ++ D ∧
          ch2.SupportedVersions = ch1.SupportedVersions ++ D) ∧
        (∃ D, ch1.KeyShare = ch.KeyShare ++ D ∧ ch2.KeyShare = ch1.KeyShare ++ D) ∧
        (∃ D, ch1.keyshareGroupsWithLengths = ch.keyshareGroupsWithLengths ++ D ∧
          ch2.keyshareGroupsWithLengths = ch1.keyshareGroupsWithLengths ++ D)) ∧
      (ch1.lengthPrefixedSupportedGroups <+: ch2.lengthPrefixedSupportedGroups ∧
        ch1.lengthPrefixedEcPointFormats <+: ch2.lengthPrefixedEcPointFormats ∧
        ch1.lengthPrefixedSignatureAlgos <+: ch2.lengthPrefixedSignatureAlgos ∧
        ch1.lengthPrefixedCertCompressAlgos <+: ch2.lengthPrefixedCertCompressAlgos) ∧
      ((ch2.NumID = ch1.NumID ∧ ch2.NormNumID = ch1.NormNumID ∧ ch2.HexID = ch1.HexID ∧
          ch2.NormHexID = ch1.NormHexID) ∨
        ((ch2.NumID, ch2.NormNumID) =
            env.calcNumericID { ch2 with NumID := ch1.NumID, NormNumID := ch1.NormNumID,
                                         HexID := ch1.HexID, NormHexID := ch1.NormHexID } ∧
          ch2.HexID = AsHex ch2.NumID ∧ ch2.NormHexID = AsHex ch2.NormNumID)) := by
  obtain ⟨chs, chm, hr, hlen, hm, -, hp⟩ := ParseClientHello_ok_steps h
  have ho := parseExtra_outside hp
  obtain ⟨o_raw, -, -, -, -, ⟨o_pf, o_alpn, o_psk, o_as, o_qtp⟩,
    ⟨o_ngl, o_ssl, o_cca, o_rsl, o_sv, o_ks⟩, -⟩ := outsideExtra_fields ho
  have o_fin : ch1.finalizerSet = true := outsideExtra_finalizerSet ho
  obtain ⟨f_raw, -, -, -, -, -, f_kg, -⟩ :=
    parseExtensions_untouched env chs
      { { ch with CipherSuites := chs.CipherSuites } with
          CompressionMethods := chs.CompressionMethods }
  obtain ⟨g_raw, g_cs, g_cm, g_ext, g_en, g_al, g_kg, g_ua, g_n1, g_n2, g_h1, g_h2, g_sn, -⟩ :=
    parseExtensions_untouched env chs ch1
  have hraw1 : ch1.raw = ch.raw := o_raw.trans f_raw
  have habort : ParseClientHello env ch1 = none :=
    @ParseClientHello_aborts env ch1 chs chm
      (by rw [hraw1]; exact hr) (by rw [hraw1]; exact hlen) (by rw [hraw1]; exact hm) o_fin
  obtain ⟨ch2, hp2, v1, v2, e1, e2, e3, ⟨D, k1, k2⟩, hfp⟩ := parseExtra_again hp
    (parseExtensions env ch1 chs) (g_raw.trans o_raw) g_ext g_en g_al ⟨g_n1, g_n2, g_h1, g_h2⟩
  obtain ⟨p_raw, p_cs, p_cm, p_sn, p_ua, ⟨p_pf, p_alpn, p_psk, p_as, p_qtp⟩,
    ⟨p_ngl, p_ssl, p_cca, p_rsl, p_sv, p_ks⟩, ⟨p_b1, p_b2, p_b3, p_b4⟩⟩ :=
    outsideExtra_fields (parseExtra_outside hp2)
  refine ⟨chs, hr, o_fin, habort, ch2, hp2,
    ⟨?_, v1, v2, ?_, ?_, e1, e2, ?_, ?_, ?_, ?_, ?_, ?_, ?_, e3⟩,
    ⟨?_, ?_, ?_, ?_, ?_, ?_, ⟨D, ?_, ?_⟩⟩, ⟨?_, ?_, ?_, ?_⟩, hfp⟩
  · exact p_raw.trans g_raw
  · exact p_cs.trans g_cs
  · exact p_cm.trans g_cm
  · exact p_sn.trans g_sn
  · exact p_ua.trans g_ua
  · exact p_pf.trans ((parseExtensions_assigns_again env ClientHello.ECPointFormatList
      (fun e => (parseExtensionsStep_assigned env e).1) chs _ ch1 o_pf).trans o_pf.symm)
  · exact p_alpn.trans ((parseExtensions_assigns_again env ClientHello.ALPN
      (fun e => (parseExtensionsStep_assigned env e).2.1) chs _ ch1 o_alpn).trans o_alpn.symm)
  · exact p_psk.trans ((parseExtensions_assigns_again env ClientHello.PSKKeyExchangeModes
      (fun e => (parseExtensionsStep_assigned env e).2.2.1) chs _ ch1 o_psk).trans
        o_psk.symm)
  · exact p_as.trans ((parseExtensions_assigns_again env ClientHello.ApplicationSettings
      (fun e => (parseExtensionsStep_assigned env e).2.2.2.1) chs _ ch1 o_as).trans
        o_as.symm)
  · exact p_qtp.trans ((parseExtensions_assigns_again env ClientHello.qtp
      (fun e => (parseExtensionsStep_assigned env e).2.2.2.2) chs _ ch1 o_qtp).trans
        o_qtp.symm)
  · obtain ⟨A, hA⟩ := parseExtensions_appends env ClientHello.NamedGroupList
      (fun e => (parseExtensionsStep_appended env e).1) chs
    exact ⟨A, o_ngl.trans (hA _), p_ngl.trans (hA _)⟩
  · obtain ⟨A, hA⟩ := parseExtensions_appends env ClientHello.SignatureSchemeList
      (fun e => (parseExtensionsStep_appended env e).2.1) chs
    exact ⟨A, o_ssl.trans (hA _), p_ssl.trans (hA _)⟩
  · obtain ⟨A, hA⟩ := parseExtensions_appends env ClientHello.CertCompressAlgo
      (fun e => (parseExtensionsStep_appended env e).2.2.1) chs
    exact ⟨A, o_cca.trans (hA _), p_cca.trans (hA _)⟩
  · obtain ⟨A, hA⟩ := parseExtensions_appends env ClientHello.RecordSizeLimit
      (fun e => (parseExtensionsStep_appended env e).2.2.2.1) chs
    exact ⟨A, o_rsl.trans (hA _), p_rsl.trans (hA _)⟩
  · obtain ⟨A, hA⟩ := parseExtensions_appends env ClientHello.SupportedVersions
      (fun e => (parseExtensionsStep_appended env e).2.2.2.2.1) chs
    exact ⟨A, o_sv.trans (hA _), p_sv.trans (hA _)⟩
  · obtain ⟨A, hA⟩ := parseExtensions_appends env ClientHello.KeyShare
      (fun e => (parseExtensionsStep_appended env e).2.2.2.2.2) chs
    exact ⟨A, o_ks.trans (hA _), p_ks.trans (hA _)⟩
  · exact k1.trans (congrArg (· ++ D) f_kg)
  · exact k2.trans (congrArg (· ++ D) g_kg)
  · rw [p_b1]
    exact parseExtensions_grows env ClientHello.lengthPrefixedSupportedGroups
      (fun c e => (parseExtensionsStep_grows env c e).1) chs ch1
  · rw [p_b2]
    exact parseExtensions_grows env ClientHello.lengthPrefixedEcPointFormats
      (fun c e => (parseExtensionsStep_grows env c e).2.1) chs ch1
  · rw [p_b3]
    exact parseExtensions_grows env ClientHello.lengthPrefixedSignatureAlgos
      (fun c e => (parseExtensionsStep_grows env c e).2.2.1) chs ch1
  · rw [p_b4]
    exact parseExtensions_grows env ClientHello.lengthPrefixedCertCompressAlgos
      (fun c e => (parseExtensionsStep_grows env c e).2.2.2) chs ch1

section SampleHello

set_option maxRecDepth 100000

/-- Claim C25, as the code has it: `ParseClientHello` succeeds on the fresh record holding
`sampleHello`, uTLS decoding it to `sampleHelloSpec`.  Running `parseExtensions` with that
`ClientHelloSpec` and then `parseExtra` on the resulting record again succeeds, and the lists
built by `append` then hold their elements twice: `NamedGroupList` is
`1d 17 18 1d 17 18` instead of `1d 17 18`, `lengthPrefixedSupportedGroups` holds a second
block, and `keyshareGroupsWithLengths` holds its pair twice.  `ParseClientHello` itself does
not return when it is called on that record. -/
theorem parse_steps_again_append :
    sampleEnvHello.RawClientHello sampleHello = .ok sampleHelloSpec ∧
    ParseClientHello sampleEnvHello { raw := sampleHello } = some (sampleHelloParsed, none) ∧
    parseExtra sampleEnvHello (parseExtensions sampleEnvHello sampleHelloParsed sampleHelloSpec) =
      some (sampleHelloParsedAgain, none) ∧
    sampleHelloParsedAgain ≠ sampleHelloParsed ∧
    sampleHelloParsed.NamedGroupList = [0x1d, 0x17, 0x18] ∧
    sampleHelloParsedAgain.NamedGroupList = [0x1d, 0x17, 0x18, 0x1d, 0x17, 0x18] ∧
    sampleHelloParsed.lengthPrefixedSupportedGroups = [6, 0x1d, 0x17, 0x18] ∧
    sampleHelloParsedAgain.lengthPrefixedSupportedGroups =
      [6, 0x1d, 0x17, 0x18, 12, 0x1d, 0x17, 0x18, 0x1d, 0x17, 0x18] ∧
    sampleHelloParsed.keyshareGroupsWithLengths = [0x1d, 32] ∧
    sampleHelloParsedAgain.keyshareGroupsWithLengths = [0x1d, 32, 0x1d, 32] ∧
    ParseClientHello sampleEnvHello sampleHelloParsed = none :=
  ⟨rfl, rfl, rfl, fun h => absurd (congrArg ClientHello.NamedGroupList h) (by decide),
    rfl, rfl, rfl, rfl, rfl, rfl, rfl⟩

/-- Claim C25, amended, on the sample record: the parse steps run again on the record that
`ParseClientHello` has left of `sampleHello`. -/
theorem ParseClientHello_steps_again_witness :
    ParseClientHello sampleEnvHello { raw := sampleHello } = some (sampleHelloParsed, none) ∧
    ∃ chs : ClientHelloSpec,
      sampleEnvHello.RawClientHello ({ raw := sampleHello } : ClientHello).raw = .ok chs ∧
    sampleHelloParsed.finalizerSet = true ∧
    ParseClientHello sampleEnvHello sampleHelloParsed = none ∧
    ∃ ch2 : ClientHello,
      parseExtra sampleEnvHello (parseExtensions sampleEnvHello sampleHelloParsed chs) =
        some (ch2, none) ∧
      (ch2.raw = sampleHelloParsed.raw ∧
        ch2.TLSRecordVersion = sampleHelloParsed.TLSRecordVersion ∧
        ch2.TLSHandshakeVersion = sampleHelloParsed.TLSHandshakeVersion ∧
        ch2.CipherSuites = sampleHelloParsed.CipherSuites ∧
        ch2.CompressionMethods = sampleHelloParsed.CompressionMethods ∧
        ch2.Extensions = sampleHelloParsed.Extensions ∧
        ch2.ExtensionsNormalized = sampleHelloParsed.ExtensionsNormalized ∧
        ch2.ServerName = sampleHelloParsed.ServerName ∧
        ch2.UserAgent = sampleHelloParsed.UserAgent ∧
        ch2.ECPointFormatList = sampleHelloParsed.ECPointFormatList ∧
        ch2.ALPN = sampleHelloParsed.ALPN ∧
        ch2.PSKKeyExchangeModes = sampleHelloParsed.PSKKeyExchangeModes ∧
        ch2.ApplicationSettings = sampleHelloParsed.ApplicationSettings ∧
        ch2.qtp = sampleHelloParsed.qtp ∧
        ch2.alpnWithLengths = sampleHelloParsed.alpnWithLengths) ∧
      ((∃ D, sampleHelloParsed.NamedGroupList =
            ({ raw := sampleHello } : ClientHello).NamedGroupList ++ D ∧
          ch2.NamedGroupList = sampleHelloParsed.NamedGroupList ++ D) ∧
        (∃ D, sampleHelloParsed.SignatureSchemeList =
            ({ raw := sampleHello } : ClientHello).SignatureSchemeList ++ D ∧
          ch2.SignatureSchemeList = sampleHelloParsed.SignatureSchemeList ++ D) ∧
        (∃ D, sampleHelloParsed.CertCompressAlgo =
            ({ raw := sampleHello } : ClientHello).CertCompressAlgo ++ D ∧
          ch2.CertCompressAlgo = sampleHelloParsed.CertCompressAlgo ++ D) ∧
        (∃ D, sampleHelloParsed.RecordSizeLimit =
            ({ raw := sampleHello } : ClientHello).RecordSizeLimit ++ D ∧
          ch2.RecordSizeLimit = sampleHelloParsed.RecordSizeLimit ++ D) ∧
        (∃ D, sampleHelloParsed.SupportedVersions =
            ({ raw := sampleHello } : ClientHello).SupportedVersions ++ D ∧
          ch2.SupportedVersions = sampleHelloParsed.SupportedVersions ++ D) ∧
        (∃ D, sampleHelloParsed.KeyShare =
            ({ raw := sampleHello } : ClientHello).KeyShare ++ D ∧
          ch2.KeyShare = sampleHelloParsed.KeyShare ++ D) ∧
        (∃ D, sampleHelloParsed.keyshareGroupsWithLengths =
            ({ raw := sampleHello } : ClientHello).keyshareGroupsWithLengths ++ D ∧
          ch2.keyshareGroupsWithLengths = sampleHelloParsed.keyshareGroupsWithLengths ++ D)) ∧
      (sampleHelloParsed.lengthPrefixedSupportedGroups <+: ch2.lengthPrefixedSupportedGroups ∧
        sampleHelloParsed.lengthPrefixedEcPointFormats <+: ch2.lengthPrefixedEcPointFormats ∧
        sampleHelloParsed.lengthPrefixedSignatureAlgos <+: ch2.lengthPrefixedSignatureAlgos ∧
        sampleHelloParsed.lengthPrefixedCertCompressAlgos <+:
          ch2.lengthPrefixedCertCompressAlgos) ∧
      ((ch2.NumID = sampleHelloParsed.NumID ∧ ch2.NormNumID = sampleHelloParsed.NormNumID ∧
          ch2.HexID = sampleHelloParsed.HexID ∧ ch2.NormHexID = sampleHelloParsed.NormHexID) ∨
        ((ch2.NumID, ch2.NormNumID) =
            sampleEnvHello.calcNumericID
              { ch2 with NumID := sampleHelloParsed.NumID,
                         NormNumID := sampleHelloParsed.NormNumID,
                         HexID := sampleHelloParsed.HexID,
                         NormHexID := sampleHelloParsed.NormHexID } ∧
          ch2.HexID = AsHex ch2.NumID ∧ ch2.NormHexID = AsHex ch2.NormNumID)) :=
  ⟨rfl,
    ParseClientHello_steps_again sampleEnvHello { raw := sampleHello } sampleHelloParsed rfl⟩

end SampleHello

end Clienthellod
